import Mathlib

/-!
# EmbeddedSoftware: sleep arbitration, event scheduler, I2C engine, LEUART sequencer

A shallow embedding of `sleep_routines.c`, `scheduler.c`, `i2c.c`, `leuart.c`,
the loop of `main.c` and `si7021_conversion` (Simplicity/SF_I2C_SP21,
SF_UART_SP21, SF_Course_Project_SP21) together with the properties proved
about them.  Global C variables become explicit state that every function
takes and returns.
-/

namespace EmbeddedSoftware

/-! ## Assertions -/

/-- Result of a function that contains `EFM_ASSERT`.  With the assertion
handler compiled in, a failed `EFM_ASSERT` never returns to its caller:
`fatal s` records the state `s` at the moment the assertion failed, `ok s` the
state on a normal return. -/
inductive Outcome (σ : Type) where
  | ok (s : σ)
  | fatal (s : σ)

namespace Outcome

/-- True on the assertion-failure path. -/
def isFatal {σ : Type} : Outcome σ → Bool
  | ok _ => false
  | fatal _ => true

/-- The state at the end of the run (on return, or where the assertion failed). -/
def state {σ : Type} : Outcome σ → σ
  | ok s => s
  | fatal s => s

/-- Sequencing: code after a failed assertion does not run. -/
def bind {σ : Type} (o : Outcome σ) (f : σ → Outcome σ) : Outcome σ :=
  match o with
  | ok s => f s
  | fatal s => fatal s

end Outcome

/-! ## sleep_routines.h / sleep_routines.c -/

/-- Constant `MAX_ENERGY_MODES 5` (a `#define`). -/
abbrev MAX_ENERGY_MODES : Nat := 5

/-- Constant `EM0 0` (a `#define`). -/
abbrev EM0 : Fin MAX_ENERGY_MODES := 0
/-- Constant `EM1 1` (a `#define`). -/
abbrev EM1 : Fin MAX_ENERGY_MODES := 1
/-- Constant `EM2 2` (a `#define`). -/
abbrev EM2 : Fin MAX_ENERGY_MODES := 2
/-- Constant `EM3 3` (a `#define`). -/
abbrev EM3 : Fin MAX_ENERGY_MODES := 3
/-- Constant `EM4 4` (a `#define`). -/
abbrev EM4 : Fin MAX_ENERGY_MODES := 4

/-- Array `static int lowest_energy_mode[MAX_ENERGY_MODES]`: one `int` counter per
energy mode.  The index type excludes out-of-bounds accesses. -/
abbrev VoteTable : Type := Fin MAX_ENERGY_MODES → Int

/-- Smallest value of a 32-bit `int`. -/
def INT_MIN : Int := -2147483648

/-- Largest value of a 32-bit `int`. -/
def INT_MAX : Int := 2147483647

/-- Two's-complement reduction of an integer to the 32-bit `int` range, the
value an `int` holds after `++` or `--` on the target. -/
def wrap_int (x : Int) : Int := (x + 2147483648) % 4294967296 - 2147483648

/-- Every counter of the table is a value of type `int`. -/
def IntRange (t : VoteTable) : Prop := ∀ i, INT_MIN ≤ t i ∧ t i ≤ INT_MAX

/-- Function `sleep_open`: the loop stores 0 in every slot. -/
def sleep_open (_t : VoteTable) : VoteTable := fun _ => 0

/-- Function `sleep_block_mode(EM)`: `lowest_energy_mode[EM]++` and then
`EFM_ASSERT(lowest_energy_mode[EM] < 5)`; the store precedes the assertion. -/
def sleep_block_mode (EM : Fin MAX_ENERGY_MODES) (t : VoteTable) : Outcome VoteTable :=
  let t1 := Function.update t EM (wrap_int (t EM + 1))
  if t1 EM < 5 then Outcome.ok t1 else Outcome.fatal t1

/-- Function `sleep_unblock_mode(EM)`: `if (lowest_energy_mode[EM] > 0)
lowest_energy_mode[EM]--` and then `EFM_ASSERT(lowest_energy_mode[EM] >= 0)`. -/
def sleep_unblock_mode (EM : Fin MAX_ENERGY_MODES) (t : VoteTable) : Outcome VoteTable :=
  let t1 := if t EM > 0 then Function.update t EM (wrap_int (t EM - 1)) else t
  if t1 EM ≥ 0 then Outcome.ok t1 else Outcome.fatal t1

/-- What `enter_sleep` does with the energy management unit before it returns. -/
inductive EmuCall where
  | noSleep
  | EnterEM1
  | EnterEM2
  | EnterEM3
  deriving DecidableEq, Repr

/-- Number of the energy mode entered (0 when the function returns without
sleeping). -/
def EmuCall.mode : EmuCall → Nat
  | noSleep => 0
  | EnterEM1 => 1
  | EnterEM2 => 2
  | EnterEM3 => 3

/-- Function `enter_sleep`: the if / else-if chain over `lowest_energy_mode[EM0..EM3]`.
The table is only read. -/
def enter_sleep (t : VoteTable) : EmuCall :=
  if t EM0 > 0 then EmuCall.noSleep
  else if t EM1 > 0 then EmuCall.noSleep
  else if t EM2 > 0 then EmuCall.EnterEM1
  else if t EM3 > 0 then EmuCall.EnterEM2
  else EmuCall.EnterEM3

/-- Body of the `for` loop of `current_block_energy_mode` started at loop
variable `i`; `fuel` bounds the number of iterations still to run. -/
def current_block_loop (t : VoteTable) : Nat → Nat → Nat
  | 0, _ => MAX_ENERGY_MODES - 1
  | fuel + 1, i =>
    if h : i < MAX_ENERGY_MODES then
      if t ⟨i, h⟩ ≠ 0 then i else current_block_loop t fuel (i + 1)
    else MAX_ENERGY_MODES - 1

/-- Function `current_block_energy_mode`: `for (uint32_t i; i < MAX_ENERGY_MODES; i++)`.
The loop variable is declared without an initialiser, so the value `i0` it
holds on entry is whatever the register or stack slot contained; it is a
parameter here.  The loop runs at most `MAX_ENERGY_MODES` times. -/
def current_block_energy_mode (i0 : Nat) (t : VoteTable) : Nat :=
  current_block_loop t MAX_ENERGY_MODES i0

/-- One call of the arbitration interface. -/
inductive SleepCall where
  | block (EM : Fin MAX_ENERGY_MODES)
  | unblock (EM : Fin MAX_ENERGY_MODES)
  deriving DecidableEq, Repr

/-- Run one call on the table. -/
def SleepCall.run : SleepCall → VoteTable → Outcome VoteTable
  | block EM, t => sleep_block_mode EM t
  | unblock EM, t => sleep_unblock_mode EM t

/-- Run a sequence of calls in order; the first failed assertion ends the run. -/
def run_sleep_calls : List SleepCall → VoteTable → Outcome VoteTable
  | [], t => Outcome.ok t
  | c :: cs, t => (c.run t).bind (run_sleep_calls cs)

/-- Number of `sleep_block_mode(d)` calls in a sequence. -/
def blocks (d : Fin MAX_ENERGY_MODES) (cs : List SleepCall) : Nat :=
  cs.count (SleepCall.block d)

/-- Number of `sleep_unblock_mode(d)` calls in a sequence. -/
def unblocks (d : Fin MAX_ENERGY_MODES) (cs : List SleepCall) : Nat :=
  cs.count (SleepCall.unblock d)

/-- A balanced sequence, in the words of the specification: per depth, every
unblock is preceded by an unmatched block of the same depth (no prefix has
more unblocks than blocks) and every block is eventually matched (the totals
agree). -/
def Balanced (cs : List SleepCall) : Prop :=
  ∀ d, (∀ n, n ≤ cs.length → unblocks d (cs.take n) ≤ blocks d (cs.take n)) ∧
    blocks d cs = unblocks d cs

instance (cs : List SleepCall) : Decidable (Balanced cs) := by
  unfold Balanced; infer_instance

/-- No depth ever has more than `k` unmatched blocks outstanding. -/
def NestedAtMost (k : Nat) (cs : List SleepCall) : Prop :=
  ∀ d n, n ≤ cs.length → blocks d (cs.take n) ≤ unblocks d (cs.take n) + k

instance (k : Nat) (cs : List SleepCall) : Decidable (NestedAtMost k cs) := by
  unfold NestedAtMost; infer_instance

/-- The table with the given five counters, `lowest_energy_mode[0..4]`. -/
def mkTable (a b c d e : Int) : VoteTable := fun i =>
  match i.val with
  | 0 => a
  | 1 => b
  | 2 => c
  | 3 => d
  | _ => e

/-! ## scheduler.c -/

/-- Complement `~x` on a `uint32_t`: every one of the 32 bits is flipped. -/
def not_uint32 (x : Nat) : Nat := (2 ^ 32 - 1) ^^^ x

/-- Function `scheduler_open`: `event_scheduled = 0`. -/
def scheduler_open (_event_scheduled : Nat) : Nat := 0

/-- Function `add_scheduled_event(event)`: `event_scheduled |= event`. -/
def add_scheduled_event (event : Nat) (event_scheduled : Nat) : Nat :=
  event_scheduled ||| event

/-- Function `remove_scheduled_event(event)`: `event_scheduled &= ~event`. -/
def remove_scheduled_event (event : Nat) (event_scheduled : Nat) : Nat :=
  event_scheduled &&& not_uint32 event

/-- Function `get_scheduled_events`: `return event_scheduled`. -/
def get_scheduled_events (event_scheduled : Nat) : Nat := event_scheduled

/-- One call that changes the event register. -/
inductive SchedCall where
  | add (event : Nat)
  | remove (event : Nat)
  deriving DecidableEq, Repr

/-- The mask a call was given. -/
def SchedCall.mask : SchedCall → Nat
  | add event => event
  | remove event => event

/-- Run one call on the register. -/
def SchedCall.run : SchedCall → Nat → Nat
  | add event, r => add_scheduled_event event r
  | remove event, r => remove_scheduled_event event r

/-- Run a sequence of calls on the register, in order. -/
def run_sched_calls : List SchedCall → Nat → Nat
  | [], r => r
  | c :: cs, r => run_sched_calls cs (c.run r)

/-! ## i2c.h / i2c.c -/

/-- Constant `I2C_EM_BLOCK EM2` (a `#define`). -/
abbrev I2C_EM_BLOCK : Fin MAX_ENERGY_MODES := EM2

/-- Constant `I2C_READ 1` (a `#define`). -/
abbrev I2C_READ : Nat := 1

/-- Constant `I2C_WRITE 0` (a `#define`). -/
abbrev I2C_WRITE : Nat := 0

/-- Enumeration `DEFINED_STATES`, the values of the enumeration in declaration order. -/
@[match_pattern] abbrev Start_CMD : Nat := 0
/-- Enumeration `DEFINED_STATES`: second enumerator. -/
@[match_pattern] abbrev Read_CMD : Nat := 1
/-- Enumeration `DEFINED_STATES`: third enumerator. -/
@[match_pattern] abbrev Wait_Read : Nat := 2
/-- Enumeration `DEFINED_STATES`: fourth enumerator. -/
@[match_pattern] abbrev End_Sense : Nat := 3
/-- Enumeration `DEFINED_STATES`: fifth enumerator. -/
@[match_pattern] abbrev Stop : Nat := 4

/-- The peripheral an `I2C_TypeDef *` designates. -/
inductive I2C_TypeDef where
  | I2C0
  | I2C1
  deriving DecidableEq, Repr

/-- The commands the driver writes to the `CMD` register
(`I2C_CMD_START`, `I2C_CMD_STOP`, `I2C_CMD_ACK`, `I2C_CMD_NACK`). -/
inductive I2C_CMD where
  | START
  | STOP
  | ACK
  | NACK
  deriving DecidableEq, Repr

/-- One write of the driver to a register of a peripheral. -/
inductive BusWrite where
  | CMD (i2c : I2C_TypeDef) (c : I2C_CMD)
  | TXDATA (i2c : I2C_TypeDef) (v : Nat)
  deriving DecidableEq, Repr

/-- Structure `I2C_STATE_MACHINE` of i2c.h; `uint32_t` fields are naturals, pointers are
the peripheral designated and the address of the destination word. -/
structure I2C_STATE_MACHINE where
  state : Nat
  I2Cn : I2C_TypeDef
  target_addr : Nat
  target_reg : Nat
  w_r : Bool
  data_addr : Nat
  bytes : Nat
  busy : Bool
  cb : Nat
  deriving DecidableEq, Repr

/-- The globals the bus engine works on: the vote table of sleep_routines.c,
the event register of scheduler.c, the context `i2c_state`, the memory words
that `data_addr` can point to, and two traces kept for the proofs: the
register writes made to the I2C peripherals and the arguments of the
`add_scheduled_event` calls, both in order. -/
structure World where
  lowest_energy_mode : VoteTable
  event_scheduled : Nat
  i2c_state : I2C_STATE_MACHINE
  mem : Nat → Nat
  bus : List BusWrite
  posted : List Nat

/-- Shift `x << s` on a `uint32_t`.  A shift count of 32 or more is undefined in C;
the result is taken to be 0 there. -/
def shl_uint32 (x s : Nat) : Nat := if s < 32 then (x <<< s) % 2 ^ 32 else 0

/-- Put the table a sleep routine left into the world, keeping the outcome. -/
def with_table (w : World) : Outcome VoteTable → Outcome World
  | Outcome.ok t => Outcome.ok { w with lowest_energy_mode := t }
  | Outcome.fatal t => Outcome.fatal { w with lowest_energy_mode := t }

/-- Function `i2c_ack_sm`: the ACK interrupt handler. -/
def i2c_ack_sm (w : World) : Outcome World :=
  match w.i2c_state.state with
  | Start_CMD =>
    Outcome.ok { w with
      i2c_state := { w.i2c_state with state := Read_CMD }
      bus := w.bus ++ [BusWrite.TXDATA w.i2c_state.I2Cn w.i2c_state.target_reg] }
  | Read_CMD =>
    Outcome.ok { w with
      i2c_state := { w.i2c_state with state := Wait_Read }
      bus := w.bus ++ [BusWrite.CMD w.i2c_state.I2Cn I2C_CMD.START,
        BusWrite.TXDATA w.i2c_state.I2Cn (shl_uint32 w.i2c_state.target_addr 1 ||| I2C_READ)] }
  | Wait_Read =>
    Outcome.ok { w with i2c_state := { w.i2c_state with state := End_Sense } }
  | End_Sense => Outcome.fatal w
  | Stop => Outcome.fatal w
  | _ => Outcome.fatal w

/-- Function `i2c_nack_sm`: the NACK interrupt handler. -/
def i2c_nack_sm (w : World) : Outcome World :=
  match w.i2c_state.state with
  | Start_CMD => Outcome.fatal w
  | Read_CMD => Outcome.fatal w
  | Wait_Read =>
    Outcome.ok { w with
      bus := w.bus ++ [BusWrite.CMD w.i2c_state.I2Cn I2C_CMD.START,
        BusWrite.TXDATA w.i2c_state.I2Cn (shl_uint32 w.i2c_state.target_addr 1 ||| I2C_READ)] }
  | End_Sense => Outcome.fatal w
  | Stop => Outcome.fatal w
  | _ => Outcome.fatal w

/-- Function `i2c_mstop_sm`: the MSTOP interrupt handler.  In state `Stop` it calls
`sleep_unblock_mode(EM2)` and then `add_scheduled_event(i2c->cb)`. -/
def i2c_mstop_sm (w : World) : Outcome World :=
  match w.i2c_state.state with
  | Start_CMD => Outcome.fatal w
  | Read_CMD => Outcome.fatal w
  | Wait_Read => Outcome.fatal w
  | End_Sense => Outcome.fatal w
  | Stop =>
    (with_table w (sleep_unblock_mode EM2 w.lowest_energy_mode)).bind fun w1 =>
      Outcome.ok { w1 with
        event_scheduled := add_scheduled_event w1.i2c_state.cb w1.event_scheduled
        posted := w1.posted ++ [w1.i2c_state.cb] }
  | _ => Outcome.fatal w

/-- Function `i2c_rxdatav_sm`: the RXDATAV interrupt handler; `rxdata` is the value
read from `i2c->I2Cn->RXDATA`.  `bytes -= 1` and `8*i2c->bytes` are `uint32_t`
arithmetic. -/
def i2c_rxdatav_sm (rxdata : Nat) (w : World) : Outcome World :=
  match w.i2c_state.state with
  | Start_CMD => Outcome.fatal w
  | Read_CMD => Outcome.fatal w
  | Wait_Read => Outcome.fatal w
  | End_Sense =>
    let bytes := (w.i2c_state.bytes + 2 ^ 32 - 1) % 2 ^ 32
    if bytes > 0 then
      Outcome.ok { w with
        i2c_state := { w.i2c_state with bytes := bytes }
        mem := Function.update w.mem w.i2c_state.data_addr
          (shl_uint32 rxdata (8 * bytes % 2 ^ 32))
        bus := w.bus ++ [BusWrite.CMD w.i2c_state.I2Cn I2C_CMD.ACK] }
    else
      Outcome.ok { w with
        i2c_state := { w.i2c_state with bytes := bytes, state := Stop }
        mem := Function.update w.mem w.i2c_state.data_addr
          (w.mem w.i2c_state.data_addr ||| rxdata)
        bus := w.bus ++ [BusWrite.CMD w.i2c_state.I2Cn I2C_CMD.NACK,
          BusWrite.CMD w.i2c_state.I2Cn I2C_CMD.STOP] }
  | Stop => Outcome.fatal w
  | _ => Outcome.fatal w

/-- Function `i2c_start`.  `hw_idle` is the truth value of
`(i2c->STATE & _I2C_STATE_STATE_MASK) == I2C_STATE_STATE_IDLE`, the test of
the leading `EFM_ASSERT`; the peripheral register and the two vendor constants
are not part of the driver. -/
def i2c_start (hw_idle : Bool) (i2c : I2C_TypeDef) (target_addr target_reg : Nat)
    (w_r : Bool) (data_addr bytes cb : Nat) (w : World) : Outcome World :=
  if hw_idle then
    (with_table w (sleep_block_mode I2C_EM_BLOCK w.lowest_energy_mode)).bind fun w1 =>
      Outcome.ok { w1 with
        i2c_state :=
          { state := Start_CMD
            I2Cn := i2c
            target_addr := target_addr
            target_reg := target_reg
            w_r := w_r
            data_addr := data_addr
            bytes := bytes
            busy := true
            cb := cb }
        bus := w1.bus ++ [BusWrite.CMD i2c I2C_CMD.START,
          BusWrite.TXDATA i2c (shl_uint32 target_addr 1 ||| I2C_WRITE)] }
  else Outcome.fatal w

/-- The four interrupt signals of the bus engine; `RXDATAV` comes with the
content of the `RXDATA` register. -/
inductive Signal where
  | ACK
  | NACK
  | MSTOP
  | RXDATAV (rxdata : Nat)
  deriving DecidableEq, Repr

/-- The handler the interrupt routine calls for a signal. -/
def i2c_signal : Signal → World → Outcome World
  | Signal.ACK, w => i2c_ack_sm w
  | Signal.NACK, w => i2c_nack_sm w
  | Signal.MSTOP, w => i2c_mstop_sm w
  | Signal.RXDATAV rxdata, w => i2c_rxdatav_sm rxdata w

/-- Deliver a sequence of signals in order; a failed assertion ends the run. -/
def run_signals : List Signal → World → Outcome World
  | [], w => Outcome.ok w
  | g :: gs, w => (i2c_signal g w).bind (run_signals gs)

/-- A world to evaluate examples in: the table of `sleep_open`, the register
of `scheduler_open`, an idle context, empty traces, and every memory word
holding `fill`. -/
def exampleWorld (fill : Nat) : World :=
  { lowest_energy_mode := sleep_open (mkTable 0 0 0 0 0)
    event_scheduled := scheduler_open 0
    i2c_state :=
      { state := Start_CMD
        I2Cn := I2C_TypeDef.I2C0
        target_addr := 0
        target_reg := 0
        w_r := false
        data_addr := 0
        bytes := 0
        busy := false
        cb := 0 }
    mem := fun _ => fill
    bus := []
    posted := [] }

/-- The transition table as the specification lists it: the pairs of a state
and a signal that the bus engine expects. -/
def expected_transition (s : Nat) (g : Signal) : Bool :=
  (s == Start_CMD && g == Signal.ACK) || (s == Read_CMD && g == Signal.ACK) ||
  (s == Wait_Read && g == Signal.ACK) || (s == Wait_Read && g == Signal.NACK) ||
  (s == End_Sense && g matches Signal.RXDATAV _) || (s == Stop && g == Signal.MSTOP)

/-- Apply a function to the state an outcome carries, keeping its kind. -/
def Outcome.map {σ : Type} (f : σ → σ) : Outcome σ → Outcome σ
  | Outcome.ok s => Outcome.ok (f s)
  | Outcome.fatal s => Outcome.fatal (f s)

/-- The world without its trace of bus writes: what is left to compare when
two runs may differ in the commands they sent. -/
def forget_bus (w : World) : World := { w with bus := [] }

/-- The world with the stored direction flag blanked: what is left to compare
when two runs may differ in the flag only. -/
def forget_w_r (w : World) : World := { w with i2c_state := { w.i2c_state with w_r := false } }

/-- The signals of one complete read: the device acknowledges the write
address and the register byte, answers the read address with `k`
not-acknowledges before it acknowledges, delivers the bytes `rx`, and the
stop condition completes. -/
def transaction_signals (k : Nat) (rx : List Nat) : List Signal :=
  [Signal.ACK, Signal.ACK] ++ List.replicate k Signal.NACK ++ [Signal.ACK] ++
    rx.map Signal.RXDATAV ++ [Signal.MSTOP]

/-- The big-endian value of three bytes, most significant first: what a
three-byte register read is meant to assemble. -/
def big_endian3 (b1 b2 b3 : Nat) : Nat := 65536 * b1 + 256 * b2 + b3

/-- The call the specification pairs with a deepest permitted depth `d`: no sleep
for 0 and 1, EM1 for 2, EM2 for 3, EM3 for 4. -/
def sleep_for_block (d : Nat) : EmuCall :=
  if d = 0 ∨ d = 1 then EmuCall.noSleep
  else if d = 2 then EmuCall.EnterEM1
  else if d = 3 then EmuCall.EnterEM2
  else EmuCall.EnterEM3

/-! ## leuart.c -/

/-- Enumeration `DEFINED_STATES` of leuart.c: first enumerator. -/
@[match_pattern] abbrev EN_TX : Nat := 0
/-- Enumeration `DEFINED_STATES` of leuart.c: second enumerator. -/
@[match_pattern] abbrev TX_DATA : Nat := 1
/-- Enumeration `DEFINED_STATES` of leuart.c: third enumerator. -/
@[match_pattern] abbrev END_TX : Nat := 2

/-- Structure `LEUART_STATE_MACHINE`, with the fields leuart.c reads and writes.
`string` is the `char` buffer, indexed from 0; an index past the end of the
array is not excluded by the type, as it is not in C.  The `leuart` pointer
is left out: `LEUART0` is the only peripheral the driver accepts. -/
structure LEUART_STATE_MACHINE where
  state : Nat
  string : Nat → Nat
  count : Nat
  length : Nat
  busy : Bool
  callback : Nat

/-- The globals the serial sequencer works on: the vote table, the event
register, the context `leuart_state`, the global `tx_done_evt`, the TXBL and
TXC bits of the peripheral's interrupt enable register `IEN`, and two traces
kept for the proofs: the bytes written to `TXDATA` and the arguments of the
`add_scheduled_event` calls, both in order. -/
structure LeuartWorld where
  lowest_energy_mode : VoteTable
  event_scheduled : Nat
  leuart_state : LEUART_STATE_MACHINE
  tx_done_evt : Nat
  ien_txbl : Bool
  ien_txc : Bool
  txdata : List Nat
  posted : List Nat

/-- Put the table a sleep routine left into the world, keeping the outcome. -/
def with_table_leuart (w : LeuartWorld) : Outcome VoteTable → Outcome LeuartWorld
  | Outcome.ok t => Outcome.ok { w with lowest_energy_mode := t }
  | Outcome.fatal t => Outcome.fatal { w with lowest_energy_mode := t }

/-- Library function `strcpy`, writing from index `i` of the destination: the bytes
of the source are copied up to and including the first zero byte.  The source
is the list of bytes that lie at the caller's pointer; when it holds no zero
byte the C function reads on past them, which is undefined, and the model
stops at the end of the list. -/
def strcpy_from (i : Nat) (dst : Nat → Nat) : List Nat → Nat → Nat
  | [] => dst
  | c :: rest =>
    if c = 0 then Function.update dst i 0
    else strcpy_from (i + 1) (Function.update dst i c) rest

/-- Library function `strcpy(dst, src)`. -/
def strcpy (dst : Nat → Nat) (src : List Nat) : Nat → Nat := strcpy_from 0 dst src

/-- Function `leuart_app_transmit_byte`: `leuart->TXDATA = data_out`, the argument
converted to `uint8_t`.  The wait for the TXBL flag that precedes the store
is taken to end. -/
def leuart_app_transmit_byte (data_out : Nat) (w : LeuartWorld) : LeuartWorld :=
  { w with txdata := w.txdata ++ [data_out % 256] }

/-- Function `leuart_txbl`: the TXBL interrupt handler.  `count++` is `uint32_t`
arithmetic; the writes to the flag-clear register `IFC` act on the hardware
flags only and are left out. -/
def leuart_txbl (w : LeuartWorld) : Outcome LeuartWorld :=
  match w.leuart_state.state with
  | EN_TX =>
    Outcome.ok { w with
      ien_txbl := true
      leuart_state := { w.leuart_state with state := TX_DATA } }
  | TX_DATA =>
    let w1 := leuart_app_transmit_byte (w.leuart_state.string w.leuart_state.count) w
    let count := (w.leuart_state.count + 1) % 2 ^ 32
    if count = w.leuart_state.length then
      Outcome.ok { w1 with
        ien_txbl := false
        ien_txc := true
        leuart_state := { w1.leuart_state with count := count, state := END_TX } }
    else
      Outcome.ok { w1 with leuart_state := { w1.leuart_state with count := count } }
  | END_TX => Outcome.fatal w
  | _ => Outcome.fatal w

/-- Function `leuart_txc`: the TXC interrupt handler; `LEUART_TX_EM` is the energy
mode constant of leuart.h. -/
def leuart_txc (LEUART_TX_EM : Fin MAX_ENERGY_MODES) (w : LeuartWorld) : Outcome LeuartWorld :=
  match w.leuart_state.state with
  | EN_TX => Outcome.fatal w
  | TX_DATA => Outcome.fatal w
  | END_TX =>
    let w1 : LeuartWorld := { w with
      ien_txc := false
      event_scheduled := add_scheduled_event w.leuart_state.callback w.event_scheduled
      posted := w.posted ++ [w.leuart_state.callback] }
    (with_table_leuart w1 (sleep_unblock_mode LEUART_TX_EM w1.lowest_energy_mode)).bind
      fun w2 => Outcome.ok { w2 with
        leuart_state := { w2.leuart_state with state := EN_TX, busy := false } }
  | _ => Outcome.fatal w

/-- Function `leuart_start(leuart, string, string_len)`.  The wait on `SYNCBUSY` is
taken to end; the critical section that surrounds the body changes nothing
in a run without interrupts. -/
def leuart_start (LEUART_TX_EM : Fin MAX_ENERGY_MODES) (string : List Nat) (string_len : Nat)
    (w : LeuartWorld) : Outcome LeuartWorld :=
  (with_table_leuart w (sleep_block_mode LEUART_TX_EM w.lowest_energy_mode)).bind fun w1 =>
    Outcome.ok { w1 with
      leuart_state :=
        { callback := w1.tx_done_evt
          count := 0
          length := string_len
          state := EN_TX
          string := strcpy w1.leuart_state.string string
          busy := true }
      ien_txbl := true }

/-- Function `leuart_tx_busy`: `return leuart_state.busy`. -/
def leuart_tx_busy (w : LeuartWorld) : Bool := w.leuart_state.busy

/-- The two interrupt signals of the serial sequencer. -/
inductive LeuartSignal where
  | TXBL
  | TXC
  deriving DecidableEq, Repr

/-- The handler the interrupt routine calls for a signal. -/
def leuart_signal (LEUART_TX_EM : Fin MAX_ENERGY_MODES) :
    LeuartSignal → LeuartWorld → Outcome LeuartWorld
  | LeuartSignal.TXBL, w => leuart_txbl w
  | LeuartSignal.TXC, w => leuart_txc LEUART_TX_EM w

/-- Deliver a sequence of signals in order; a failed assertion ends the run. -/
def run_leuart_signals (LEUART_TX_EM : Fin MAX_ENERGY_MODES) :
    List LeuartSignal → LeuartWorld → Outcome LeuartWorld
  | [], w => Outcome.ok w
  | g :: gs, w => (leuart_signal LEUART_TX_EM g w).bind (run_leuart_signals LEUART_TX_EM gs)

/-- The pairs of a state and a signal that the serial sequencer expects, as the
specification lists them. -/
def leuart_expected_transition (s : Nat) (g : LeuartSignal) : Bool :=
  (s == EN_TX && g == LeuartSignal.TXBL) || (s == TX_DATA && g == LeuartSignal.TXBL) ||
  (s == END_TX && g == LeuartSignal.TXC)

/-- A world to evaluate examples in: the table of `sleep_open`, the register
of `scheduler_open`, an idle context whose buffer holds `fill` everywhere,
completion id `tx_done_evt`, both interrupts disabled, empty traces. -/
def exampleLeuartWorld (fill tx_done_evt : Nat) : LeuartWorld :=
  { lowest_energy_mode := sleep_open (mkTable 0 0 0 0 0)
    event_scheduled := scheduler_open 0
    leuart_state :=
      { state := EN_TX
        string := fun _ => fill
        count := 0
        length := 0
        busy := false
        callback := 0 }
    tx_done_evt := tx_done_evt
    ien_txbl := false
    ien_txc := false
    txdata := []
    posted := [] }

/-- The world after the bytes `bytes` have been written to `TXDATA` and `count`
has gone up by their number. -/
def LeuartWorld.sent (w : LeuartWorld) (bytes : List Nat) : LeuartWorld :=
  { w with
    txdata := w.txdata ++ bytes
    leuart_state := { w.leuart_state with count := w.leuart_state.count + bytes.length } }

/-! ## main.c -/

/-- The event ids that `main` compares against, in the order of its `if`
statements.  They are `#define`s of the course project's app.h, which is not
among the sources, so their values are parameters. -/
structure AppIds where
  LETIMER0_UF_CB : Nat
  LETIMER0_COMP0_CB : Nat
  LETIMER0_COMP1_CB : Nat
  SI7021_HREAD_CB : Nat
  SI7021_TREAD_CB : Nat
  BOOT_UP_CB : Nat
  BLE_TX_DONE_CB : Nat
  VEML6030_READ_CB : Nat

/-- The functions one pass of the loop of `main` can call. -/
inductive MainCall where
  | enter_sleep
  | scheduled_letimer0_uf_cb
  | scheduled_letimer0_comp0_cb
  | scheduled_letimer0_comp1_cb
  | scheduled_si7021_hread_cb
  | scheduled_si7021_tread_cb
  | scheduled_boot_up_cb
  | scheduled_ble_tx_done_cb
  | scheduled_veml6030_read_cb
  deriving DecidableEq, Repr

/-- The `if (get_scheduled_events() == X) handler();` statements of the loop body,
in source order. -/
def main_tests (ids : AppIds) : List (Nat × MainCall) :=
  [(ids.LETIMER0_UF_CB, MainCall.scheduled_letimer0_uf_cb),
   (ids.LETIMER0_COMP0_CB, MainCall.scheduled_letimer0_comp0_cb),
   (ids.LETIMER0_COMP1_CB, MainCall.scheduled_letimer0_comp1_cb),
   (ids.SI7021_HREAD_CB, MainCall.scheduled_si7021_hread_cb),
   (ids.SI7021_TREAD_CB, MainCall.scheduled_si7021_tread_cb),
   (ids.BOOT_UP_CB, MainCall.scheduled_boot_up_cb),
   (ids.BLE_TX_DONE_CB, MainCall.scheduled_ble_tx_done_cb),
   (ids.VEML6030_READ_CB, MainCall.scheduled_veml6030_read_cb)]

/-- One `if (get_scheduled_events() == X) handler();` statement on the pair of
the event register and the list of calls made so far.  `effect` is what a
handler does to the event register; the register is read again by the next
statement. -/
def main_test (effect : MainCall → Nat → Nat) (acc : Nat × List MainCall)
    (p : Nat × MainCall) : Nat × List MainCall :=
  if get_scheduled_events acc.1 = p.1 then (effect p.2 acc.1, acc.2 ++ [p.2]) else acc

/-- One pass of the body of `while (1)` in `main`, with no interrupt arriving:
`if (!get_scheduled_events()) enter_sleep();` and then the eight tests.  The
result is the event register after the pass and the calls made, in order. -/
def main_loop_pass (ids : AppIds) (effect : MainCall → Nat → Nat) (event_scheduled : Nat) :
    Nat × List MainCall :=
  (main_tests ids).foldl (main_test effect)
    (event_scheduled,
      if get_scheduled_events event_scheduled = 0 then [MainCall.enter_sleep] else [])

/-- A number of passes one after the other: the register after the last pass
and all the calls made. -/
def main_loop_passes (ids : AppIds) (effect : MainCall → Nat → Nat) :
    Nat → Nat → Nat × List MainCall
  | 0, event_scheduled => (event_scheduled, [])
  | n + 1, event_scheduled =>
    let r := main_loop_pass ids effect event_scheduled
    let r1 := main_loop_passes ids effect n r.1
    (r1.1, r.2 ++ r1.2)

/-! ## si7021.c -/

/-- Function `si7021_conversion`: the value of the `uint32_t` expression
`((125*view)/65536)-6` with `view = data`, which the `return` statement then
converts to `float`.  The product, the quotient and the difference are all
taken on `uint32_t`, the operand `view` being unsigned. -/
def si7021_conversion (data : Nat) : Nat :=
  ((125 * (data % 2 ^ 32)) % 2 ^ 32 / 65536 + 2 ^ 32 - 6) % 2 ^ 32

/-- The relative humidity of the data sheet for a raw reading `v`:
`125 * v / 65536 - 6`, rounded down, as a signed number. -/
def datasheet_rh (v : Nat) : Int := ((125 * v / 65536 : Nat) : Int) - 6

/-! ## Theorems: sleep arbitration -/

/-- C1: `enter_sleep` never enters a mode that is blocked or deeper than a
blocked one: with `e` the mode it enters, `e < j` for every depth `j` in 1..4
whose counter is positive, and `e = 0` when the counter of depth 0 is
positive. -/
theorem enter_sleep_never_blocked (t : VoteTable) :
    (∀ j : Fin MAX_ENERGY_MODES, 1 ≤ j.val → 0 < t j → (enter_sleep t).mode < j.val) ∧
    (0 < t EM0 → (enter_sleep t).mode = 0) := by
  constructor
  · intro j hj hpos
    have hall : ∀ k : Fin MAX_ENERGY_MODES, 1 ≤ k.val →
        k = EM1 ∨ k = EM2 ∨ k = EM3 ∨ k = EM4 := by decide
    unfold enter_sleep
    rcases hall j hj with rfl | rfl | rfl | rfl <;> split_ifs <;>
      decide
  · intro h
    simp [enter_sleep, h, EmuCall.mode]

/-- The loop started at `i` returns the first index at or after `i` whose
counter is nonzero, given enough iterations to reach it. -/
theorem current_block_loop_first (t : VoteTable) (k : Fin MAX_ENERGY_MODES) (hk : t k ≠ 0) :
    ∀ fuel i, i ≤ k.val → k.val < i + fuel →
      (∀ j : Fin MAX_ENERGY_MODES, i ≤ j.val → j.val < k.val → t j = 0) →
      current_block_loop t fuel i = k.val := by
  intro fuel
  induction fuel with
  | zero => intro i h1 h2 _; omega
  | succ n ih =>
    intro i h1 h2 hz
    have hi : i < MAX_ENERGY_MODES := lt_of_le_of_lt h1 k.isLt
    unfold current_block_loop
    rw [dif_pos hi]
    by_cases hne : t ⟨i, hi⟩ ≠ 0
    · rw [if_pos hne]
      by_contra hik
      exact hne (hz ⟨i, hi⟩ (le_refl i) (by simp only []; omega))
    · rw [if_neg hne]
      have hik : i ≠ k.val := by
        rintro rfl
        exact hne hk
      apply ih (i + 1) (by omega) (by omega)
      intro j hj hjk
      exact hz j (by omega) hjk

/-- The loop returns `MAX_ENERGY_MODES - 1` when no counter at or after its
starting index is nonzero, whatever that index is. -/
theorem current_block_loop_none (t : VoteTable) :
    ∀ fuel i, (∀ j : Fin MAX_ENERGY_MODES, i ≤ j.val → t j = 0) →
      current_block_loop t fuel i = MAX_ENERGY_MODES - 1 := by
  intro fuel
  induction fuel with
  | zero => intro i _; rfl
  | succ n ih =>
    intro i hz
    unfold current_block_loop
    by_cases hi : i < MAX_ENERGY_MODES
    · rw [dif_pos hi, if_neg (by simpa using hz ⟨i, hi⟩ (le_refl i))]
      exact ih (i + 1) (fun j hj => hz j (by omega))
    · rw [dif_neg hi]

/-- With the loop variable started at 0, as the loop is meant to run,
`current_block_energy_mode` returns the first index whose counter is nonzero
and `MAX_ENERGY_MODES - 1` when there is none. -/
theorem current_block_energy_mode_from_zero (t : VoteTable) :
    (∀ i : Fin MAX_ENERGY_MODES, t i ≠ 0 → (∀ j, j < i → t j = 0) →
      current_block_energy_mode 0 t = i.val) ∧
    ((∀ i, t i = 0) → current_block_energy_mode 0 t = MAX_ENERGY_MODES - 1) := by
  constructor
  · intro i hi hlt
    exact current_block_loop_first t i hi MAX_ENERGY_MODES 0 (Nat.zero_le _)
      (by have := i.isLt; omega) (fun j _ hj => hlt j (Fin.lt_def.mpr hj))
  · intro hz
    exact current_block_loop_none t MAX_ENERGY_MODES 0 (fun j _ => hz j)

/-- C2: evaluation at the failing input.  With depth 0 blocked
(`lowest_energy_mode = {1, 0, 0, 0, 0}`) the smallest nonzero index is 0, yet
when the uninitialised loop variable starts at 1, or at any value of 5 or
more, `current_block_energy_mode` returns 4. -/
theorem current_block_energy_mode_uninitialised :
    (mkTable 1 0 0 0 0) EM0 ≠ 0 ∧
    current_block_energy_mode 1 (mkTable 1 0 0 0 0) = 4 ∧
    (∀ i0, 5 ≤ i0 → current_block_energy_mode i0 (mkTable 1 0 0 0 0) = 4) ∧
    current_block_energy_mode 0 (mkTable 1 0 0 0 0) = 0 := by
  refine ⟨by decide, by decide, ?_, by decide⟩
  intro i0 h
  have : ¬ i0 < MAX_ENERGY_MODES := by simp only [MAX_ENERGY_MODES]; omega
  simp [current_block_energy_mode, current_block_loop, this]

/-- A value in the `int` range is unchanged by the reduction. -/
theorem wrap_int_of_range (x : Int) (h1 : INT_MIN ≤ x) (h2 : x ≤ INT_MAX) :
    wrap_int x = x := by
  unfold wrap_int
  unfold INT_MIN at h1
  unfold INT_MAX at h2
  omega

/-- Counting blocks through the head of a sequence. -/
theorem blocks_cons (d : Fin MAX_ENERGY_MODES) (c : SleepCall) (cs : List SleepCall) :
    blocks d (c :: cs) = blocks d cs + if c = SleepCall.block d then 1 else 0 := by
  simp [blocks, List.count_cons]

/-- Counting unblocks through the head of a sequence. -/
theorem unblocks_cons (d : Fin MAX_ENERGY_MODES) (c : SleepCall) (cs : List SleepCall) :
    unblocks d (c :: cs) = unblocks d cs + if c = SleepCall.unblock d then 1 else 0 := by
  simp [unblocks, List.count_cons]

/-- Running a sequence from a table `t` of non-negative counters: when after
every prefix each counter plus the blocks minus the unblocks of that prefix
stays within 0..4, every call returns normally and each final counter is the
initial one plus the blocks minus the unblocks of the whole sequence. -/
theorem run_sleep_calls_counts (cs : List SleepCall) :
    ∀ t : VoteTable,
      (∀ d n, n ≤ cs.length →
        0 ≤ t d + (blocks d (cs.take n) : Int) - (unblocks d (cs.take n) : Int) ∧
        t d + (blocks d (cs.take n) : Int) - (unblocks d (cs.take n) : Int) ≤ 4) →
      ∃ t1, run_sleep_calls cs t = Outcome.ok t1 ∧
        ∀ d, t1 d = t d + (blocks d cs : Int) - (unblocks d cs : Int) := by
  induction cs with
  | nil =>
    intro t _
    exact ⟨t, rfl, fun d => by simp [blocks, unblocks]⟩
  | cons c cs ih =>
    intro t h
    have h0 : ∀ d, 0 ≤ t d ∧ t d ≤ 4 := fun d => by
      simpa [blocks, unblocks] using h d 0 (Nat.zero_le _)
    have hstep : ∀ d n, n ≤ cs.length →
        0 ≤ t d + (blocks d (c :: cs.take n) : Int) - (unblocks d (c :: cs.take n) : Int) ∧
        t d + (blocks d (c :: cs.take n) : Int) - (unblocks d (c :: cs.take n) : Int) ≤ 4 :=
      fun d n hn => by simpa using h d (n + 1) (by simpa using hn)
    cases c with
    | block e =>
      have he := hstep e 0 (Nat.zero_le _)
      simp [blocks_cons, unblocks_cons, blocks, unblocks] at he
      have hw : wrap_int (t e + 1) = t e + 1 :=
        wrap_int_of_range _ (by unfold INT_MIN; have := h0 e; omega)
          (by unfold INT_MAX; omega)
      have hrun : sleep_block_mode e t = Outcome.ok (Function.update t e (t e + 1)) := by
        simp only [sleep_block_mode, hw, Function.update_same]
        rw [if_pos (by omega)]
      obtain ⟨t1, ht1, hcount⟩ := ih (Function.update t e (t e + 1)) (by
        intro d n hn
        have := hstep d n hn
        rw [blocks_cons, unblocks_cons] at this
        by_cases hde : d = e
        · subst hde
          simp at this
          simp only [Function.update_same]
          omega
        · have hne : ¬ (SleepCall.block e = SleepCall.block d) := by
            intro hh; injection hh with hh; exact hde hh.symm
          simp [hne] at this
          simp only [Function.update_noteq hde]
          omega)
      refine ⟨t1, ?_, ?_⟩
      · simp only [run_sleep_calls, SleepCall.run, hrun, Outcome.bind, ht1]
      · intro d
        rw [hcount d, blocks_cons, unblocks_cons]
        by_cases hde : d = e
        · subst hde
          simp
          omega
        · have hne : ¬ (SleepCall.block e = SleepCall.block d) := by
            intro hh; injection hh with hh; exact hde hh.symm
          simp [hne, Function.update_noteq hde]
    | unblock e =>
      have he := hstep e 0 (Nat.zero_le _)
      simp [blocks_cons, unblocks_cons, blocks, unblocks] at he
      have hpos : t e > 0 := by omega
      have hw : wrap_int (t e - 1) = t e - 1 :=
        wrap_int_of_range _ (by unfold INT_MIN; omega)
          (by unfold INT_MAX; have := h0 e; omega)
      have hrun : sleep_unblock_mode e t = Outcome.ok (Function.update t e (t e - 1)) := by
        simp only [sleep_unblock_mode, if_pos hpos, hw, Function.update_same]
        rw [if_pos (by omega)]
      obtain ⟨t1, ht1, hcount⟩ := ih (Function.update t e (t e - 1)) (by
        intro d n hn
        have := hstep d n hn
        rw [blocks_cons, unblocks_cons] at this
        by_cases hde : d = e
        · subst hde
          simp at this
          simp only [Function.update_same]
          omega
        · have hne : ¬ (SleepCall.unblock e = SleepCall.unblock d) := by
            intro hh; injection hh with hh; exact hde hh.symm
          simp [hne] at this
          simp only [Function.update_noteq hde]
          omega)
      refine ⟨t1, ?_, ?_⟩
      · simp only [run_sleep_calls, SleepCall.run, hrun, Outcome.bind, ht1]
      · intro d
        rw [hcount d, blocks_cons, unblocks_cons]
        by_cases hde : d = e
        · subst hde
          simp
          omega
        · have hne : ¬ (SleepCall.unblock e = SleepCall.unblock d) := by
            intro hh; injection hh with hh; exact hde hh.symm
          simp [hne, Function.update_noteq hde]

/-- C3 (as amended): from the table of `sleep_open`, every balanced sequence
of `sleep_block_mode` / `sleep_unblock_mode` calls that never has more than 4
unmatched blocks on one depth runs without a failed assertion, ends with every
counter zero, and `current_block_energy_mode` then returns 4 for every initial
value of its loop variable. -/
theorem balanced_calls_restore_deepest (cs : List SleepCall) (t0 : VoteTable)
    (hb : Balanced cs) (hn : NestedAtMost 4 cs) :
    ∃ t, run_sleep_calls cs (sleep_open t0) = Outcome.ok t ∧ (∀ d, t d = 0) ∧
      ∀ i0, current_block_energy_mode i0 t = MAX_ENERGY_MODES - 1 := by
  obtain ⟨t, hrun, hcount⟩ := run_sleep_calls_counts cs (sleep_open t0) (by
    intro d n hle
    have h1 := (hb d).1 n hle
    have h2 := hn d n hle
    simp only [sleep_open]
    omega)
  have hz : ∀ d, t d = 0 := by
    intro d
    have h3 := (hb d).2
    rw [hcount d]
    simp only [sleep_open]
    omega
  exact ⟨t, hrun, hz, fun i0 => current_block_loop_none t _ i0 (fun j _ => hz j)⟩

/-- C3 witness: block EM2, block EM3, unblock EM2, unblock EM3 from a table of
arbitrary content passed to `sleep_open`. -/
theorem balanced_calls_restore_deepest_witness :
    ∃ t, run_sleep_calls
        [SleepCall.block EM2, SleepCall.block EM3, SleepCall.unblock EM2, SleepCall.unblock EM3]
        (sleep_open (mkTable 7 0 3 0 1)) = Outcome.ok t ∧ (∀ d, t d = 0) ∧
      ∀ i0, current_block_energy_mode i0 t = MAX_ENERGY_MODES - 1 :=
  balanced_calls_restore_deepest
    [SleepCall.block EM2, SleepCall.block EM3, SleepCall.unblock EM2, SleepCall.unblock EM3]
    (mkTable 7 0 3 0 1) (by decide) (by decide)

/-- C3 counterexample: five blocks of EM2 followed by five unblocks of EM2 is a
balanced sequence, yet the fifth `sleep_block_mode(EM2)` fails its assertion
with the counter at 5, so the sequence is not run to its end and the counters
are not all zero. -/
theorem balanced_calls_five_deep_fatal :
    Balanced (List.replicate 5 (SleepCall.block EM2) ++
        List.replicate 5 (SleepCall.unblock EM2)) ∧
      (run_sleep_calls (List.replicate 5 (SleepCall.block EM2) ++
        List.replicate 5 (SleepCall.unblock EM2)) (sleep_open (mkTable 0 0 0 0 0))).isFatal
        = true ∧
      (run_sleep_calls (List.replicate 5 (SleepCall.block EM2) ++
        List.replicate 5 (SleepCall.unblock EM2)) (sleep_open (mkTable 0 0 0 0 0))).state EM2
        = 5 := by
  refine ⟨by decide, by decide, by decide⟩

/-- C4 counterexample: `sleep_unblock_mode(EM2)` on the table of `sleep_open`,
where the counter of EM2 is 0, returns normally with the table unchanged; it
does not take the assertion-failure path. -/
theorem sleep_unblock_mode_zero_returns :
    (sleep_open (mkTable 0 0 0 0 0)) EM2 = 0 ∧
      (sleep_unblock_mode EM2 (sleep_open (mkTable 0 0 0 0 0))).isFatal = false ∧
      ∀ d, (sleep_unblock_mode EM2 (sleep_open (mkTable 0 0 0 0 0))).state d = 0 := by
  refine ⟨by decide, by decide, by decide⟩

/-- C4 (as amended): for a table of `int` counters and a depth `d`, an unblock
of a zero counter returns normally and leaves the table unchanged; the
assertion-failure path is taken exactly when the counter at `d` is negative
before the call, and then nothing is stored; a positive counter is decreased
by one; after a normal return the counter at `d` is not negative. -/
theorem sleep_unblock_mode_saturates (t : VoteTable) (d : Fin MAX_ENERGY_MODES)
    (hr : IntRange t) :
    (t d = 0 → sleep_unblock_mode d t = Outcome.ok t) ∧
    ((sleep_unblock_mode d t).isFatal = true ↔ t d < 0) ∧
    (t d < 0 → sleep_unblock_mode d t = Outcome.fatal t) ∧
    (0 < t d → sleep_unblock_mode d t = Outcome.ok (Function.update t d (t d - 1))) ∧
    ((sleep_unblock_mode d t).isFatal = false → 0 ≤ (sleep_unblock_mode d t).state d) := by
  have hw : 0 < t d → wrap_int (t d - 1) = t d - 1 := fun hp =>
    wrap_int_of_range _ (by unfold INT_MIN; omega) (by have := (hr d).2; omega)
  rcases lt_trichotomy (t d) 0 with hneg | hzero | hpos
  · have h1 : ¬ t d > 0 := by omega
    have h2 : ¬ t d ≥ 0 := by omega
    have hf : sleep_unblock_mode d t = Outcome.fatal t := by
      simp only [sleep_unblock_mode, if_neg h1, if_neg h2]
    refine ⟨fun h => by omega, ?_, fun _ => hf, fun h => by omega, ?_⟩
    · simp [hf, Outcome.isFatal, hneg]
    · simp [hf, Outcome.isFatal]
  · have h1 : ¬ t d > 0 := by omega
    have h2 : t d ≥ 0 := by omega
    have hf : sleep_unblock_mode d t = Outcome.ok t := by
      simp only [sleep_unblock_mode, if_neg h1, if_pos h2]
    refine ⟨fun _ => hf, ?_, fun h => by omega, fun h => by omega, ?_⟩
    · simp [hf, Outcome.isFatal, hzero]
    · simp [hf, Outcome.state, hzero]
  · have hf : sleep_unblock_mode d t = Outcome.ok (Function.update t d (t d - 1)) := by
      simp only [sleep_unblock_mode, if_pos hpos, hw hpos, Function.update_same]
      rw [if_pos (by omega)]
    refine ⟨fun h => by omega, ?_, fun h => by omega, fun _ => hf, ?_⟩
    · simp only [hf, Outcome.isFatal]
      constructor
      · intro h; cases h
      · intro h; omega
    · intro _
      simp only [hf, Outcome.state, Function.update_same]
      omega

/-- Every counter of `mkTable` applied to values of type `int` is of type `int`. -/
theorem intRange_mkTable (a b c d e : Int)
    (ha : INT_MIN ≤ a ∧ a ≤ INT_MAX) (hb : INT_MIN ≤ b ∧ b ≤ INT_MAX)
    (hc : INT_MIN ≤ c ∧ c ≤ INT_MAX) (hd : INT_MIN ≤ d ∧ d ≤ INT_MAX)
    (he : INT_MIN ≤ e ∧ e ≤ INT_MAX) : IntRange (mkTable a b c d e) := by
  intro i
  fin_cases i
  · exact ha
  · exact hb
  · exact hc
  · exact hd
  · exact he

/-- C4 witness: the table `{0, 0, 2, 0, 0}` and depth EM2. -/
theorem sleep_unblock_mode_saturates_witness :
    IntRange (mkTable 0 0 2 0 0) ∧
    ((mkTable 0 0 2 0 0) EM2 = 0 →
      sleep_unblock_mode EM2 (mkTable 0 0 2 0 0) = Outcome.ok (mkTable 0 0 2 0 0)) ∧
    ((sleep_unblock_mode EM2 (mkTable 0 0 2 0 0)).isFatal = true ↔
      (mkTable 0 0 2 0 0) EM2 < 0) ∧
    ((mkTable 0 0 2 0 0) EM2 < 0 →
      sleep_unblock_mode EM2 (mkTable 0 0 2 0 0) = Outcome.fatal (mkTable 0 0 2 0 0)) ∧
    (0 < (mkTable 0 0 2 0 0) EM2 →
      sleep_unblock_mode EM2 (mkTable 0 0 2 0 0) =
        Outcome.ok (Function.update (mkTable 0 0 2 0 0) EM2 ((mkTable 0 0 2 0 0) EM2 - 1))) ∧
    ((sleep_unblock_mode EM2 (mkTable 0 0 2 0 0)).isFatal = false →
      0 ≤ (sleep_unblock_mode EM2 (mkTable 0 0 2 0 0)).state EM2) :=
  ⟨intRange_mkTable 0 0 2 0 0 (by decide) (by decide) (by decide) (by decide) (by decide),
    sleep_unblock_mode_saturates (mkTable 0 0 2 0 0) EM2
      (intRange_mkTable 0 0 2 0 0 (by decide) (by decide) (by decide) (by decide) (by decide))⟩

/-- C5 counterexample: with the counter of EM2 at 4, `sleep_block_mode(EM2)`
takes the assertion-failure path although 4 + 1 does not overflow an `int`. -/
theorem sleep_block_mode_fatal_without_overflow :
    (sleep_block_mode EM2 (mkTable 0 0 4 0 0)).isFatal = true ∧
      (mkTable 0 0 4 0 0) EM2 + 1 ≤ INT_MAX ∧
      (sleep_block_mode EM2 (mkTable 0 0 4 0 0)).state EM2 = 5 := by
  refine ⟨by decide, by decide, by decide⟩

/-- C5 (as amended): for a depth `d` whose counter is an `int` below
`INT_MAX`, `sleep_block_mode(d)` stores the counter plus one at `d` and leaves
every other counter unchanged, on the normal and on the assertion-failure path
alike; it takes the assertion-failure path exactly when the counter was 4 or
more before the call, that is when the stored value is 5 or more. -/
theorem sleep_block_mode_increments (t : VoteTable) (d : Fin MAX_ENERGY_MODES)
    (hlo : INT_MIN ≤ t d) (hhi : t d < INT_MAX) :
    (sleep_block_mode d t).state d = t d + 1 ∧
    (∀ j, j ≠ d → (sleep_block_mode d t).state j = t j) ∧
    ((sleep_block_mode d t).isFatal = true ↔ 4 ≤ t d) ∧
    ((sleep_block_mode d t).isFatal = true ↔ 5 ≤ (sleep_block_mode d t).state d) := by
  have hw : wrap_int (t d + 1) = t d + 1 :=
    wrap_int_of_range _ (by omega) (by omega)
  by_cases h4 : t d + 1 < 5
  · have hf : sleep_block_mode d t = Outcome.ok (Function.update t d (t d + 1)) := by
      simp only [sleep_block_mode, hw, Function.update_same, if_pos h4]
    refine ⟨?_, ?_, ?_, ?_⟩
    · simp only [hf, Outcome.state, Function.update_same]
    · intro j hj
      simp only [hf, Outcome.state, Function.update_noteq hj]
    · simp only [hf, Outcome.isFatal]
      constructor
      · intro h; cases h
      · intro h; omega
    · simp only [hf, Outcome.isFatal, Outcome.state, Function.update_same]
      constructor
      · intro h; cases h
      · intro h; omega
  · have hf : sleep_block_mode d t = Outcome.fatal (Function.update t d (t d + 1)) := by
      simp only [sleep_block_mode, hw, Function.update_same, if_neg h4]
    refine ⟨?_, ?_, ?_, ?_⟩
    · simp only [hf, Outcome.state, Function.update_same]
    · intro j hj
      simp only [hf, Outcome.state, Function.update_noteq hj]
    · simp only [hf, Outcome.isFatal]
      constructor
      · intro _; omega
      · intro _; trivial
    · simp only [hf, Outcome.isFatal, Outcome.state, Function.update_same]
      constructor
      · intro _; omega
      · intro _; trivial

/-- C5 witness: the table `{0, 1, 3, 0, 0}` and depth EM2. -/
theorem sleep_block_mode_increments_witness :
    (sleep_block_mode EM2 (mkTable 0 1 3 0 0)).state EM2 = (mkTable 0 1 3 0 0) EM2 + 1 ∧
    (∀ j, j ≠ EM2 → (sleep_block_mode EM2 (mkTable 0 1 3 0 0)).state j = (mkTable 0 1 3 0 0) j) ∧
    ((sleep_block_mode EM2 (mkTable 0 1 3 0 0)).isFatal = true ↔ 4 ≤ (mkTable 0 1 3 0 0) EM2) ∧
    ((sleep_block_mode EM2 (mkTable 0 1 3 0 0)).isFatal = true ↔
      5 ≤ (sleep_block_mode EM2 (mkTable 0 1 3 0 0)).state EM2) :=
  sleep_block_mode_increments (mkTable 0 1 3 0 0) EM2 (by decide) (by decide)

/-! ## Theorems: event scheduler -/

/-- Bits of `~x` on a `uint32_t`: below bit 32 the bit of `x` flipped, none above. -/
theorem testBit_not_uint32 (x i : Nat) :
    (not_uint32 x).testBit i = (decide (i < 32) != x.testBit i) := by
  rw [not_uint32, Nat.testBit_xor, Nat.testBit_two_pow_sub_one]

/-- A `uint32_t` value has no bit at position 32 or above. -/
theorem testBit_uint32_high (x i : Nat) (hx : x < 2 ^ 32) (hi : 32 ≤ i) :
    x.testBit i = false := by
  apply Nat.testBit_lt_two_pow
  exact lt_of_lt_of_le hx (Nat.pow_le_pow_right (by decide) hi)

/-- A call whose mask shares no bit with `id` keeps a set bit of `id` set. -/
theorem SchedCall.run_keeps_set (c : SchedCall) (r id i : Nat) (hid : id < 2 ^ 32)
    (hc : c.mask &&& id = 0) (hbit : id.testBit i = true) (hr : r.testBit i = true) :
    (c.run r).testBit i = true := by
  have hi : i < 32 := by
    by_contra h
    rw [testBit_uint32_high id i hid (by omega)] at hbit
    cases hbit
  have hm : c.mask.testBit i = false := by
    have h := congrArg (fun n => n.testBit i) hc
    simpa [hbit] using h
  cases c with
  | add event => simp [SchedCall.run, add_scheduled_event, hr]
  | remove event =>
    simp only [SchedCall.mask] at hm
    simp [SchedCall.run, remove_scheduled_event, testBit_not_uint32, hr, hi, hm]

/-- C6: after `add_scheduled_event(id)` the value of `get_scheduled_events()`
has every bit of `id` set, and it still has after any further sequence of
`add_scheduled_event` / `remove_scheduled_event` calls whose masks share no
bit with `id` (`id` a `uint32_t`; the empty sequence is the read right after
the post). -/
theorem add_scheduled_event_stays_set (r id : Nat) (cs : List SchedCall)
    (hid : id < 2 ^ 32) (hcs : ∀ c ∈ cs, c.mask &&& id = 0) :
    ∀ i, id.testBit i = true →
      (get_scheduled_events (run_sched_calls cs (add_scheduled_event id r))).testBit i = true := by
  intro i hbit
  have hgen : ∀ (l : List SchedCall) (x : Nat), (∀ c ∈ l, c.mask &&& id = 0) →
      x.testBit i = true → (run_sched_calls l x).testBit i = true := by
    intro l
    induction l with
    | nil => intro x _ hx; exact hx
    | cons c l ih =>
      intro x hl hx
      exact ih (c.run x) (fun c1 h1 => hl c1 (List.mem_cons_of_mem _ h1))
        (SchedCall.run_keeps_set c x id i hid (hl c (List.mem_cons_self _ _)) hbit hx)
  exact hgen cs _ hcs (by simp [add_scheduled_event, hbit])

/-- C6 witness: post 0x8 on register 0x5, then post 0x1, clear 0x4, clear 0x3. -/
theorem add_scheduled_event_stays_set_witness :
    (get_scheduled_events (run_sched_calls
      [SchedCall.add 1, SchedCall.remove 4, SchedCall.remove 3]
      (add_scheduled_event 8 5))).testBit 3 = true :=
  add_scheduled_event_stays_set 5 8 [SchedCall.add 1, SchedCall.remove 4, SchedCall.remove 3]
    (by decide) (by decide) 3 (by decide)

/-- A removal, or a post whose mask shares no bit with `id`, keeps a clear bit
of `id` clear. -/
theorem SchedCall.run_keeps_clear (c : SchedCall) (r id i : Nat)
    (hc : ∀ m, c = SchedCall.add m → m &&& id = 0) (hbit : id.testBit i = true)
    (hr : r.testBit i = false) : (c.run r).testBit i = false := by
  cases c with
  | add event =>
    have hm : event.testBit i = false := by
      have h := congrArg (fun n => n.testBit i) (hc event rfl)
      simpa [hbit] using h
    simp [SchedCall.run, add_scheduled_event, hr, hm]
  | remove event =>
    simp [SchedCall.run, remove_scheduled_event, hr]

/-- C7: for `uint32_t` values `r` and `id`, right after
`remove_scheduled_event(id)` the value of `get_scheduled_events()` has no bit
of `id` set and every bit outside `id` as before; the bits of `id` are still
clear after any further sequence of calls in which no `add_scheduled_event`
has a mask overlapping `id`. -/
theorem remove_scheduled_event_clears (r id : Nat) (cs : List SchedCall)
    (hr : r < 2 ^ 32) (hid : id < 2 ^ 32)
    (hcs : ∀ c ∈ cs, ∀ m, c = SchedCall.add m → m &&& id = 0) :
    (∀ i, id.testBit i = true →
      (get_scheduled_events (remove_scheduled_event id r)).testBit i = false) ∧
    (∀ i, id.testBit i = false →
      (get_scheduled_events (remove_scheduled_event id r)).testBit i = r.testBit i) ∧
    (∀ i, id.testBit i = true →
      (get_scheduled_events (run_sched_calls cs (remove_scheduled_event id r))).testBit i
        = false) := by
  have hclear : ∀ i, id.testBit i = true → (remove_scheduled_event id r).testBit i = false := by
    intro i hbit
    have hi : i < 32 := by
      by_contra h
      rw [testBit_uint32_high id i hid (by omega)] at hbit
      cases hbit
    simp [remove_scheduled_event, testBit_not_uint32, hbit, hi]
  refine ⟨hclear, ?_, ?_⟩
  · intro i hbit
    by_cases hi : i < 32
    · simp [get_scheduled_events, remove_scheduled_event, testBit_not_uint32, hbit, hi]
    · simp [get_scheduled_events, remove_scheduled_event, testBit_not_uint32, hbit, hi,
        testBit_uint32_high r i hr (by omega)]
  · intro i hbit
    have hgen : ∀ (l : List SchedCall) (x : Nat),
        (∀ c ∈ l, ∀ m, c = SchedCall.add m → m &&& id = 0) →
        x.testBit i = false → (run_sched_calls l x).testBit i = false := by
      intro l
      induction l with
      | nil => intro x _ hx; exact hx
      | cons c l ih =>
        intro x hl hx
        exact ih (c.run x) (fun c1 h1 => hl c1 (List.mem_cons_of_mem _ h1))
          (SchedCall.run_keeps_clear c x id i (hl c (List.mem_cons_self _ _)) hbit hx)
    exact hgen cs _ hcs (hclear i hbit)

/-- C7 witness: clear 0x6 on register 0xF, then clear 0x2, post 0x8, post 0x1. -/
theorem remove_scheduled_event_clears_witness :
    (∀ i, (6 : Nat).testBit i = true →
      (get_scheduled_events (remove_scheduled_event 6 15)).testBit i = false) ∧
    (∀ i, (6 : Nat).testBit i = false →
      (get_scheduled_events (remove_scheduled_event 6 15)).testBit i = (15 : Nat).testBit i) ∧
    (∀ i, (6 : Nat).testBit i = true →
      (get_scheduled_events (run_sched_calls
        [SchedCall.remove 2, SchedCall.add 8, SchedCall.add 1]
        (remove_scheduled_event 6 15))).testBit i = false) :=
  remove_scheduled_event_clears 15 6 [SchedCall.remove 2, SchedCall.add 8, SchedCall.add 1]
    (by decide) (by decide) (by
      intro c hc m hm
      subst hm
      simp only [List.mem_cons, List.mem_singleton, SchedCall.add.injEq, List.not_mem_nil,
        or_false, false_or, reduceCtorEq] at hc
      rcases hc with rfl | rfl <;> decide)

/-- C8: posting is idempotent: `add_scheduled_event(id)` applied twice gives
the register that one application gives, and applied to a register that
already has every bit of `id` set it leaves the register unchanged. -/
theorem add_scheduled_event_idempotent (r id : Nat) :
    add_scheduled_event id (add_scheduled_event id r) = add_scheduled_event id r ∧
    ((∀ i, id.testBit i = true → r.testBit i = true) → add_scheduled_event id r = r) := by
  constructor
  · apply Nat.eq_of_testBit_eq
    intro i
    simp only [add_scheduled_event, Nat.testBit_or]
    cases r.testBit i <;> cases id.testBit i <;> rfl
  · intro h
    apply Nat.eq_of_testBit_eq
    intro i
    simp only [add_scheduled_event, Nat.testBit_or]
    cases hb : id.testBit i
    · simp
    · simp [h i hb]

/-! ## Theorems: I2C bus engine -/

/-- A block on a counter within 0..3 returns normally with the counter plus one. -/
theorem sleep_block_mode_ok (t : VoteTable) (d : Fin MAX_ENERGY_MODES)
    (h0 : 0 ≤ t d) (h4 : t d < 4) :
    sleep_block_mode d t = Outcome.ok (Function.update t d (t d + 1)) := by
  have hw : wrap_int (t d + 1) = t d + 1 :=
    wrap_int_of_range _ (by unfold INT_MIN; omega) (by unfold INT_MAX; omega)
  simp only [sleep_block_mode, hw, Function.update_same]
  rw [if_pos (by omega)]

/-- An unblock on a positive `int` counter returns normally with the counter
minus one. -/
theorem sleep_unblock_mode_ok (t : VoteTable) (d : Fin MAX_ENERGY_MODES)
    (hpos : 0 < t d) (hmax : t d ≤ INT_MAX) :
    sleep_unblock_mode d t = Outcome.ok (Function.update t d (t d - 1)) := by
  have hw : wrap_int (t d - 1) = t d - 1 :=
    wrap_int_of_range _ (by unfold INT_MIN; omega) (by omega)
  simp only [sleep_unblock_mode, if_pos hpos, hw, Function.update_same]
  rw [if_pos (by omega)]

/-- Sequencing after a normal return runs the rest. -/
theorem Outcome.ok_bind {σ : Type} (s : σ) (f : σ → Outcome σ) :
    (Outcome.ok s).bind f = f s := rfl

/-- Sequencing after a failed assertion keeps the failure. -/
theorem Outcome.fatal_bind {σ : Type} (s : σ) (f : σ → Outcome σ) :
    (Outcome.fatal s).bind f = Outcome.fatal s := rfl

/-- ACK in `Start_CMD`: the register address is sent and the state becomes `Read_CMD`. -/
theorem i2c_ack_sm_Start_CMD (w : World) (h : w.i2c_state.state = Start_CMD) :
    i2c_ack_sm w = Outcome.ok { w with
      i2c_state := { w.i2c_state with state := Read_CMD }
      bus := w.bus ++ [BusWrite.TXDATA w.i2c_state.I2Cn w.i2c_state.target_reg] } := by
  unfold i2c_ack_sm
  rw [h]

/-- ACK in `Read_CMD`: repeated start with the read address, state `Wait_Read`. -/
theorem i2c_ack_sm_Read_CMD (w : World) (h : w.i2c_state.state = Read_CMD) :
    i2c_ack_sm w = Outcome.ok { w with
      i2c_state := { w.i2c_state with state := Wait_Read }
      bus := w.bus ++ [BusWrite.CMD w.i2c_state.I2Cn I2C_CMD.START,
        BusWrite.TXDATA w.i2c_state.I2Cn (shl_uint32 w.i2c_state.target_addr 1 ||| I2C_READ)] } := by
  unfold i2c_ack_sm
  rw [h]

/-- ACK in `Wait_Read`: the state becomes `End_Sense`, nothing is written. -/
theorem i2c_ack_sm_Wait_Read (w : World) (h : w.i2c_state.state = Wait_Read) :
    i2c_ack_sm w = Outcome.ok { w with i2c_state := { w.i2c_state with state := End_Sense } } := by
  unfold i2c_ack_sm
  rw [h]

/-- NACK in `Wait_Read`: the repeated start and the read address are sent again. -/
theorem i2c_nack_sm_Wait_Read (w : World) (h : w.i2c_state.state = Wait_Read) :
    i2c_nack_sm w = Outcome.ok { w with
      bus := w.bus ++ [BusWrite.CMD w.i2c_state.I2Cn I2C_CMD.START,
        BusWrite.TXDATA w.i2c_state.I2Cn (shl_uint32 w.i2c_state.target_addr 1 ||| I2C_READ)] } := by
  unfold i2c_nack_sm
  rw [h]

/-- RXDATAV in `End_Sense` with one byte left: the byte is OR-ed into the
destination word, NACK and STOP are sent, the state becomes `Stop`. -/
theorem i2c_rxdatav_sm_last (rxdata : Nat) (w : World) (h : w.i2c_state.state = End_Sense)
    (hb : w.i2c_state.bytes = 1) :
    i2c_rxdatav_sm rxdata w = Outcome.ok { w with
      i2c_state := { w.i2c_state with bytes := 0, state := Stop }
      mem := Function.update w.mem w.i2c_state.data_addr (w.mem w.i2c_state.data_addr ||| rxdata)
      bus := w.bus ++ [BusWrite.CMD w.i2c_state.I2Cn I2C_CMD.NACK,
        BusWrite.CMD w.i2c_state.I2Cn I2C_CMD.STOP] } := by
  unfold i2c_rxdatav_sm
  rw [h, hb]
  rfl

/-- RXDATAV in `End_Sense` with `m + 2` bytes left (a `uint32_t` count): the byte
is stored shifted left by `8 * (m + 1)` bits, ACK is sent, the state stays. -/
theorem i2c_rxdatav_sm_more (rxdata m : Nat) (w : World) (h : w.i2c_state.state = End_Sense)
    (hb : w.i2c_state.bytes = m + 2) (hm : m + 2 < 2 ^ 32) :
    i2c_rxdatav_sm rxdata w = Outcome.ok { w with
      i2c_state := { w.i2c_state with bytes := m + 1 }
      mem := Function.update w.mem w.i2c_state.data_addr
        (shl_uint32 rxdata (8 * (m + 1) % 2 ^ 32))
      bus := w.bus ++ [BusWrite.CMD w.i2c_state.I2Cn I2C_CMD.ACK] } := by
  have hbytes : (w.i2c_state.bytes + 2 ^ 32 - 1) % 2 ^ 32 = m + 1 := by omega
  unfold i2c_rxdatav_sm
  rw [h]
  generalize hx : (w.i2c_state.bytes + 2 ^ 32 - 1) % 2 ^ 32 = x
  rw [hbytes] at hx
  subst hx
  show (if m + 1 > 0 then _ else _) = _
  rw [if_pos (Nat.succ_pos m)]

/-- MSTOP in `Stop` with a positive `int` counter at EM2: the counter is decreased
by one and the completion id is posted. -/
theorem i2c_mstop_sm_Stop (w : World) (h : w.i2c_state.state = Stop)
    (hpos : 0 < w.lowest_energy_mode EM2) (hmax : w.lowest_energy_mode EM2 ≤ INT_MAX) :
    i2c_mstop_sm w = Outcome.ok { w with
      lowest_energy_mode :=
        Function.update w.lowest_energy_mode EM2 (w.lowest_energy_mode EM2 - 1)
      event_scheduled := add_scheduled_event w.i2c_state.cb w.event_scheduled
      posted := w.posted ++ [w.i2c_state.cb] } := by
  unfold i2c_mstop_sm
  rw [h]
  simp only [sleep_unblock_mode_ok _ _ hpos hmax, with_table, Outcome.bind]

/-- Function `i2c_start` with the hardware idle and the EM2 counter within 0..3: the
counter is increased by one, the context is filled in, START and the write
address are sent. -/
theorem i2c_start_idle (i2c : I2C_TypeDef) (target_addr target_reg : Nat) (w_r : Bool)
    (data_addr bytes cb : Nat) (w : World)
    (hlo : 0 ≤ w.lowest_energy_mode EM2) (hhi : w.lowest_energy_mode EM2 < 4) :
    i2c_start true i2c target_addr target_reg w_r data_addr bytes cb w = Outcome.ok { w with
      lowest_energy_mode :=
        Function.update w.lowest_energy_mode EM2 (w.lowest_energy_mode EM2 + 1)
      i2c_state :=
        { state := Start_CMD
          I2Cn := i2c
          target_addr := target_addr
          target_reg := target_reg
          w_r := w_r
          data_addr := data_addr
          bytes := bytes
          busy := true
          cb := cb }
      bus := w.bus ++ [BusWrite.CMD i2c I2C_CMD.START,
        BusWrite.TXDATA i2c (shl_uint32 target_addr 1 ||| I2C_WRITE)] } := by
  unfold i2c_start
  simp only [if_true, sleep_block_mode_ok _ _ hlo hhi, with_table, Outcome.bind]

/-- Delivering a list of signals: the head is handled first. -/
theorem run_signals_cons (g : Signal) (gs : List Signal) (w : World) :
    run_signals (g :: gs) w = (i2c_signal g w).bind (run_signals gs) := rfl

/-- Delivering no signal returns the world as it is. -/
theorem run_signals_nil (w : World) : run_signals [] w = Outcome.ok w := rfl

/-- C10: a two-byte transaction is assembled big-endian.  From a world whose
EM2 counter is within 0..3, `i2c_start` (hardware idle, byte count 2) followed
by ACK, ACK, ACK, RXDATAV with `RXDATA = b_hi` and RXDATAV with
`RXDATA = b_lo` returns normally and leaves the destination word equal to
`(b_hi << 8) | b_lo`, whatever it held before. -/
theorem i2c_two_byte_big_endian (w : World) (i2c : I2C_TypeDef) (target_addr target_reg : Nat)
    (w_r : Bool) (data_addr cb b_hi b_lo : Nat) (hhi8 : b_hi < 256) (hlo8 : b_lo < 256)
    (hlo : 0 ≤ w.lowest_energy_mode EM2) (hhi : w.lowest_energy_mode EM2 < 4) :
    ∃ w1, (i2c_start true i2c target_addr target_reg w_r data_addr 2 cb w).bind
        (run_signals [Signal.ACK, Signal.ACK, Signal.ACK, Signal.RXDATAV b_hi,
          Signal.RXDATAV b_lo]) = Outcome.ok w1 ∧
      w1.mem data_addr = (b_hi <<< 8) ||| b_lo ∧
      w1.mem data_addr = 256 * b_hi + b_lo := by
  have hshift : shl_uint32 b_hi 8 = b_hi <<< 8 := by
    simp only [shl_uint32, Nat.shiftLeft_eq]
    rw [if_pos (by decide), Nat.mod_eq_of_lt (by omega)]
  have hsum : (b_hi <<< 8) ||| b_lo = 256 * b_hi + b_lo := by
    have h := Nat.mul_add_lt_is_or (i := 8) (b := b_lo) hlo8 b_hi
    rw [Nat.shiftLeft_eq, Nat.mul_comm]
    exact h.symm
  have hmem : Function.update (Function.update w.mem data_addr (shl_uint32 b_hi 8)) data_addr
      (Function.update w.mem data_addr (shl_uint32 b_hi 8) data_addr ||| b_lo) data_addr
      = (b_hi <<< 8) ||| b_lo := by
    rw [Function.update_same, Function.update_same, hshift]
  rw [i2c_start_idle i2c target_addr target_reg w_r data_addr 2 cb w hlo hhi, Outcome.ok_bind,
    run_signals_cons, i2c_signal, i2c_ack_sm_Start_CMD _ rfl, Outcome.ok_bind,
    run_signals_cons, i2c_signal, i2c_ack_sm_Read_CMD _ rfl, Outcome.ok_bind,
    run_signals_cons, i2c_signal, i2c_ack_sm_Wait_Read _ rfl, Outcome.ok_bind,
    run_signals_cons, i2c_signal, i2c_rxdatav_sm_more b_hi 0 _ rfl rfl (by decide),
    Outcome.ok_bind,
    run_signals_cons, i2c_signal, i2c_rxdatav_sm_last _ _ rfl rfl, Outcome.ok_bind,
    run_signals_nil]
  exact ⟨_, rfl, hmem, hmem.trans hsum⟩

/-- C10 witness: the bytes 0x6A then 0xBC give 0x6ABC. -/
theorem i2c_two_byte_big_endian_witness :
    ∃ w1, (i2c_start true I2C_TypeDef.I2C0 0x40 0xF5 true 0 2 8 (exampleWorld 0xFFFFFFFF)).bind
        (run_signals [Signal.ACK, Signal.ACK, Signal.ACK, Signal.RXDATAV 0x6A,
          Signal.RXDATAV 0xBC]) = Outcome.ok w1 ∧
      w1.mem 0 = (0x6A <<< 8) ||| 0xBC ∧
      w1.mem 0 = 256 * 0x6A + 0xBC :=
  i2c_two_byte_big_endian (exampleWorld 0xFFFFFFFF) I2C_TypeDef.I2C0 0x40 0xF5 true 0 8 0x6A 0xBC
    (by decide) (by decide) (by decide) (by decide)

/-- An unblock on a zero counter returns normally and stores nothing. -/
theorem sleep_unblock_mode_of_zero (t : VoteTable) (d : Fin MAX_ENERGY_MODES) (h : t d = 0) :
    sleep_unblock_mode d t = Outcome.ok t := by
  simp only [sleep_unblock_mode, h, gt_iff_lt, lt_self_iff_false, if_false, ge_iff_le, le_refl,
    if_true]

/-- MSTOP in `Stop` returns normally whenever the EM2 counter is a non-negative
`int`. -/
theorem i2c_mstop_sm_Stop_returns (w : World) (h : w.i2c_state.state = Stop)
    (h0 : 0 ≤ w.lowest_energy_mode EM2) (hmax : w.lowest_energy_mode EM2 ≤ INT_MAX) :
    (i2c_mstop_sm w).isFatal = false := by
  rcases h0.lt_or_eq with hpos | hz
  · rw [i2c_mstop_sm_Stop w h hpos hmax]
    rfl
  · unfold i2c_mstop_sm
    rw [h]
    simp only [sleep_unblock_mode_of_zero _ _ hz.symm, with_table, Outcome.bind]
    rfl

/-- The values of a state variable: the five enumerators, or a value outside
the enumeration. -/
theorem state_cases (s : Nat) :
    s = Start_CMD ∨ s = Read_CMD ∨ s = Wait_Read ∨ s = End_Sense ∨ s = Stop ∨
      ∃ n, s = n + 5 := by
  rcases s with _ | _ | _ | _ | _ | n
  · exact Or.inl rfl
  · exact Or.inr (Or.inl rfl)
  · exact Or.inr (Or.inr (Or.inl rfl))
  · exact Or.inr (Or.inr (Or.inr (Or.inl rfl)))
  · exact Or.inr (Or.inr (Or.inr (Or.inr (Or.inl rfl))))
  · exact Or.inr (Or.inr (Or.inr (Or.inr (Or.inr ⟨n, rfl⟩))))

/-- ACK outside `Start_CMD`, `Read_CMD` and `Wait_Read` fails and changes nothing. -/
theorem i2c_ack_sm_fatal (w : World) (h : 3 ≤ w.i2c_state.state) :
    i2c_ack_sm w = Outcome.fatal w := by
  rcases state_cases w.i2c_state.state with hs | hs | hs | hs | hs | ⟨n, hs⟩
  · rw [hs] at h; exact absurd h (by decide)
  · rw [hs] at h; exact absurd h (by decide)
  · rw [hs] at h; exact absurd h (by decide)
  · unfold i2c_ack_sm; rw [hs]
  · unfold i2c_ack_sm; rw [hs]
  · unfold i2c_ack_sm; rw [hs]; rfl

/-- NACK outside `Wait_Read` fails and changes nothing. -/
theorem i2c_nack_sm_fatal (w : World) (h : w.i2c_state.state ≠ Wait_Read) :
    i2c_nack_sm w = Outcome.fatal w := by
  rcases state_cases w.i2c_state.state with hs | hs | hs | hs | hs | ⟨n, hs⟩
  · unfold i2c_nack_sm; rw [hs]
  · unfold i2c_nack_sm; rw [hs]
  · exact absurd hs h
  · unfold i2c_nack_sm; rw [hs]
  · unfold i2c_nack_sm; rw [hs]
  · unfold i2c_nack_sm; rw [hs]; rfl

/-- MSTOP outside `Stop` fails and changes nothing. -/
theorem i2c_mstop_sm_fatal (w : World) (h : w.i2c_state.state ≠ Stop) :
    i2c_mstop_sm w = Outcome.fatal w := by
  rcases state_cases w.i2c_state.state with hs | hs | hs | hs | hs | ⟨n, hs⟩
  · unfold i2c_mstop_sm; rw [hs]
  · unfold i2c_mstop_sm; rw [hs]
  · unfold i2c_mstop_sm; rw [hs]
  · unfold i2c_mstop_sm; rw [hs]
  · exact absurd hs h
  · unfold i2c_mstop_sm; rw [hs]; rfl

/-- RXDATAV outside `End_Sense` fails and changes nothing. -/
theorem i2c_rxdatav_sm_fatal (rxdata : Nat) (w : World) (h : w.i2c_state.state ≠ End_Sense) :
    i2c_rxdatav_sm rxdata w = Outcome.fatal w := by
  rcases state_cases w.i2c_state.state with hs | hs | hs | hs | hs | ⟨n, hs⟩
  · unfold i2c_rxdatav_sm; rw [hs]
  · unfold i2c_rxdatav_sm; rw [hs]
  · unfold i2c_rxdatav_sm; rw [hs]
  · exact absurd hs h
  · unfold i2c_rxdatav_sm; rw [hs]
  · unfold i2c_rxdatav_sm; rw [hs]; rfl

/-- RXDATAV in `End_Sense`: the body of that case of the switch, with `x` the
byte count after `bytes -= 1`. -/
theorem i2c_rxdatav_sm_End_Sense (rxdata x : Nat) (w : World)
    (h : w.i2c_state.state = End_Sense)
    (hx : (w.i2c_state.bytes + 2 ^ 32 - 1) % 2 ^ 32 = x) :
    i2c_rxdatav_sm rxdata w =
      if x > 0 then
        Outcome.ok { w with
          i2c_state := { w.i2c_state with bytes := x }
          mem := Function.update w.mem w.i2c_state.data_addr
            (shl_uint32 rxdata (8 * x % 2 ^ 32))
          bus := w.bus ++ [BusWrite.CMD w.i2c_state.I2Cn I2C_CMD.ACK] }
      else
        Outcome.ok { w with
          i2c_state := { w.i2c_state with bytes := x, state := Stop }
          mem := Function.update w.mem w.i2c_state.data_addr
            (w.mem w.i2c_state.data_addr ||| rxdata)
          bus := w.bus ++ [BusWrite.CMD w.i2c_state.I2Cn I2C_CMD.NACK,
            BusWrite.CMD w.i2c_state.I2Cn I2C_CMD.STOP] } := by
  unfold i2c_rxdatav_sm
  rw [h]
  generalize hy : (w.i2c_state.bytes + 2 ^ 32 - 1) % 2 ^ 32 = y
  have hxy : x = y := hx.symm.trans hy
  subst hxy
  rfl

/-- RXDATAV in `End_Sense` returns normally, whatever the byte count. -/
theorem i2c_rxdatav_sm_End_Sense_returns (rxdata : Nat) (w : World)
    (h : w.i2c_state.state = End_Sense) : (i2c_rxdatav_sm rxdata w).isFatal = false := by
  rw [i2c_rxdatav_sm_End_Sense rxdata _ w h rfl]
  split <;> rfl

/-- C11: the handler for a signal takes its `EFM_ASSERT(false)` path exactly
outside the six expected pairs of state and signal.  For every world and
signal: when the pair is not expected (in particular for every state value
outside the enumeration) the handler fails and the world at the failure is
the world on entry, so no context field, bus write, vote or posted event has
changed; when the pair is expected the handler does not take that path and
returns normally (MSTOP in `Stop` calls `sleep_unblock_mode`, whose own
assertion holds for every EM2 counter that is a non-negative `int`). -/
theorem i2c_unexpected_signal_fatal (w : World) (g : Signal) :
    (expected_transition w.i2c_state.state g = false → i2c_signal g w = Outcome.fatal w) ∧
    (expected_transition w.i2c_state.state g = true → 0 ≤ w.lowest_energy_mode EM2 →
      w.lowest_energy_mode EM2 ≤ INT_MAX → (i2c_signal g w).isFatal = false) ∧
    (5 ≤ w.i2c_state.state → expected_transition w.i2c_state.state g = false) := by
  refine ⟨?_, ?_, ?_⟩
  · intro hex
    cases g with
    | ACK =>
      apply i2c_ack_sm_fatal
      rcases state_cases w.i2c_state.state with hs | hs | hs | hs | hs | ⟨n, hs⟩ <;>
        rw [hs] at hex ⊢ <;> first | exact absurd hex (by decide) | decide | omega
    | NACK =>
      apply i2c_nack_sm_fatal
      intro hs
      rw [hs] at hex
      exact absurd hex (by decide)
    | MSTOP =>
      apply i2c_mstop_sm_fatal
      intro hs
      rw [hs] at hex
      exact absurd hex (by decide)
    | RXDATAV rxdata =>
      apply i2c_rxdatav_sm_fatal
      intro hs
      rw [hs] at hex
      exact absurd hex (by simp [expected_transition])
  · intro hex h0 hmax
    rcases state_cases w.i2c_state.state with hs | hs | hs | hs | hs | ⟨n, hs⟩
    · cases g with
      | ACK => show (i2c_ack_sm w).isFatal = false; rw [i2c_ack_sm_Start_CMD w hs]; rfl
      | NACK => rw [hs] at hex; exact absurd hex (by decide)
      | MSTOP => rw [hs] at hex; exact absurd hex (by decide)
      | RXDATAV rxdata => rw [hs] at hex; exact absurd hex (by simp [expected_transition])
    · cases g with
      | ACK => show (i2c_ack_sm w).isFatal = false; rw [i2c_ack_sm_Read_CMD w hs]; rfl
      | NACK => rw [hs] at hex; exact absurd hex (by decide)
      | MSTOP => rw [hs] at hex; exact absurd hex (by decide)
      | RXDATAV rxdata => rw [hs] at hex; exact absurd hex (by simp [expected_transition])
    · cases g with
      | ACK => show (i2c_ack_sm w).isFatal = false; rw [i2c_ack_sm_Wait_Read w hs]; rfl
      | NACK => show (i2c_nack_sm w).isFatal = false; rw [i2c_nack_sm_Wait_Read w hs]; rfl
      | MSTOP => rw [hs] at hex; exact absurd hex (by decide)
      | RXDATAV rxdata => rw [hs] at hex; exact absurd hex (by simp [expected_transition])
    · cases g with
      | ACK => rw [hs] at hex; exact absurd hex (by decide)
      | NACK => rw [hs] at hex; exact absurd hex (by decide)
      | MSTOP => rw [hs] at hex; exact absurd hex (by decide)
      | RXDATAV rxdata => exact i2c_rxdatav_sm_End_Sense_returns rxdata w hs
    · cases g with
      | ACK => rw [hs] at hex; exact absurd hex (by decide)
      | NACK => rw [hs] at hex; exact absurd hex (by decide)
      | MSTOP => exact i2c_mstop_sm_Stop_returns w hs h0 hmax
      | RXDATAV rxdata => rw [hs] at hex; exact absurd hex (by simp [expected_transition])
    · rw [hs] at hex
      cases g <;> simp [expected_transition, Start_CMD, Read_CMD, Wait_Read, End_Sense, Stop] at hex
  · intro h5
    rcases state_cases w.i2c_state.state with hs | hs | hs | hs | hs | ⟨n, hs⟩ <;>
      rw [hs] at h5 ⊢ <;> first | exact absurd h5 (by decide) | (cases g <;> simp [expected_transition, Start_CMD, Read_CMD, Wait_Read, End_Sense, Stop])

/-- MSTOP in `Stop`: the body of that case of the switch. -/
theorem i2c_mstop_sm_Stop_body (w : World) (h : w.i2c_state.state = Stop) :
    i2c_mstop_sm w =
      (with_table w (sleep_unblock_mode EM2 w.lowest_energy_mode)).bind fun w1 =>
        Outcome.ok { w1 with
          event_scheduled := add_scheduled_event w1.i2c_state.cb w1.event_scheduled
          posted := w1.posted ++ [w1.i2c_state.cb] } := by
  unfold i2c_mstop_sm
  rw [h]

/-- Every handler does the same on a world and on that world without its bus
trace, up to the bus trace. -/
theorem i2c_signal_forget_bus (g : Signal) (w : World) :
    (i2c_signal g (forget_bus w)).map forget_bus = (i2c_signal g w).map forget_bus := by
  rcases state_cases w.i2c_state.state with hs | hs | hs | hs | hs | ⟨n, hs⟩
  · cases g with
    | ACK =>
      show (i2c_ack_sm (forget_bus w)).map forget_bus = (i2c_ack_sm w).map forget_bus
      rw [i2c_ack_sm_Start_CMD w hs, i2c_ack_sm_Start_CMD (forget_bus w) hs]; rfl
    | NACK =>
      show (i2c_nack_sm (forget_bus w)).map forget_bus = (i2c_nack_sm w).map forget_bus
      have h : w.i2c_state.state ≠ Wait_Read := by rw [hs]; decide
      rw [i2c_nack_sm_fatal w h, i2c_nack_sm_fatal (forget_bus w) h]; rfl
    | MSTOP =>
      show (i2c_mstop_sm (forget_bus w)).map forget_bus = (i2c_mstop_sm w).map forget_bus
      have h : w.i2c_state.state ≠ Stop := by rw [hs]; decide
      rw [i2c_mstop_sm_fatal w h, i2c_mstop_sm_fatal (forget_bus w) h]; rfl
    | RXDATAV rxdata =>
      show (i2c_rxdatav_sm rxdata (forget_bus w)).map forget_bus
        = (i2c_rxdatav_sm rxdata w).map forget_bus
      have h : w.i2c_state.state ≠ End_Sense := by rw [hs]; decide
      rw [i2c_rxdatav_sm_fatal rxdata w h, i2c_rxdatav_sm_fatal rxdata (forget_bus w) h]; rfl
  · cases g with
    | ACK =>
      show (i2c_ack_sm (forget_bus w)).map forget_bus = (i2c_ack_sm w).map forget_bus
      rw [i2c_ack_sm_Read_CMD w hs, i2c_ack_sm_Read_CMD (forget_bus w) hs]; rfl
    | NACK =>
      show (i2c_nack_sm (forget_bus w)).map forget_bus = (i2c_nack_sm w).map forget_bus
      have h : w.i2c_state.state ≠ Wait_Read := by rw [hs]; decide
      rw [i2c_nack_sm_fatal w h, i2c_nack_sm_fatal (forget_bus w) h]; rfl
    | MSTOP =>
      show (i2c_mstop_sm (forget_bus w)).map forget_bus = (i2c_mstop_sm w).map forget_bus
      have h : w.i2c_state.state ≠ Stop := by rw [hs]; decide
      rw [i2c_mstop_sm_fatal w h, i2c_mstop_sm_fatal (forget_bus w) h]; rfl
    | RXDATAV rxdata =>
      show (i2c_rxdatav_sm rxdata (forget_bus w)).map forget_bus
        = (i2c_rxdatav_sm rxdata w).map forget_bus
      have h : w.i2c_state.state ≠ End_Sense := by rw [hs]; decide
      rw [i2c_rxdatav_sm_fatal rxdata w h, i2c_rxdatav_sm_fatal rxdata (forget_bus w) h]; rfl
  · cases g with
    | ACK =>
      show (i2c_ack_sm (forget_bus w)).map forget_bus = (i2c_ack_sm w).map forget_bus
      rw [i2c_ack_sm_Wait_Read w hs, i2c_ack_sm_Wait_Read (forget_bus w) hs]; rfl
    | NACK =>
      show (i2c_nack_sm (forget_bus w)).map forget_bus = (i2c_nack_sm w).map forget_bus
      rw [i2c_nack_sm_Wait_Read w hs, i2c_nack_sm_Wait_Read (forget_bus w) hs]; rfl
    | MSTOP =>
      show (i2c_mstop_sm (forget_bus w)).map forget_bus = (i2c_mstop_sm w).map forget_bus
      have h : w.i2c_state.state ≠ Stop := by rw [hs]; decide
      rw [i2c_mstop_sm_fatal w h, i2c_mstop_sm_fatal (forget_bus w) h]; rfl
    | RXDATAV rxdata =>
      show (i2c_rxdatav_sm rxdata (forget_bus w)).map forget_bus
        = (i2c_rxdatav_sm rxdata w).map forget_bus
      have h : w.i2c_state.state ≠ End_Sense := by rw [hs]; decide
      rw [i2c_rxdatav_sm_fatal rxdata w h, i2c_rxdatav_sm_fatal rxdata (forget_bus w) h]; rfl
  · cases g with
    | ACK =>
      show (i2c_ack_sm (forget_bus w)).map forget_bus = (i2c_ack_sm w).map forget_bus
      have h : 3 ≤ w.i2c_state.state := by rw [hs]
      rw [i2c_ack_sm_fatal w h, i2c_ack_sm_fatal (forget_bus w) h]; rfl
    | NACK =>
      show (i2c_nack_sm (forget_bus w)).map forget_bus = (i2c_nack_sm w).map forget_bus
      have h : w.i2c_state.state ≠ Wait_Read := by rw [hs]; decide
      rw [i2c_nack_sm_fatal w h, i2c_nack_sm_fatal (forget_bus w) h]; rfl
    | MSTOP =>
      show (i2c_mstop_sm (forget_bus w)).map forget_bus = (i2c_mstop_sm w).map forget_bus
      have h : w.i2c_state.state ≠ Stop := by rw [hs]; decide
      rw [i2c_mstop_sm_fatal w h, i2c_mstop_sm_fatal (forget_bus w) h]; rfl
    | RXDATAV rxdata =>
      show (i2c_rxdatav_sm rxdata (forget_bus w)).map forget_bus
        = (i2c_rxdatav_sm rxdata w).map forget_bus
      obtain ⟨x, hx⟩ : ∃ x, (w.i2c_state.bytes + 2 ^ 32 - 1) % 2 ^ 32 = x := ⟨_, rfl⟩
      rw [i2c_rxdatav_sm_End_Sense rxdata x w hs hx,
        i2c_rxdatav_sm_End_Sense rxdata x (forget_bus w) hs hx]
      by_cases hpos : x > 0
      · rw [if_pos hpos, if_pos hpos]; rfl
      · rw [if_neg hpos, if_neg hpos]; rfl
  · cases g with
    | ACK =>
      show (i2c_ack_sm (forget_bus w)).map forget_bus = (i2c_ack_sm w).map forget_bus
      have h : 3 ≤ w.i2c_state.state := by rw [hs]; decide
      rw [i2c_ack_sm_fatal w h, i2c_ack_sm_fatal (forget_bus w) h]; rfl
    | NACK =>
      show (i2c_nack_sm (forget_bus w)).map forget_bus = (i2c_nack_sm w).map forget_bus
      have h : w.i2c_state.state ≠ Wait_Read := by rw [hs]; decide
      rw [i2c_nack_sm_fatal w h, i2c_nack_sm_fatal (forget_bus w) h]; rfl
    | MSTOP =>
      show (i2c_mstop_sm (forget_bus w)).map forget_bus = (i2c_mstop_sm w).map forget_bus
      rw [i2c_mstop_sm_Stop_body w hs, i2c_mstop_sm_Stop_body (forget_bus w) hs]
      show ((with_table (forget_bus w) (sleep_unblock_mode EM2 w.lowest_energy_mode)).bind
        _).map forget_bus = _
      rcases sleep_unblock_mode EM2 w.lowest_energy_mode with t | t <;> rfl
    | RXDATAV rxdata =>
      show (i2c_rxdatav_sm rxdata (forget_bus w)).map forget_bus
        = (i2c_rxdatav_sm rxdata w).map forget_bus
      have h : w.i2c_state.state ≠ End_Sense := by rw [hs]; decide
      rw [i2c_rxdatav_sm_fatal rxdata w h, i2c_rxdatav_sm_fatal rxdata (forget_bus w) h]; rfl
  · cases g with
    | ACK =>
      show (i2c_ack_sm (forget_bus w)).map forget_bus = (i2c_ack_sm w).map forget_bus
      have h : 3 ≤ w.i2c_state.state := by rw [hs]; omega
      rw [i2c_ack_sm_fatal w h, i2c_ack_sm_fatal (forget_bus w) h]; rfl
    | NACK =>
      show (i2c_nack_sm (forget_bus w)).map forget_bus = (i2c_nack_sm w).map forget_bus
      have h : w.i2c_state.state ≠ Wait_Read := by rw [hs]; exact Nat.succ_ne_succ.mpr (by omega)
      rw [i2c_nack_sm_fatal w h, i2c_nack_sm_fatal (forget_bus w) h]; rfl
    | MSTOP =>
      show (i2c_mstop_sm (forget_bus w)).map forget_bus = (i2c_mstop_sm w).map forget_bus
      have h : w.i2c_state.state ≠ Stop := by rw [hs]; exact Nat.succ_ne_succ.mpr (by omega)
      rw [i2c_mstop_sm_fatal w h, i2c_mstop_sm_fatal (forget_bus w) h]; rfl
    | RXDATAV rxdata =>
      show (i2c_rxdatav_sm rxdata (forget_bus w)).map forget_bus
        = (i2c_rxdatav_sm rxdata w).map forget_bus
      have h : w.i2c_state.state ≠ End_Sense := by
        rw [hs]; exact Nat.succ_ne_succ.mpr (by omega)
      rw [i2c_rxdatav_sm_fatal rxdata w h, i2c_rxdatav_sm_fatal rxdata (forget_bus w) h]; rfl
/-- Mapping keeps the kind of an outcome. -/
theorem Outcome.isFatal_map {σ : Type} (f : σ → σ) (o : Outcome σ) :
    (o.map f).isFatal = o.isFatal := by
  cases o <;> rfl

/-- Delivering signals does the same on a world and on that world without its
bus trace, up to the bus trace. -/
theorem run_signals_forget_bus (gs : List Signal) (w : World) :
    (run_signals gs (forget_bus w)).map forget_bus = (run_signals gs w).map forget_bus := by
  induction gs generalizing w with
  | nil => rfl
  | cons g gs ih =>
    rw [run_signals_cons, run_signals_cons]
    have h := i2c_signal_forget_bus g w
    rcases h1 : i2c_signal g (forget_bus w) with a | a <;>
      rcases h2 : i2c_signal g w with b | b <;> rw [h1, h2] at h
    · have hab : forget_bus a = forget_bus b := by
        have h3 : Outcome.ok (forget_bus a) = Outcome.ok (forget_bus b) := h
        injection h3
      rw [Outcome.ok_bind, Outcome.ok_bind, ← ih a, ← ih b, hab]
    · have h3 : Outcome.ok (forget_bus a) = Outcome.fatal (forget_bus b) := h
      cases h3
    · have h3 : Outcome.fatal (forget_bus a) = Outcome.ok (forget_bus b) := h
      cases h3
    · exact h

/-- Not-acknowledges in `Wait_Read` only add to the bus trace. -/
theorem run_signals_nacks (k : Nat) (gs : List Signal) (v : World)
    (hs : v.i2c_state.state = Wait_Read) :
    ∃ b, run_signals (List.replicate k Signal.NACK ++ gs) v
      = run_signals gs { v with bus := b } := by
  induction k generalizing v with
  | zero => exact ⟨v.bus, rfl⟩
  | succ k ih =>
    show ∃ b, run_signals (Signal.NACK :: (List.replicate k Signal.NACK ++ gs)) v = _
    rw [run_signals_cons, i2c_signal, i2c_nack_sm_Wait_Read v hs, Outcome.ok_bind]
    obtain ⟨b, hb⟩ := ih { v with
      bus := v.bus ++ [BusWrite.CMD v.i2c_state.I2Cn I2C_CMD.START,
        BusWrite.TXDATA v.i2c_state.I2Cn (shl_uint32 v.i2c_state.target_addr 1 ||| I2C_READ)] } hs
    exact ⟨b, hb⟩

/-- The list of signals of a complete read, head first. -/
theorem transaction_signals_eq (k : Nat) (rx : List Nat) :
    transaction_signals k rx = Signal.ACK :: Signal.ACK ::
      (List.replicate k Signal.NACK ++
        (Signal.ACK :: (rx.map Signal.RXDATAV ++ [Signal.MSTOP]))) := by
  simp [transaction_signals]

/-- After `i2c_start` and the two acknowledges of the address phase the engine is
in `Wait_Read`, with the EM2 counter one higher and the context filled in. -/
theorem i2c_start_to_Wait_Read (w : World) (i2c : I2C_TypeDef) (target_addr target_reg : Nat)
    (w_r : Bool) (data_addr bytes cb : Nat)
    (hlo : 0 ≤ w.lowest_energy_mode EM2) (hhi : w.lowest_energy_mode EM2 < 4) :
    ∃ v : World, v.i2c_state.state = Wait_Read ∧ v.i2c_state.bytes = bytes ∧
      v.lowest_energy_mode
        = Function.update w.lowest_energy_mode EM2 (w.lowest_energy_mode EM2 + 1) ∧
      ∀ gs, (i2c_start true i2c target_addr target_reg w_r data_addr bytes cb w).bind
          (run_signals (Signal.ACK :: Signal.ACK :: gs)) = run_signals gs v := by
  refine ⟨{
      lowest_energy_mode :=
        Function.update w.lowest_energy_mode EM2 (w.lowest_energy_mode EM2 + 1),
      event_scheduled := w.event_scheduled,
      i2c_state := {
        state := Wait_Read,
        I2Cn := i2c,
        target_addr := target_addr,
        target_reg := target_reg,
        w_r := w_r,
        data_addr := data_addr,
        bytes := bytes,
        busy := true,
        cb := cb },
      mem := w.mem,
      bus := w.bus ++ [BusWrite.CMD i2c I2C_CMD.START,
          BusWrite.TXDATA i2c (shl_uint32 target_addr 1 ||| I2C_WRITE)] ++
        [BusWrite.TXDATA i2c target_reg] ++
        [BusWrite.CMD i2c I2C_CMD.START,
          BusWrite.TXDATA i2c (shl_uint32 target_addr 1 ||| I2C_READ)],
      posted := w.posted }, rfl, rfl, rfl, fun gs => ?_⟩
  rw [i2c_start_idle i2c target_addr target_reg w_r data_addr bytes cb w hlo hhi,
    Outcome.ok_bind,
    run_signals_cons, i2c_signal, i2c_ack_sm_Start_CMD _ rfl, Outcome.ok_bind,
    run_signals_cons, i2c_signal, i2c_ack_sm_Read_CMD _ rfl, Outcome.ok_bind]
/-- From `Wait_Read`, the acknowledge, one or two received bytes and the stop
condition are all handled without a failed assertion. -/
theorem i2c_read_tail_returns (v : World) (rx : List Nat)
    (hrx : rx.length = 1 ∨ rx.length = 2) (hs : v.i2c_state.state = Wait_Read)
    (hb : v.i2c_state.bytes = rx.length) (hpos : 0 < v.lowest_energy_mode EM2)
    (hmax : v.lowest_energy_mode EM2 ≤ INT_MAX) :
    (run_signals (Signal.ACK :: (rx.map Signal.RXDATAV ++ [Signal.MSTOP])) v).isFatal
      = false := by
  obtain ⟨t, e, ⟨st, i2cn, ta, tr, wr, da, n, busy, cb⟩, m, b, p⟩ := v
  have hs1 : st = Wait_Read := hs
  have hb1 : n = rx.length := hb
  subst hs1
  rcases hrx with h1 | h2
  · obtain ⟨a, rfl⟩ := List.length_eq_one.mp h1
    have hb2 : n = 1 := hb1
    subst hb2
    show (run_signals [Signal.ACK, Signal.RXDATAV a, Signal.MSTOP] _).isFatal = false
    rw [run_signals_cons, i2c_signal, i2c_ack_sm_Wait_Read _ rfl, Outcome.ok_bind,
      run_signals_cons, i2c_signal, i2c_rxdatav_sm_last _ _ rfl rfl, Outcome.ok_bind,
      run_signals_cons, i2c_signal, i2c_mstop_sm_Stop, Outcome.ok_bind, run_signals_nil]
    · rfl
    · rfl
    · exact hpos
    · exact hmax
  · obtain ⟨a, c, rfl⟩ := List.length_eq_two.mp h2
    have hb2 : n = 2 := hb1
    subst hb2
    show (run_signals [Signal.ACK, Signal.RXDATAV a, Signal.RXDATAV c, Signal.MSTOP] _).isFatal
      = false
    rw [run_signals_cons, i2c_signal, i2c_ack_sm_Wait_Read _ rfl, Outcome.ok_bind,
      run_signals_cons, i2c_signal, i2c_rxdatav_sm_more a 0 _ rfl rfl (by decide),
      Outcome.ok_bind,
      run_signals_cons, i2c_signal, i2c_rxdatav_sm_last _ _ rfl rfl, Outcome.ok_bind,
      run_signals_cons, i2c_signal, i2c_mstop_sm_Stop, Outcome.ok_bind, run_signals_nil]
    · rfl
    · rfl
    · exact hpos
    · exact hmax

/-- C12: not-acknowledges while waiting for the device are retried without
consequence.  For every number `k` of NACK signals delivered in `Wait_Read`
before the acknowledge and every list `rx` of received bytes: each NACK in
`Wait_Read` returns normally and leaves the context (the state included), the
destination memory, the vote table, the event register and the posted events
as they were; the run with `k` retries ends as the run without retries does,
with the same kind of outcome and the same final world apart from the trace
of bus writes (each retry re-sends START and the read address); and for a
byte count of 1 or 2 the run returns normally. -/
theorem i2c_nack_retry_same_result (w : World) (i2c : I2C_TypeDef)
    (target_addr target_reg : Nat) (w_r : Bool) (data_addr cb k : Nat) (rx : List Nat)
    (hlo : 0 ≤ w.lowest_energy_mode EM2) (hhi : w.lowest_energy_mode EM2 < 4) :
    (∀ v : World, v.i2c_state.state = Wait_Read →
      ∃ v1, i2c_signal Signal.NACK v = Outcome.ok v1 ∧ v1.i2c_state = v.i2c_state ∧
        v1.mem = v.mem ∧ v1.lowest_energy_mode = v.lowest_energy_mode ∧
        v1.event_scheduled = v.event_scheduled ∧ v1.posted = v.posted) ∧
    ((i2c_start true i2c target_addr target_reg w_r data_addr rx.length cb w).bind
        (run_signals (transaction_signals k rx))).map forget_bus
      = ((i2c_start true i2c target_addr target_reg w_r data_addr rx.length cb w).bind
        (run_signals (transaction_signals 0 rx))).map forget_bus ∧
    (rx.length = 1 ∨ rx.length = 2 →
      ((i2c_start true i2c target_addr target_reg w_r data_addr rx.length cb w).bind
        (run_signals (transaction_signals k rx))).isFatal = false) := by
  obtain ⟨v, hv, hvb, hvt, hrun⟩ :=
    i2c_start_to_Wait_Read w i2c target_addr target_reg w_r data_addr rx.length cb hlo hhi
  have hk : ∀ j, ((i2c_start true i2c target_addr target_reg w_r data_addr rx.length cb w).bind
      (run_signals (transaction_signals j rx))).map forget_bus
      = (run_signals (Signal.ACK :: (rx.map Signal.RXDATAV ++ [Signal.MSTOP])) v).map
        forget_bus := by
    intro j
    rw [transaction_signals_eq, hrun]
    obtain ⟨b, hb⟩ := run_signals_nacks j
      (Signal.ACK :: (rx.map Signal.RXDATAV ++ [Signal.MSTOP])) v hv
    rw [hb]
    exact (run_signals_forget_bus _ { v with bus := b }).symm.trans
      (run_signals_forget_bus _ v)
  refine ⟨fun u hu => ⟨_, i2c_nack_sm_Wait_Read u hu, rfl, rfl, rfl, rfl, rfl⟩, ?_, ?_⟩
  · rw [hk k, hk 0]
  · intro hrx
    have hpos : 0 < v.lowest_energy_mode EM2 := by
      rw [hvt, Function.update_same]; omega
    have hmax : v.lowest_energy_mode EM2 ≤ INT_MAX := by
      rw [hvt, Function.update_same]; unfold INT_MAX; omega
    rw [← Outcome.isFatal_map forget_bus, hk k, Outcome.isFatal_map]
    exact i2c_read_tail_returns v rx hrx hv hvb hpos hmax

/-- C12 witness: a two-byte read of register 0xF5 of the device at 0x40 with
three retries. -/
theorem i2c_nack_retry_same_result_witness :
    ((i2c_start true I2C_TypeDef.I2C0 0x40 0xF5 true 0 [0x6A, 0xBC].length 8
        (exampleWorld 0)).bind
        (run_signals (transaction_signals 3 [0x6A, 0xBC]))).map forget_bus
      = ((i2c_start true I2C_TypeDef.I2C0 0x40 0xF5 true 0 [0x6A, 0xBC].length 8
        (exampleWorld 0)).bind
        (run_signals (transaction_signals 0 [0x6A, 0xBC]))).map forget_bus :=
  (i2c_nack_retry_same_result (exampleWorld 0) I2C_TypeDef.I2C0 0x40 0xF5 true 0 8 3
    [0x6A, 0xBC] (by decide) (by decide)).2.1

/-- C13 counterexample: `i2c_start` called a second time while the context is
still busy, with the hardware reading idle, returns normally, overwrites the
context and takes a second vote. -/
theorem i2c_start_while_busy_returns :
    ((i2c_start true I2C_TypeDef.I2C1 0x40 0xE7 true 0 1 8 (exampleWorld 0)).state).i2c_state.busy
      = true ∧
    (i2c_start true I2C_TypeDef.I2C0 0x48 0x04 false 4 2 16
      ((i2c_start true I2C_TypeDef.I2C1 0x40 0xE7 true 0 1 8 (exampleWorld 0)).state)).isFatal
      = false ∧
    ((i2c_start true I2C_TypeDef.I2C0 0x48 0x04 false 4 2 16
      ((i2c_start true I2C_TypeDef.I2C1 0x40 0xE7 true 0 1 8 (exampleWorld 0)).state)).state
      ).i2c_state.target_addr = 0x48 ∧
    ((i2c_start true I2C_TypeDef.I2C0 0x48 0x04 false 4 2 16
      ((i2c_start true I2C_TypeDef.I2C1 0x40 0xE7 true 0 1 8 (exampleWorld 0)).state)).state
      ).lowest_energy_mode EM2 = 2 := by
  refine ⟨by decide, by decide, by decide, by decide⟩

/-- C13 (as amended): `i2c_start` tests the hardware state only.  With the
hardware not idle it fails and leaves the world (context and vote table
included) as it was; with the hardware idle and the EM2 counter within 0..3
it returns normally, whatever the busy flag held, with the EM2 counter one
higher and the context overwritten by the arguments and `busy = true`; and
whether it fails never depends on the busy flag. -/
theorem i2c_start_checks_hardware_only (w : World) (i2c : I2C_TypeDef)
    (target_addr target_reg : Nat) (w_r : Bool) (data_addr bytes cb : Nat) :
    i2c_start false i2c target_addr target_reg w_r data_addr bytes cb w = Outcome.fatal w ∧
    (0 ≤ w.lowest_energy_mode EM2 → w.lowest_energy_mode EM2 < 4 →
      ∃ w1, i2c_start true i2c target_addr target_reg w_r data_addr bytes cb w = Outcome.ok w1 ∧
        w1.i2c_state =
          { state := Start_CMD, I2Cn := i2c, target_addr := target_addr,
            target_reg := target_reg, w_r := w_r, data_addr := data_addr, bytes := bytes,
            busy := true, cb := cb } ∧
        w1.lowest_energy_mode
          = Function.update w.lowest_energy_mode EM2 (w.lowest_energy_mode EM2 + 1)) ∧
    (∀ (hw_idle b : Bool),
      (i2c_start hw_idle i2c target_addr target_reg w_r data_addr bytes cb
        { w with i2c_state := { w.i2c_state with busy := b } }).isFatal
      = (i2c_start hw_idle i2c target_addr target_reg w_r data_addr bytes cb w).isFatal) := by
  refine ⟨rfl, fun hlo hhi => ?_, fun hw_idle b => ?_⟩
  · exact ⟨_, i2c_start_idle i2c target_addr target_reg w_r data_addr bytes cb w hlo hhi,
      rfl, rfl⟩
  · cases hw_idle
    · rfl
    · unfold i2c_start
      show ((with_table _ (sleep_block_mode I2C_EM_BLOCK w.lowest_energy_mode)).bind _).isFatal
        = ((with_table _ (sleep_block_mode I2C_EM_BLOCK w.lowest_energy_mode)).bind _).isFatal
      rcases sleep_block_mode I2C_EM_BLOCK w.lowest_energy_mode with t | t <;> rfl

/-- C14: the MSTOP handler does not return the context to idle.  After a
complete one-byte transaction, MSTOP included, the run has returned normally,
yet the busy flag set by `i2c_start` is still true and the state is still
`Stop`, a state that expects MSTOP: the `Stop` case of `i2c_mstop_sm` assigns
neither field. -/
theorem i2c_mstop_keeps_busy_and_Stop :
    ((i2c_start true I2C_TypeDef.I2C1 0x40 0xE7 true 0 1 8 (exampleWorld 0)).bind
        (run_signals [Signal.ACK, Signal.ACK, Signal.ACK, Signal.RXDATAV 0x3A, Signal.MSTOP])
      ).isFatal = false ∧
    ((i2c_start true I2C_TypeDef.I2C1 0x40 0xE7 true 0 1 8 (exampleWorld 0)).bind
        (run_signals [Signal.ACK, Signal.ACK, Signal.ACK, Signal.RXDATAV 0x3A, Signal.MSTOP])
      ).state.i2c_state.busy = true ∧
    ((i2c_start true I2C_TypeDef.I2C1 0x40 0xE7 true 0 1 8 (exampleWorld 0)).bind
        (run_signals [Signal.ACK, Signal.ACK, Signal.ACK, Signal.RXDATAV 0x3A, Signal.MSTOP])
      ).state.i2c_state.state = Stop ∧
    expected_transition
      ((i2c_start true I2C_TypeDef.I2C1 0x40 0xE7 true 0 1 8 (exampleWorld 0)).bind
        (run_signals [Signal.ACK, Signal.ACK, Signal.ACK, Signal.RXDATAV 0x3A, Signal.MSTOP])
      ).state.i2c_state.state Signal.MSTOP = true := by
  refine ⟨by decide, by decide, by decide, by decide⟩

/-- What MSTOP does in `Stop`, for every world whose EM2 counter is a positive
`int`: the handler returns normally, decreases the EM2 counter by one and
leaves the other counters alone, calls `add_scheduled_event` once with the
completion id (every bit of the id is then set in what
`get_scheduled_events` returns), and stores nothing else: no statement of the
case writes the context, so `busy` and `state` are as on entry. -/
theorem i2c_mstop_sm_in_Stop (w : World) (hs : w.i2c_state.state = Stop)
    (hpos : 0 < w.lowest_energy_mode EM2) (hmax : w.lowest_energy_mode EM2 ≤ INT_MAX) :
    ∃ w1, i2c_signal Signal.MSTOP w = Outcome.ok w1 ∧
      w1.lowest_energy_mode
        = Function.update w.lowest_energy_mode EM2 (w.lowest_energy_mode EM2 - 1) ∧
      w1.event_scheduled = add_scheduled_event w.i2c_state.cb w.event_scheduled ∧
      (∀ i, w.i2c_state.cb.testBit i = true →
        (get_scheduled_events w1.event_scheduled).testBit i = true) ∧
      w1.posted = w.posted ++ [w.i2c_state.cb] ∧
      w1.i2c_state = w.i2c_state ∧ w1.i2c_state.busy = w.i2c_state.busy ∧
      w1.i2c_state.state = Stop ∧ w1.mem = w.mem ∧ w1.bus = w.bus := by
  refine ⟨_, i2c_mstop_sm_Stop w hs hpos hmax, rfl, rfl, ?_, rfl, rfl, rfl, hs, rfl, rfl⟩
  intro i hi
  show (w.event_scheduled ||| w.i2c_state.cb).testBit i = true
  rw [Nat.testBit_or, hi, Bool.or_true]

/-- An instance of the lemma above: the world left by a one-byte read up to the
stop condition. -/
theorem i2c_mstop_sm_in_Stop_witness :
    ∃ w1, i2c_signal Signal.MSTOP
        ((i2c_start true I2C_TypeDef.I2C1 0x40 0xE7 true 0 1 8 (exampleWorld 0)).bind
          (run_signals [Signal.ACK, Signal.ACK, Signal.ACK, Signal.RXDATAV 0x3A])).state
        = Outcome.ok w1 ∧
      w1.i2c_state.busy = true ∧ w1.i2c_state.state = Stop ∧ w1.posted = [8] := by
  obtain ⟨w1, h1, _, _, _, h5, h6, _, h8, _, _⟩ := i2c_mstop_sm_in_Stop
    ((i2c_start true I2C_TypeDef.I2C1 0x40 0xE7 true 0 1 8 (exampleWorld 0)).bind
      (run_signals [Signal.ACK, Signal.ACK, Signal.ACK, Signal.RXDATAV 0x3A])).state
    (by decide) (by decide) (by decide)
  exact ⟨w1, h1, by rw [h6]; decide, h8, h5⟩

/-- Delivering a concatenation of two lists of signals. -/
theorem run_signals_append (gs hs : List Signal) (w : World) :
    run_signals (gs ++ hs) w = (run_signals gs w).bind (run_signals hs) := by
  induction gs generalizing w with
  | nil => rfl
  | cons g gs ih =>
    show run_signals (g :: (gs ++ hs)) w = _
    rw [run_signals_cons, run_signals_cons]
    rcases i2c_signal g w with a | a
    · rw [Outcome.ok_bind, Outcome.ok_bind, ih]
    · rfl

/-- The handlers of ACK, NACK and RXDATAV never touch the vote table, on the
normal path or on the fatal one. -/
theorem i2c_signal_keeps_table (g : Signal) (w : World) (hg : g ≠ Signal.MSTOP) :
    (i2c_signal g w).state.lowest_energy_mode = w.lowest_energy_mode := by
  cases g with
  | ACK =>
    show (i2c_ack_sm w).state.lowest_energy_mode = w.lowest_energy_mode
    rcases state_cases w.i2c_state.state with hs | hs | hs | hs | hs | ⟨n, hs⟩
    · rw [i2c_ack_sm_Start_CMD w hs]; rfl
    · rw [i2c_ack_sm_Read_CMD w hs]; rfl
    · rw [i2c_ack_sm_Wait_Read w hs]; rfl
    · rw [i2c_ack_sm_fatal w (by rw [hs])]; rfl
    · rw [i2c_ack_sm_fatal w (by rw [hs]; decide)]; rfl
    · rw [i2c_ack_sm_fatal w (by rw [hs]; omega)]; rfl
  | NACK =>
    show (i2c_nack_sm w).state.lowest_energy_mode = w.lowest_energy_mode
    by_cases hs : w.i2c_state.state = Wait_Read
    · rw [i2c_nack_sm_Wait_Read w hs]; rfl
    · rw [i2c_nack_sm_fatal w hs]; rfl
  | MSTOP => exact absurd rfl hg
  | RXDATAV rxdata =>
    show (i2c_rxdatav_sm rxdata w).state.lowest_energy_mode = w.lowest_energy_mode
    by_cases hs : w.i2c_state.state = End_Sense
    · obtain ⟨x, hx⟩ : ∃ x, (w.i2c_state.bytes + 2 ^ 32 - 1) % 2 ^ 32 = x := ⟨_, rfl⟩
      rw [i2c_rxdatav_sm_End_Sense rxdata x w hs hx]
      by_cases hpos : x > 0
      · rw [if_pos hpos]; rfl
      · rw [if_neg hpos]; rfl
    · rw [i2c_rxdatav_sm_fatal rxdata w hs]; rfl

/-- A run without MSTOP that returns normally leaves the vote table as it was. -/
theorem run_signals_keeps_table (gs : List Signal) (w w1 : World)
    (hgs : Signal.MSTOP ∉ gs) (hrun : run_signals gs w = Outcome.ok w1) :
    w1.lowest_energy_mode = w.lowest_energy_mode := by
  induction gs generalizing w with
  | nil =>
    have h : Outcome.ok w = Outcome.ok w1 := hrun
    injection h with h
    rw [← h]
  | cons g gs ih =>
    have hg : g ≠ Signal.MSTOP := fun h => hgs (h ▸ List.mem_cons_self _ _)
    have hrest : Signal.MSTOP ∉ gs := fun h => hgs (List.mem_cons_of_mem _ h)
    rw [run_signals_cons] at hrun
    have ht := i2c_signal_keeps_table g w hg
    rcases hstep : i2c_signal g w with a | a
    · rw [hstep] at hrun ht
      rw [Outcome.ok_bind] at hrun
      rw [ih a hrest hrun]
      exact ht
    · rw [hstep] at hrun
      cases hrun

/-- C15: votes are paired across a bus transaction.  For every world whose EM2
counter is within 0..3 (a vote count that `i2c_start` can add to), every
argument list, and every list `gs` of ACK, NACK and RXDATAV signals, if
`i2c_start` followed by `gs` and then MSTOP returns normally, then: `i2c_start`
increased exactly the EM2 counter, by one; no handler of `gs` touched the
table; the MSTOP handler decreased exactly the EM2 counter, by one; and the
table at the end is the table before `i2c_start`. -/
theorem i2c_votes_paired (w w2 : World) (i2c : I2C_TypeDef) (target_addr target_reg : Nat)
    (w_r : Bool) (data_addr bytes cb : Nat) (gs : List Signal)
    (hlo : 0 ≤ w.lowest_energy_mode EM2) (hhi : w.lowest_energy_mode EM2 < 4)
    (hgs : Signal.MSTOP ∉ gs)
    (hrun : (i2c_start true i2c target_addr target_reg w_r data_addr bytes cb w).bind
      (run_signals (gs ++ [Signal.MSTOP])) = Outcome.ok w2) :
    ∃ w0 w1,
      i2c_start true i2c target_addr target_reg w_r data_addr bytes cb w = Outcome.ok w0 ∧
      w0.lowest_energy_mode
        = Function.update w.lowest_energy_mode EM2 (w.lowest_energy_mode EM2 + 1) ∧
      run_signals gs w0 = Outcome.ok w1 ∧
      w1.lowest_energy_mode = w0.lowest_energy_mode ∧
      i2c_signal Signal.MSTOP w1 = Outcome.ok w2 ∧
      w2.lowest_energy_mode
        = Function.update w1.lowest_energy_mode EM2 (w1.lowest_energy_mode EM2 - 1) ∧
      w2.lowest_energy_mode = w.lowest_energy_mode := by
  have hstart := i2c_start_idle i2c target_addr target_reg w_r data_addr bytes cb w hlo hhi
  rw [hstart, Outcome.ok_bind, run_signals_append] at hrun
  rcases hmid : run_signals gs _ with w1 | w1
  swap
  · rw [hmid] at hrun
    cases hrun
  rw [hmid, Outcome.ok_bind, run_signals_cons] at hrun
  have ht1 := run_signals_keeps_table gs _ w1 hgs hmid
  have ht1' : w1.lowest_energy_mode
      = Function.update w.lowest_energy_mode EM2 (w.lowest_energy_mode EM2 + 1) := ht1
  have hstop : w1.i2c_state.state = Stop := by
    by_contra hne
    have hf : i2c_signal Signal.MSTOP w1 = Outcome.fatal w1 := i2c_mstop_sm_fatal w1 hne
    rw [hf] at hrun
    have hrun1 : Outcome.fatal w1 = Outcome.ok w2 := hrun
    cases hrun1
  have hpos : 0 < w1.lowest_energy_mode EM2 := by
    rw [ht1', Function.update_same]; omega
  have hmax : w1.lowest_energy_mode EM2 ≤ INT_MAX := by
    rw [ht1', Function.update_same]; unfold INT_MAX; omega
  have hm : i2c_signal Signal.MSTOP w1 = _ := i2c_mstop_sm_Stop w1 hstop hpos hmax
  rw [hm, Outcome.ok_bind] at hrun
  have hw2 : Outcome.ok _ = Outcome.ok w2 := hrun
  injection hw2 with hw2
  refine ⟨_, w1, hstart, rfl, hmid, ht1, ?_, ?_, ?_⟩
  · rw [hm, hw2]
  · rw [← hw2]
  · rw [← hw2]
    show Function.update w1.lowest_energy_mode EM2 (w1.lowest_energy_mode EM2 - 1)
      = w.lowest_energy_mode
    rw [ht1', Function.update_same, Function.update_idem]
    have hval : w.lowest_energy_mode EM2 + 1 - 1 = w.lowest_energy_mode EM2 := by omega
    rw [hval, Function.update_eq_self]

/-- C15 witness: a one-byte read with one retry, from the table of `sleep_open`. -/
theorem i2c_votes_paired_witness :
    ((i2c_start true I2C_TypeDef.I2C1 0x40 0xE7 true 0 1 8 (exampleWorld 0)).bind
      (run_signals ([Signal.ACK, Signal.ACK, Signal.NACK, Signal.ACK, Signal.RXDATAV 0x3A]
        ++ [Signal.MSTOP]))).state.lowest_energy_mode
      = (exampleWorld 0).lowest_energy_mode := by
  obtain ⟨_, _, _, _, _, _, _, _, h⟩ := i2c_votes_paired (exampleWorld 0)
    ((i2c_start true I2C_TypeDef.I2C1 0x40 0xE7 true 0 1 8 (exampleWorld 0)).bind
      (run_signals ([Signal.ACK, Signal.ACK, Signal.NACK, Signal.ACK, Signal.RXDATAV 0x3A]
        ++ [Signal.MSTOP]))).state
    I2C_TypeDef.I2C1 0x40 0xE7 true 0 1 8
    [Signal.ACK, Signal.ACK, Signal.NACK, Signal.ACK, Signal.RXDATAV 0x3A]
    (by decide) (by decide) (by decide) rfl
  exact h

/-- Every handler does the same on a world and on that world with the direction
flag blanked, up to the flag. -/
theorem i2c_signal_forget_w_r (g : Signal) (w : World) :
    (i2c_signal g (forget_w_r w)).map forget_w_r = (i2c_signal g w).map forget_w_r := by
  rcases state_cases w.i2c_state.state with hs | hs | hs | hs | hs | ⟨n, hs⟩
  · cases g with
    | ACK =>
      show (i2c_ack_sm (forget_w_r w)).map forget_w_r = (i2c_ack_sm w).map forget_w_r
      rw [i2c_ack_sm_Start_CMD w hs, i2c_ack_sm_Start_CMD (forget_w_r w) hs]; rfl
    | NACK =>
      show (i2c_nack_sm (forget_w_r w)).map forget_w_r = (i2c_nack_sm w).map forget_w_r
      have h : w.i2c_state.state ≠ Wait_Read := by rw [hs]; decide
      rw [i2c_nack_sm_fatal w h, i2c_nack_sm_fatal (forget_w_r w) h]; rfl
    | MSTOP =>
      show (i2c_mstop_sm (forget_w_r w)).map forget_w_r = (i2c_mstop_sm w).map forget_w_r
      have h : w.i2c_state.state ≠ Stop := by rw [hs]; decide
      rw [i2c_mstop_sm_fatal w h, i2c_mstop_sm_fatal (forget_w_r w) h]; rfl
    | RXDATAV rxdata =>
      show (i2c_rxdatav_sm rxdata (forget_w_r w)).map forget_w_r
        = (i2c_rxdatav_sm rxdata w).map forget_w_r
      have h : w.i2c_state.state ≠ End_Sense := by rw [hs]; decide
      rw [i2c_rxdatav_sm_fatal rxdata w h, i2c_rxdatav_sm_fatal rxdata (forget_w_r w) h]; rfl
  · cases g with
    | ACK =>
      show (i2c_ack_sm (forget_w_r w)).map forget_w_r = (i2c_ack_sm w).map forget_w_r
      rw [i2c_ack_sm_Read_CMD w hs, i2c_ack_sm_Read_CMD (forget_w_r w) hs]; rfl
    | NACK =>
      show (i2c_nack_sm (forget_w_r w)).map forget_w_r = (i2c_nack_sm w).map forget_w_r
      have h : w.i2c_state.state ≠ Wait_Read := by rw [hs]; decide
      rw [i2c_nack_sm_fatal w h, i2c_nack_sm_fatal (forget_w_r w) h]; rfl
    | MSTOP =>
      show (i2c_mstop_sm (forget_w_r w)).map forget_w_r = (i2c_mstop_sm w).map forget_w_r
      have h : w.i2c_state.state ≠ Stop := by rw [hs]; decide
      rw [i2c_mstop_sm_fatal w h, i2c_mstop_sm_fatal (forget_w_r w) h]; rfl
    | RXDATAV rxdata =>
      show (i2c_rxdatav_sm rxdata (forget_w_r w)).map forget_w_r
        = (i2c_rxdatav_sm rxdata w).map forget_w_r
      have h : w.i2c_state.state ≠ End_Sense := by rw [hs]; decide
      rw [i2c_rxdatav_sm_fatal rxdata w h, i2c_rxdatav_sm_fatal rxdata (forget_w_r w) h]; rfl
  · cases g with
    | ACK =>
      show (i2c_ack_sm (forget_w_r w)).map forget_w_r = (i2c_ack_sm w).map forget_w_r
      rw [i2c_ack_sm_Wait_Read w hs, i2c_ack_sm_Wait_Read (forget_w_r w) hs]; rfl
    | NACK =>
      show (i2c_nack_sm (forget_w_r w)).map forget_w_r = (i2c_nack_sm w).map forget_w_r
      rw [i2c_nack_sm_Wait_Read w hs, i2c_nack_sm_Wait_Read (forget_w_r w) hs]; rfl
    | MSTOP =>
      show (i2c_mstop_sm (forget_w_r w)).map forget_w_r = (i2c_mstop_sm w).map forget_w_r
      have h : w.i2c_state.state ≠ Stop := by rw [hs]; decide
      rw [i2c_mstop_sm_fatal w h, i2c_mstop_sm_fatal (forget_w_r w) h]; rfl
    | RXDATAV rxdata =>
      show (i2c_rxdatav_sm rxdata (forget_w_r w)).map forget_w_r
        = (i2c_rxdatav_sm rxdata w).map forget_w_r
      have h : w.i2c_state.state ≠ End_Sense := by rw [hs]; decide
      rw [i2c_rxdatav_sm_fatal rxdata w h, i2c_rxdatav_sm_fatal rxdata (forget_w_r w) h]; rfl
  · cases g with
    | ACK =>
      show (i2c_ack_sm (forget_w_r w)).map forget_w_r = (i2c_ack_sm w).map forget_w_r
      have h : 3 ≤ w.i2c_state.state := by rw [hs]
      rw [i2c_ack_sm_fatal w h, i2c_ack_sm_fatal (forget_w_r w) h]; rfl
    | NACK =>
      show (i2c_nack_sm (forget_w_r w)).map forget_w_r = (i2c_nack_sm w).map forget_w_r
      have h : w.i2c_state.state ≠ Wait_Read := by rw [hs]; decide
      rw [i2c_nack_sm_fatal w h, i2c_nack_sm_fatal (forget_w_r w) h]; rfl
    | MSTOP =>
      show (i2c_mstop_sm (forget_w_r w)).map forget_w_r = (i2c_mstop_sm w).map forget_w_r
      have h : w.i2c_state.state ≠ Stop := by rw [hs]; decide
      rw [i2c_mstop_sm_fatal w h, i2c_mstop_sm_fatal (forget_w_r w) h]; rfl
    | RXDATAV rxdata =>
      show (i2c_rxdatav_sm rxdata (forget_w_r w)).map forget_w_r
        = (i2c_rxdatav_sm rxdata w).map forget_w_r
      obtain ⟨x, hx⟩ : ∃ x, (w.i2c_state.bytes + 2 ^ 32 - 1) % 2 ^ 32 = x := ⟨_, rfl⟩
      rw [i2c_rxdatav_sm_End_Sense rxdata x w hs hx,
        i2c_rxdatav_sm_End_Sense rxdata x (forget_w_r w) hs hx]
      by_cases hpos : x > 0
      · rw [if_pos hpos, if_pos hpos]; rfl
      · rw [if_neg hpos, if_neg hpos]; rfl
  · cases g with
    | ACK =>
      show (i2c_ack_sm (forget_w_r w)).map forget_w_r = (i2c_ack_sm w).map forget_w_r
      have h : 3 ≤ w.i2c_state.state := by rw [hs]; decide
      rw [i2c_ack_sm_fatal w h, i2c_ack_sm_fatal (forget_w_r w) h]; rfl
    | NACK =>
      show (i2c_nack_sm (forget_w_r w)).map forget_w_r = (i2c_nack_sm w).map forget_w_r
      have h : w.i2c_state.state ≠ Wait_Read := by rw [hs]; decide
      rw [i2c_nack_sm_fatal w h, i2c_nack_sm_fatal (forget_w_r w) h]; rfl
    | MSTOP =>
      show (i2c_mstop_sm (forget_w_r w)).map forget_w_r = (i2c_mstop_sm w).map forget_w_r
      rw [i2c_mstop_sm_Stop_body w hs, i2c_mstop_sm_Stop_body (forget_w_r w) hs]
      show ((with_table (forget_w_r w) (sleep_unblock_mode EM2 w.lowest_energy_mode)).bind
        _).map forget_w_r = _
      rcases sleep_unblock_mode EM2 w.lowest_energy_mode with t | t <;> rfl
    | RXDATAV rxdata =>
      show (i2c_rxdatav_sm rxdata (forget_w_r w)).map forget_w_r
        = (i2c_rxdatav_sm rxdata w).map forget_w_r
      have h : w.i2c_state.state ≠ End_Sense := by rw [hs]; decide
      rw [i2c_rxdatav_sm_fatal rxdata w h, i2c_rxdatav_sm_fatal rxdata (forget_w_r w) h]; rfl
  · cases g with
    | ACK =>
      show (i2c_ack_sm (forget_w_r w)).map forget_w_r = (i2c_ack_sm w).map forget_w_r
      have h : 3 ≤ w.i2c_state.state := by rw [hs]; omega
      rw [i2c_ack_sm_fatal w h, i2c_ack_sm_fatal (forget_w_r w) h]; rfl
    | NACK =>
      show (i2c_nack_sm (forget_w_r w)).map forget_w_r = (i2c_nack_sm w).map forget_w_r
      have h : w.i2c_state.state ≠ Wait_Read := by rw [hs]; exact Nat.succ_ne_succ.mpr (by omega)
      rw [i2c_nack_sm_fatal w h, i2c_nack_sm_fatal (forget_w_r w) h]; rfl
    | MSTOP =>
      show (i2c_mstop_sm (forget_w_r w)).map forget_w_r = (i2c_mstop_sm w).map forget_w_r
      have h : w.i2c_state.state ≠ Stop := by rw [hs]; exact Nat.succ_ne_succ.mpr (by omega)
      rw [i2c_mstop_sm_fatal w h, i2c_mstop_sm_fatal (forget_w_r w) h]; rfl
    | RXDATAV rxdata =>
      show (i2c_rxdatav_sm rxdata (forget_w_r w)).map forget_w_r
        = (i2c_rxdatav_sm rxdata w).map forget_w_r
      have h : w.i2c_state.state ≠ End_Sense := by
        rw [hs]; exact Nat.succ_ne_succ.mpr (by omega)
      rw [i2c_rxdatav_sm_fatal rxdata w h, i2c_rxdatav_sm_fatal rxdata (forget_w_r w) h]; rfl

/-- Delivering signals does the same on a world and on that world with the
direction flag blanked, up to the flag. -/
theorem run_signals_forget_w_r (gs : List Signal) (w : World) :
    (run_signals gs (forget_w_r w)).map forget_w_r = (run_signals gs w).map forget_w_r := by
  induction gs generalizing w with
  | nil => rfl
  | cons g gs ih =>
    rw [run_signals_cons, run_signals_cons]
    have h := i2c_signal_forget_w_r g w
    rcases h1 : i2c_signal g (forget_w_r w) with a | a <;>
      rcases h2 : i2c_signal g w with b | b <;> rw [h1, h2] at h
    · have hab : forget_w_r a = forget_w_r b := by
        have h3 : Outcome.ok (forget_w_r a) = Outcome.ok (forget_w_r b) := h
        injection h3
      rw [Outcome.ok_bind, Outcome.ok_bind, ← ih a, ← ih b, hab]
    · have h3 : Outcome.ok (forget_w_r a) = Outcome.fatal (forget_w_r b) := h
      cases h3
    · have h3 : Outcome.fatal (forget_w_r a) = Outcome.ok (forget_w_r b) := h
      cases h3
    · exact h


/-- C30: the direction flag has no effect on the bus engine.  For every world,
every argument list and every list of signals (with the bytes they carry),
the run of `i2c_start` with `w_r = true` followed by the signals and the run
with `w_r = false` end with the same kind of outcome and with worlds that
agree in everything except the stored `w_r` field: state and the other
context fields, bus writes, memory, vote table, event register and posted
events.  As this holds for every list of signals it holds after every prefix,
so the two state sequences agree.  The write address sent by `i2c_start` is
`(target_addr << 1) | I2C_WRITE` for either flag, and the flag is stored as
given. -/
theorem i2c_w_r_has_no_effect (w : World) (hw_idle : Bool) (i2c : I2C_TypeDef)
    (target_addr target_reg data_addr bytes cb : Nat) (gs : List Signal) :
    ((i2c_start hw_idle i2c target_addr target_reg true data_addr bytes cb w).bind
        (run_signals gs)).map forget_w_r
      = ((i2c_start hw_idle i2c target_addr target_reg false data_addr bytes cb w).bind
        (run_signals gs)).map forget_w_r ∧
    (∀ (w_r : Bool) (w0 : World),
      i2c_start hw_idle i2c target_addr target_reg w_r data_addr bytes cb w = Outcome.ok w0 →
      w0.i2c_state.w_r = w_r ∧
      w0.bus = w.bus ++ [BusWrite.CMD i2c I2C_CMD.START,
        BusWrite.TXDATA i2c (shl_uint32 target_addr 1 ||| I2C_WRITE)]) := by
  constructor
  · cases hw_idle
    · rfl
    · unfold i2c_start
      simp only [if_true]
      rcases sleep_block_mode I2C_EM_BLOCK w.lowest_energy_mode with t | t
      · show (run_signals gs _).map forget_w_r = (run_signals gs _).map forget_w_r
        rw [← run_signals_forget_w_r gs, ← run_signals_forget_w_r gs
          { lowest_energy_mode := t, event_scheduled := w.event_scheduled,
            i2c_state :=
              { state := Start_CMD, I2Cn := i2c, target_addr := target_addr,
                target_reg := target_reg, w_r := false, data_addr := data_addr,
                bytes := bytes, busy := true, cb := cb },
            mem := w.mem,
            bus := w.bus ++ [BusWrite.CMD i2c I2C_CMD.START,
              BusWrite.TXDATA i2c (shl_uint32 target_addr 1 ||| I2C_WRITE)],
            posted := w.posted }]
        rfl
      · rfl
  · intro w_r w0 h
    cases hw_idle
    · cases h
    · unfold i2c_start at h
      simp only [if_true] at h
      rcases hb : sleep_block_mode I2C_EM_BLOCK w.lowest_energy_mode with t | t
      · rw [hb] at h
        have h1 : Outcome.ok _ = Outcome.ok w0 := h
        injection h1 with h1
        rw [← h1]
        exact ⟨rfl, rfl⟩
      · rw [hb] at h
        cases h

/-- After `i2c_start` and the three acknowledges of the address phase the engine
is in `End_Sense`; the bus has seen START, the write address, the register
byte, a repeated START and the read address. -/
theorem i2c_start_to_End_Sense (w : World) (i2c : I2C_TypeDef) (target_addr target_reg : Nat)
    (w_r : Bool) (data_addr bytes cb : Nat)
    (hlo : 0 ≤ w.lowest_energy_mode EM2) (hhi : w.lowest_energy_mode EM2 < 4) :
    ∃ v : World, v.i2c_state.state = End_Sense ∧ v.i2c_state.bytes = bytes ∧
      v.i2c_state.I2Cn = i2c ∧ v.i2c_state.data_addr = data_addr ∧
      v.bus = w.bus ++ [BusWrite.CMD i2c I2C_CMD.START,
          BusWrite.TXDATA i2c (shl_uint32 target_addr 1 ||| I2C_WRITE),
          BusWrite.TXDATA i2c target_reg,
          BusWrite.CMD i2c I2C_CMD.START,
          BusWrite.TXDATA i2c (shl_uint32 target_addr 1 ||| I2C_READ)] ∧
      ∀ gs, (i2c_start true i2c target_addr target_reg w_r data_addr bytes cb w).bind
          (run_signals (Signal.ACK :: Signal.ACK :: Signal.ACK :: gs)) = run_signals gs v := by
  obtain ⟨v, hv, hvb, _, hrun⟩ :=
    i2c_start_to_Wait_Read w i2c target_addr target_reg w_r data_addr bytes cb hlo hhi
  have hI : v.i2c_state.I2Cn = i2c ∧ v.i2c_state.data_addr = data_addr ∧
      v.bus = w.bus ++ [BusWrite.CMD i2c I2C_CMD.START,
          BusWrite.TXDATA i2c (shl_uint32 target_addr 1 ||| I2C_WRITE),
          BusWrite.TXDATA i2c target_reg,
          BusWrite.CMD i2c I2C_CMD.START,
          BusWrite.TXDATA i2c (shl_uint32 target_addr 1 ||| I2C_READ)] := by
    have h := hrun []
    rw [i2c_start_idle i2c target_addr target_reg w_r data_addr bytes cb w hlo hhi,
      Outcome.ok_bind,
      run_signals_cons, i2c_signal, i2c_ack_sm_Start_CMD _ rfl, Outcome.ok_bind,
      run_signals_cons, i2c_signal, i2c_ack_sm_Read_CMD _ rfl, Outcome.ok_bind] at h
    have h1 : Outcome.ok _ = Outcome.ok v := h
    injection h1 with h1
    rw [← h1]
    refine ⟨rfl, rfl, ?_⟩
    simp only [List.append_assoc, List.cons_append, List.nil_append]
  refine ⟨{ v with i2c_state := { v.i2c_state with state := End_Sense } },
    rfl, hvb, hI.1, hI.2.1, hI.2.2, fun gs => ?_⟩
  rw [hrun, run_signals_cons, i2c_signal, i2c_ack_sm_Wait_Read v hv, Outcome.ok_bind]

/-- The received bytes before the last one: with `m + 1` bytes still expected
after them, each is answered by ACK and the state stays `End_Sense`. -/
theorem run_signals_rx_nonfinal (rx : List Nat) (m : Nat) (v : World)
    (hs : v.i2c_state.state = End_Sense)
    (hb : v.i2c_state.bytes = rx.length + (m + 1)) (hlt : rx.length + (m + 1) < 2 ^ 32) :
    ∃ v1, run_signals (rx.map Signal.RXDATAV) v = Outcome.ok v1 ∧
      v1.i2c_state.state = End_Sense ∧ v1.i2c_state.bytes = m + 1 ∧
      v1.i2c_state.I2Cn = v.i2c_state.I2Cn ∧
      v1.bus = v.bus ++ List.replicate rx.length (BusWrite.CMD v.i2c_state.I2Cn I2C_CMD.ACK) := by
  induction rx generalizing v with
  | nil =>
    refine ⟨v, rfl, hs, ?_, rfl, ?_⟩
    · rw [hb]; simp
    · simp
  | cons a rx ih =>
    have hb2 : v.i2c_state.bytes = (rx.length + m) + 2 := by
      rw [hb, List.length_cons]; omega
    have hlt2 : (rx.length + m) + 2 < 2 ^ 32 := by
      rw [List.length_cons] at hlt; omega
    show ∃ v1, run_signals (Signal.RXDATAV a :: rx.map Signal.RXDATAV) v = Outcome.ok v1 ∧ _
    rw [run_signals_cons, i2c_signal, i2c_rxdatav_sm_more a (rx.length + m) v hs hb2 hlt2,
      Outcome.ok_bind]
    obtain ⟨v1, h1, h2, h3, h4, h5⟩ := ih
      { v with
        i2c_state := { v.i2c_state with bytes := rx.length + m + 1 }
        mem := Function.update v.mem v.i2c_state.data_addr
          (shl_uint32 a (8 * (rx.length + m + 1) % 2 ^ 32))
        bus := v.bus ++ [BusWrite.CMD v.i2c_state.I2Cn I2C_CMD.ACK] }
      hs (by show rx.length + m + 1 = rx.length + (m + 1); omega)
      (by rw [List.length_cons] at hlt; omega)
    refine ⟨v1, h1, h2, h3, h4, ?_⟩
    rw [h5]
    show v.bus ++ [BusWrite.CMD v.i2c_state.I2Cn I2C_CMD.ACK] ++
        List.replicate rx.length (BusWrite.CMD v.i2c_state.I2Cn I2C_CMD.ACK)
      = v.bus ++ List.replicate (rx.length + 1) (BusWrite.CMD v.i2c_state.I2Cn I2C_CMD.ACK)
    rw [List.append_assoc, List.replicate_succ]
    rfl
/-- C24: the bus writes of a read of `rx.length + 1` bytes against a device that
acknowledges every step, for every target address `a`, register byte `r` and
received bytes `rx` followed by `last`.  In order: `i2c_start` writes
CMD=START and TXDATA=(a<<1)|I2C_WRITE and leaves the state `Start_CMD`; the
first ACK writes TXDATA=r (`Read_CMD`); the second writes CMD=START and
TXDATA=(a<<1)|I2C_READ (`Wait_Read`); the third writes nothing (`End_Sense`);
each received byte but the last is answered by CMD=ACK with the state still
`End_Sense`; the last one by CMD=NACK then CMD=STOP, and only then is the
state `Stop`. -/
theorem i2c_bus_writes_in_order (w : World) (i2c : I2C_TypeDef) (a r : Nat) (w_r : Bool)
    (data_addr cb : Nat) (rx : List Nat) (last : Nat)
    (hlt : rx.length + 1 < 2 ^ 32)
    (hlo : 0 ≤ w.lowest_energy_mode EM2) (hhi : w.lowest_energy_mode EM2 < 4) :
    (∃ w0, i2c_start true i2c a r w_r data_addr (rx.length + 1) cb w = Outcome.ok w0 ∧
      w0.i2c_state.state = Start_CMD ∧
      w0.bus = w.bus ++ [BusWrite.CMD i2c I2C_CMD.START,
        BusWrite.TXDATA i2c (shl_uint32 a 1 ||| I2C_WRITE)]) ∧
    (∃ w1, (i2c_start true i2c a r w_r data_addr (rx.length + 1) cb w).bind
        (run_signals [Signal.ACK]) = Outcome.ok w1 ∧
      w1.i2c_state.state = Read_CMD ∧
      w1.bus = w.bus ++ [BusWrite.CMD i2c I2C_CMD.START,
        BusWrite.TXDATA i2c (shl_uint32 a 1 ||| I2C_WRITE), BusWrite.TXDATA i2c r]) ∧
    (∃ w2, (i2c_start true i2c a r w_r data_addr (rx.length + 1) cb w).bind
        (run_signals [Signal.ACK, Signal.ACK]) = Outcome.ok w2 ∧
      w2.i2c_state.state = Wait_Read ∧
      w2.bus = w.bus ++ [BusWrite.CMD i2c I2C_CMD.START,
        BusWrite.TXDATA i2c (shl_uint32 a 1 ||| I2C_WRITE), BusWrite.TXDATA i2c r,
        BusWrite.CMD i2c I2C_CMD.START, BusWrite.TXDATA i2c (shl_uint32 a 1 ||| I2C_READ)]) ∧
    (∀ j, j ≤ rx.length →
      ∃ wj, (i2c_start true i2c a r w_r data_addr (rx.length + 1) cb w).bind
          (run_signals (Signal.ACK :: Signal.ACK :: Signal.ACK ::
            (rx.take j).map Signal.RXDATAV)) = Outcome.ok wj ∧
        wj.i2c_state.state = End_Sense ∧
        wj.bus = w.bus ++ [BusWrite.CMD i2c I2C_CMD.START,
          BusWrite.TXDATA i2c (shl_uint32 a 1 ||| I2C_WRITE), BusWrite.TXDATA i2c r,
          BusWrite.CMD i2c I2C_CMD.START, BusWrite.TXDATA i2c (shl_uint32 a 1 ||| I2C_READ)]
          ++ List.replicate j (BusWrite.CMD i2c I2C_CMD.ACK)) ∧
    (∃ wn, (i2c_start true i2c a r w_r data_addr (rx.length + 1) cb w).bind
        (run_signals (Signal.ACK :: Signal.ACK :: Signal.ACK ::
          (rx ++ [last]).map Signal.RXDATAV)) = Outcome.ok wn ∧
      wn.i2c_state.state = Stop ∧
      wn.bus = w.bus ++ [BusWrite.CMD i2c I2C_CMD.START,
        BusWrite.TXDATA i2c (shl_uint32 a 1 ||| I2C_WRITE), BusWrite.TXDATA i2c r,
        BusWrite.CMD i2c I2C_CMD.START, BusWrite.TXDATA i2c (shl_uint32 a 1 ||| I2C_READ)]
        ++ List.replicate rx.length (BusWrite.CMD i2c I2C_CMD.ACK)
        ++ [BusWrite.CMD i2c I2C_CMD.NACK, BusWrite.CMD i2c I2C_CMD.STOP]) := by
  have hstart := i2c_start_idle i2c a r w_r data_addr (rx.length + 1) cb w hlo hhi
  obtain ⟨v, hvs, hvb, hvI, _, hvbus, hrun⟩ :=
    i2c_start_to_End_Sense w i2c a r w_r data_addr (rx.length + 1) cb hlo hhi
  refine ⟨⟨_, hstart, rfl, rfl⟩, ?_, ?_, ?_, ?_⟩
  · rw [hstart, Outcome.ok_bind,
      run_signals_cons, i2c_signal, i2c_ack_sm_Start_CMD _ rfl, Outcome.ok_bind, run_signals_nil]
    refine ⟨_, rfl, rfl, ?_⟩
    simp only [List.append_assoc, List.cons_append, List.nil_append]
  · rw [hstart, Outcome.ok_bind,
      run_signals_cons, i2c_signal, i2c_ack_sm_Start_CMD _ rfl, Outcome.ok_bind,
      run_signals_cons, i2c_signal, i2c_ack_sm_Read_CMD _ rfl, Outcome.ok_bind, run_signals_nil]
    refine ⟨_, rfl, rfl, ?_⟩
    simp only [List.append_assoc, List.cons_append, List.nil_append]
  · intro j hj
    rw [hrun]
    have hlen : (rx.take j).length = j := by rw [List.length_take]; omega
    obtain ⟨v1, h1, h2, _, _, h5⟩ := run_signals_rx_nonfinal (rx.take j) (rx.length - j) v hvs
      (by rw [hvb, hlen]; omega) (by rw [hlen]; omega)
    refine ⟨v1, h1, h2, ?_⟩
    rw [h5, hvbus, hvI, hlen]
  · rw [hrun, List.map_append, run_signals_append]
    obtain ⟨v1, h1, h2, h3, h4, h5⟩ := run_signals_rx_nonfinal rx 0 v hvs
      (by rw [hvb]) (by omega)
    rw [h1, Outcome.ok_bind]
    show ∃ wn, run_signals [Signal.RXDATAV last] v1 = Outcome.ok wn ∧ _
    rw [run_signals_cons, i2c_signal, i2c_rxdatav_sm_last last v1 h2 h3, Outcome.ok_bind,
      run_signals_nil]
    refine ⟨_, rfl, rfl, ?_⟩
    show v1.bus ++ [BusWrite.CMD v1.i2c_state.I2Cn I2C_CMD.NACK,
      BusWrite.CMD v1.i2c_state.I2Cn I2C_CMD.STOP] = _
    rw [h5, h4, hvbus, hvI]

/-- C24 witness: a two-byte read of register 0xF5 of the device at 0x40. -/
theorem i2c_bus_writes_in_order_witness :
    ∃ wn, (i2c_start true I2C_TypeDef.I2C0 0x40 0xF5 true 0 ([0x6A].length + 1) 8
        (exampleWorld 0)).bind
        (run_signals (Signal.ACK :: Signal.ACK :: Signal.ACK ::
          ([0x6A] ++ [0xBC]).map Signal.RXDATAV)) = Outcome.ok wn ∧
      wn.i2c_state.state = Stop ∧
      wn.bus = (exampleWorld 0).bus ++ [BusWrite.CMD I2C_TypeDef.I2C0 I2C_CMD.START,
        BusWrite.TXDATA I2C_TypeDef.I2C0 (shl_uint32 0x40 1 ||| I2C_WRITE),
        BusWrite.TXDATA I2C_TypeDef.I2C0 0xF5,
        BusWrite.CMD I2C_TypeDef.I2C0 I2C_CMD.START,
        BusWrite.TXDATA I2C_TypeDef.I2C0 (shl_uint32 0x40 1 ||| I2C_READ)]
        ++ List.replicate [0x6A].length (BusWrite.CMD I2C_TypeDef.I2C0 I2C_CMD.ACK)
        ++ [BusWrite.CMD I2C_TypeDef.I2C0 I2C_CMD.NACK,
          BusWrite.CMD I2C_TypeDef.I2C0 I2C_CMD.STOP] :=
  (i2c_bus_writes_in_order (exampleWorld 0) I2C_TypeDef.I2C0 0x40 0xF5 true 0 8 [0x6A] 0xBC
    (by decide) (by decide) (by decide)).2.2.2.2

/-- C25: a second MSTOP after a completed transaction is not rejected.  With
another holder's vote on EM2 (counter 1 before `i2c_start`), a one-byte read
followed by two MSTOP signals returns normally, `add_scheduled_event` has been
called twice with the completion id, and the EM2 counter is 0: the second
MSTOP has taken the other holder's vote, the state having stayed `Stop`. -/
theorem i2c_second_mstop_returns :
    ((i2c_start true I2C_TypeDef.I2C1 0x40 0xE7 true 0 1 8
        { exampleWorld 0 with lowest_energy_mode := mkTable 0 0 1 0 0 }).bind
      (run_signals [Signal.ACK, Signal.ACK, Signal.ACK, Signal.RXDATAV 0x3A, Signal.MSTOP,
        Signal.MSTOP])).isFatal = false ∧
    ((i2c_start true I2C_TypeDef.I2C1 0x40 0xE7 true 0 1 8
        { exampleWorld 0 with lowest_energy_mode := mkTable 0 0 1 0 0 }).bind
      (run_signals [Signal.ACK, Signal.ACK, Signal.ACK, Signal.RXDATAV 0x3A, Signal.MSTOP,
        Signal.MSTOP])).state.posted = [8, 8] ∧
    ((i2c_start true I2C_TypeDef.I2C1 0x40 0xE7 true 0 1 8
        { exampleWorld 0 with lowest_energy_mode := mkTable 0 0 1 0 0 }).bind
      (run_signals [Signal.ACK, Signal.ACK, Signal.ACK, Signal.RXDATAV 0x3A, Signal.MSTOP,
        Signal.MSTOP])).state.lowest_energy_mode EM2 = 0 := by
  refine ⟨by decide, by decide, by decide⟩

/-- Two MSTOP signals in a row, for every world in `Stop` whose EM2 counter `c`
is a positive `int`: the state is still `Stop` after the first, both return
normally, the completion id is posted by each (the event register after the
second is the one after the first, the bit being set already), and the EM2
counter ends at `c - 2`, or at 0 when `c = 1`, the guarded decrement of
`sleep_unblock_mode` absorbing the second release. -/
theorem i2c_second_mstop_handled (w : World) (hs : w.i2c_state.state = Stop)
    (hpos : 0 < w.lowest_energy_mode EM2) (hmax : w.lowest_energy_mode EM2 ≤ INT_MAX) :
    ∃ w1 w2, i2c_signal Signal.MSTOP w = Outcome.ok w1 ∧ w1.i2c_state.state = Stop ∧
      i2c_signal Signal.MSTOP w1 = Outcome.ok w2 ∧ w2.i2c_state.state = Stop ∧
      w2.posted = w.posted ++ [w.i2c_state.cb, w.i2c_state.cb] ∧
      w2.event_scheduled = w1.event_scheduled ∧
      w1.lowest_energy_mode EM2 = w.lowest_energy_mode EM2 - 1 ∧
      w2.lowest_energy_mode EM2 = max (w.lowest_energy_mode EM2 - 2) 0 := by
  have h1 := i2c_mstop_sm_Stop w hs hpos hmax
  have hev : add_scheduled_event w.i2c_state.cb
      (add_scheduled_event w.i2c_state.cb w.event_scheduled)
      = add_scheduled_event w.i2c_state.cb w.event_scheduled := by
    apply Nat.eq_of_testBit_eq
    intro i
    simp only [add_scheduled_event, Nat.testBit_or]
    cases w.event_scheduled.testBit i <;> cases w.i2c_state.cb.testBit i <;> rfl
  rcases (show 1 ≤ w.lowest_energy_mode EM2 from hpos).lt_or_eq with h2 | h2
  · have hpos1 : 0 < Function.update w.lowest_energy_mode EM2
        (w.lowest_energy_mode EM2 - 1) EM2 := by
      rw [Function.update_same]; omega
    have hmax1 : Function.update w.lowest_energy_mode EM2
        (w.lowest_energy_mode EM2 - 1) EM2 ≤ INT_MAX := by
      rw [Function.update_same]; unfold INT_MAX at *; omega
    refine ⟨_, _, h1, hs, i2c_mstop_sm_Stop _ hs hpos1 hmax1, hs, ?_, hev, ?_, ?_⟩
    · show w.posted ++ [w.i2c_state.cb] ++ [w.i2c_state.cb] = _
      rw [List.append_assoc]; rfl
    · show Function.update w.lowest_energy_mode EM2 (w.lowest_energy_mode EM2 - 1) EM2
        = w.lowest_energy_mode EM2 - 1
      rw [Function.update_same]
    · show Function.update
          (Function.update w.lowest_energy_mode EM2 (w.lowest_energy_mode EM2 - 1)) EM2
          (Function.update w.lowest_energy_mode EM2 (w.lowest_energy_mode EM2 - 1) EM2 - 1) EM2
        = max (w.lowest_energy_mode EM2 - 2) 0
      rw [Function.update_same, Function.update_same, max_eq_left (by omega)]
      omega
  · have hz : Function.update w.lowest_energy_mode EM2
        (w.lowest_energy_mode EM2 - 1) EM2 = 0 := by
      rw [Function.update_same]; omega
    have h2nd : i2c_signal Signal.MSTOP
        { w with
          lowest_energy_mode :=
            Function.update w.lowest_energy_mode EM2 (w.lowest_energy_mode EM2 - 1)
          event_scheduled := add_scheduled_event w.i2c_state.cb w.event_scheduled
          posted := w.posted ++ [w.i2c_state.cb] } = _ :=
      i2c_mstop_sm_Stop_body _ hs
    rw [sleep_unblock_mode_of_zero _ _ hz] at h2nd
    refine ⟨_, _, h1, hs, h2nd, hs, ?_, hev, ?_, ?_⟩
    · show w.posted ++ [w.i2c_state.cb] ++ [w.i2c_state.cb] = _
      rw [List.append_assoc]; rfl
    · show Function.update w.lowest_energy_mode EM2 (w.lowest_energy_mode EM2 - 1) EM2
        = w.lowest_energy_mode EM2 - 1
      rw [Function.update_same]
    · show Function.update w.lowest_energy_mode EM2 (w.lowest_energy_mode EM2 - 1) EM2
        = max (w.lowest_energy_mode EM2 - 2) 0
      rw [hz, max_eq_right (by omega)]

/-- An instance of the lemma above: the world left by a one-byte read up to the
stop condition. -/
theorem i2c_second_mstop_handled_witness :
    ∃ w1 w2, i2c_signal Signal.MSTOP
        ((i2c_start true I2C_TypeDef.I2C1 0x40 0xE7 true 0 1 8 (exampleWorld 0)).bind
          (run_signals [Signal.ACK, Signal.ACK, Signal.ACK, Signal.RXDATAV 0x3A])).state
        = Outcome.ok w1 ∧
      i2c_signal Signal.MSTOP w1 = Outcome.ok w2 ∧ w2.i2c_state.state = Stop := by
  obtain ⟨w1, w2, h1, _, h3, h4, _⟩ := i2c_second_mstop_handled
    ((i2c_start true I2C_TypeDef.I2C1 0x40 0xE7 true 0 1 8 (exampleWorld 0)).bind
      (run_signals [Signal.ACK, Signal.ACK, Signal.ACK, Signal.RXDATAV 0x3A])).state
    (by decide) (by decide) (by decide)
  exact ⟨w1, w2, h1, h3, h4⟩

/-- C26: a three-byte read keeps the last two bytes only.  From a world whose
EM2 counter is within 0..3, `i2c_start` with byte count 3 followed by ACK, ACK,
ACK and RXDATAV with `b1`, `b2`, `b3` (each below 256) returns normally; after
the first byte the destination word is `b1 << 16`, after the second it is
`b2 << 8`, the first byte overwritten, and at the end it is `(b2 << 8) | b3`,
a value below 65536 in which `b1` does not occur; it is the big-endian value
of the three bytes only when `b1 = 0`. -/
theorem i2c_three_byte_read (w : World) (i2c : I2C_TypeDef) (target_addr target_reg : Nat)
    (w_r : Bool) (data_addr cb b1 b2 b3 : Nat)
    (h1 : b1 < 256) (h2 : b2 < 256) (h3 : b3 < 256)
    (hlo : 0 ≤ w.lowest_energy_mode EM2) (hhi : w.lowest_energy_mode EM2 < 4) :
    (∃ wa, (i2c_start true i2c target_addr target_reg w_r data_addr 3 cb w).bind
        (run_signals [Signal.ACK, Signal.ACK, Signal.ACK, Signal.RXDATAV b1])
        = Outcome.ok wa ∧ wa.mem data_addr = b1 <<< 16) ∧
    (∃ wb, (i2c_start true i2c target_addr target_reg w_r data_addr 3 cb w).bind
        (run_signals [Signal.ACK, Signal.ACK, Signal.ACK, Signal.RXDATAV b1,
          Signal.RXDATAV b2]) = Outcome.ok wb ∧ wb.mem data_addr = b2 <<< 8) ∧
    (∃ wc, (i2c_start true i2c target_addr target_reg w_r data_addr 3 cb w).bind
        (run_signals [Signal.ACK, Signal.ACK, Signal.ACK, Signal.RXDATAV b1,
          Signal.RXDATAV b2, Signal.RXDATAV b3]) = Outcome.ok wc ∧
      wc.i2c_state.state = Stop ∧
      wc.mem data_addr = (b2 <<< 8) ||| b3 ∧
      wc.mem data_addr = 256 * b2 + b3 ∧
      wc.mem data_addr < 65536 ∧
      (wc.mem data_addr = big_endian3 b1 b2 b3 ↔ b1 = 0)) := by
  have hshift16 : shl_uint32 b1 (8 * (1 + 1) % 2 ^ 32) = b1 <<< 16 := by
    have h16 : 8 * (1 + 1) % 2 ^ 32 = 16 := by decide
    rw [h16]
    simp only [shl_uint32, Nat.shiftLeft_eq]
    rw [if_pos (by decide), Nat.mod_eq_of_lt (by omega)]
  have hshift8 : shl_uint32 b2 (8 * (0 + 1) % 2 ^ 32) = b2 <<< 8 := by
    have h8 : 8 * (0 + 1) % 2 ^ 32 = 8 := by decide
    rw [h8]
    simp only [shl_uint32, Nat.shiftLeft_eq]
    rw [if_pos (by decide), Nat.mod_eq_of_lt (by omega)]
  have hsum : (b2 <<< 8) ||| b3 = 256 * b2 + b3 := by
    have h := Nat.mul_add_lt_is_or (i := 8) (b := b3) h3 b2
    rw [Nat.shiftLeft_eq, Nat.mul_comm]
    exact h.symm
  have hmem : Function.update
      (Function.update (Function.update w.mem data_addr (shl_uint32 b1 (8 * (1 + 1) % 2 ^ 32)))
        data_addr (shl_uint32 b2 (8 * (0 + 1) % 2 ^ 32)))
      data_addr
      (Function.update
        (Function.update w.mem data_addr (shl_uint32 b1 (8 * (1 + 1) % 2 ^ 32)))
        data_addr (shl_uint32 b2 (8 * (0 + 1) % 2 ^ 32)) data_addr ||| b3) data_addr
      = (b2 <<< 8) ||| b3 := by
    rw [Function.update_same, Function.update_same, hshift8]
  have hfinal : ∃ wc, (i2c_start true i2c target_addr target_reg w_r data_addr 3 cb w).bind
      (run_signals [Signal.ACK, Signal.ACK, Signal.ACK, Signal.RXDATAV b1,
        Signal.RXDATAV b2, Signal.RXDATAV b3]) = Outcome.ok wc ∧
      wc.i2c_state.state = Stop ∧ wc.mem data_addr = (b2 <<< 8) ||| b3 := by
    rw [i2c_start_idle i2c target_addr target_reg w_r data_addr 3 cb w hlo hhi, Outcome.ok_bind,
      run_signals_cons, i2c_signal, i2c_ack_sm_Start_CMD _ rfl, Outcome.ok_bind,
      run_signals_cons, i2c_signal, i2c_ack_sm_Read_CMD _ rfl, Outcome.ok_bind,
      run_signals_cons, i2c_signal, i2c_ack_sm_Wait_Read _ rfl, Outcome.ok_bind,
      run_signals_cons, i2c_signal, i2c_rxdatav_sm_more b1 1 _ rfl rfl (by decide),
      Outcome.ok_bind,
      run_signals_cons, i2c_signal, i2c_rxdatav_sm_more b2 0 _ rfl rfl (by decide),
      Outcome.ok_bind,
      run_signals_cons, i2c_signal, i2c_rxdatav_sm_last b3 _ rfl rfl, Outcome.ok_bind,
      run_signals_nil]
    exact ⟨_, rfl, rfl, hmem⟩
  refine ⟨?_, ?_, ?_⟩
  · rw [i2c_start_idle i2c target_addr target_reg w_r data_addr 3 cb w hlo hhi, Outcome.ok_bind,
      run_signals_cons, i2c_signal, i2c_ack_sm_Start_CMD _ rfl, Outcome.ok_bind,
      run_signals_cons, i2c_signal, i2c_ack_sm_Read_CMD _ rfl, Outcome.ok_bind,
      run_signals_cons, i2c_signal, i2c_ack_sm_Wait_Read _ rfl, Outcome.ok_bind,
      run_signals_cons, i2c_signal, i2c_rxdatav_sm_more b1 1 _ rfl rfl (by decide),
      Outcome.ok_bind, run_signals_nil]
    refine ⟨_, rfl, ?_⟩
    show Function.update w.mem data_addr _ data_addr = _
    rw [Function.update_same, hshift16]
  · rw [i2c_start_idle i2c target_addr target_reg w_r data_addr 3 cb w hlo hhi, Outcome.ok_bind,
      run_signals_cons, i2c_signal, i2c_ack_sm_Start_CMD _ rfl, Outcome.ok_bind,
      run_signals_cons, i2c_signal, i2c_ack_sm_Read_CMD _ rfl, Outcome.ok_bind,
      run_signals_cons, i2c_signal, i2c_ack_sm_Wait_Read _ rfl, Outcome.ok_bind,
      run_signals_cons, i2c_signal, i2c_rxdatav_sm_more b1 1 _ rfl rfl (by decide),
      Outcome.ok_bind,
      run_signals_cons, i2c_signal, i2c_rxdatav_sm_more b2 0 _ rfl rfl (by decide),
      Outcome.ok_bind, run_signals_nil]
    refine ⟨_, rfl, ?_⟩
    show Function.update _ data_addr _ data_addr = _
    rw [Function.update_same, hshift8]
  · obtain ⟨wc, hr, hst, hm⟩ := hfinal
    refine ⟨wc, hr, hst, hm, ?_, ?_, ?_⟩
    · rw [hm, hsum]
    · rw [hm, hsum]; omega
    · rw [hm, hsum]
      unfold big_endian3
      omega

/-- C26 witness: the bytes 0x12, 0x34, 0x56 leave 0x3456. -/
theorem i2c_three_byte_read_witness :
    ∃ wc, (i2c_start true I2C_TypeDef.I2C0 0x40 0xF5 true 0 3 8 (exampleWorld 0)).bind
        (run_signals [Signal.ACK, Signal.ACK, Signal.ACK, Signal.RXDATAV 0x12,
          Signal.RXDATAV 0x34, Signal.RXDATAV 0x56]) = Outcome.ok wc ∧
      wc.mem 0 = 0x3456 := by
  obtain ⟨wc, h, _, _, h4, _⟩ := (i2c_three_byte_read (exampleWorld 0) I2C_TypeDef.I2C0 0x40
    0xF5 true 0 8 0x12 0x34 0x56 (by decide) (by decide) (by decide) (by decide)
    (by decide)).2.2
  exact ⟨wc, h, h4⟩

/-! ## Theorems: sleep arbitration, continued -/

/-- With the loop variable started at 0 and no negative counter, `enter_sleep`
makes the call that belongs to the value of `current_block_energy_mode`. -/
theorem enter_sleep_matches_from_zero (t : VoteTable) (hnn : ∀ i, 0 ≤ t i) :
    enter_sleep t = sleep_for_block (current_block_energy_mode 0 t) := by
  have hfz := current_block_energy_mode_from_zero t
  have hpos : ∀ i, t i ≠ 0 → 0 < t i := fun i h => lt_of_le_of_ne (hnn i) (Ne.symm h)
  have hlt1 : ∀ j : Fin MAX_ENERGY_MODES, j < EM1 → j = EM0 := by decide
  have hlt2 : ∀ j : Fin MAX_ENERGY_MODES, j < EM2 → j = EM0 ∨ j = EM1 := by decide
  have hlt3 : ∀ j : Fin MAX_ENERGY_MODES, j < EM3 → j = EM0 ∨ j = EM1 ∨ j = EM2 := by decide
  have hlt4 : ∀ j : Fin MAX_ENERGY_MODES, j < EM4 →
      j = EM0 ∨ j = EM1 ∨ j = EM2 ∨ j = EM3 := by decide
  have hall : ∀ j : Fin MAX_ENERGY_MODES,
      j = EM0 ∨ j = EM1 ∨ j = EM2 ∨ j = EM3 ∨ j = EM4 := by decide
  by_cases h0 : t EM0 = 0
  swap
  · have hd : current_block_energy_mode 0 t = 0 :=
      hfz.1 EM0 h0 (fun j hj => absurd hj (by have := j.val; exact Fin.not_lt_zero j))
    rw [hd]
    unfold enter_sleep
    rw [if_pos (hpos _ h0)]
    rfl
  by_cases h1 : t EM1 = 0
  swap
  · have hd : current_block_energy_mode 0 t = 1 :=
      hfz.1 EM1 h1 (fun j hj => by rw [hlt1 j hj]; exact h0)
    rw [hd]
    unfold enter_sleep
    rw [if_neg (by rw [h0]; decide), if_pos (hpos _ h1)]
    rfl
  by_cases h2 : t EM2 = 0
  swap
  · have hd : current_block_energy_mode 0 t = 2 :=
      hfz.1 EM2 h2 (fun j hj => by rcases hlt2 j hj with rfl | rfl <;> assumption)
    rw [hd]
    unfold enter_sleep
    rw [if_neg (by rw [h0]; decide), if_neg (by rw [h1]; decide), if_pos (hpos _ h2)]
    rfl
  by_cases h3 : t EM3 = 0
  swap
  · have hd : current_block_energy_mode 0 t = 3 :=
      hfz.1 EM3 h3 (fun j hj => by rcases hlt3 j hj with rfl | rfl | rfl <;> assumption)
    rw [hd]
    unfold enter_sleep
    rw [if_neg (by rw [h0]; decide), if_neg (by rw [h1]; decide),
      if_neg (by rw [h2]; decide), if_pos (hpos _ h3)]
    rfl
  have hd : current_block_energy_mode 0 t = 4 := by
    by_cases h4 : t EM4 = 0
    · exact hfz.2 (fun i => by rcases hall i with rfl | rfl | rfl | rfl | rfl <;> assumption)
    · exact hfz.1 EM4 h4
        (fun j hj => by rcases hlt4 j hj with rfl | rfl | rfl | rfl <;> assumption)
  rw [hd]
  unfold enter_sleep
  rw [if_neg (by rw [h0]; decide), if_neg (by rw [h1]; decide),
    if_neg (by rw [h2]; decide), if_neg (by rw [h3]; decide)]
  rfl

/-- C23: `enter_sleep` against `current_block_energy_mode`.  With the loop
variable of `current_block_energy_mode` started at 0, for every table without
a negative counter `enter_sleep` returns without sleeping when the value `d`
is 0 or 1 and enters EM1, EM2, EM3 when `d` is 2, 3, 4.  The source leaves the
loop variable uninitialised: started at 1 on the table {1, 0, 0, 0, 0} the
function returns 4, which the specification pairs with EM3, while `enter_sleep`
returns without sleeping. -/
theorem enter_sleep_vs_current_block :
    (∀ t : VoteTable, (∀ i, 0 ≤ t i) →
      enter_sleep t = sleep_for_block (current_block_energy_mode 0 t)) ∧
    current_block_energy_mode 1 (mkTable 1 0 0 0 0) = 4 ∧
    sleep_for_block 4 = EmuCall.EnterEM3 ∧
    enter_sleep (mkTable 1 0 0 0 0) = EmuCall.noSleep ∧
    enter_sleep (mkTable 1 0 0 0 0)
      ≠ sleep_for_block (current_block_energy_mode 1 (mkTable 1 0 0 0 0)) := by
  refine ⟨enter_sleep_matches_from_zero, by decide, by decide, by decide, by decide⟩

/-- A block on an `int` counter of 4 or more fails, with the counter plus one
already stored. -/
theorem sleep_block_mode_full (t : VoteTable) (d : Fin MAX_ENERGY_MODES)
    (h4 : 4 ≤ t d) (hmax : t d < INT_MAX) :
    sleep_block_mode d t = Outcome.fatal (Function.update t d (t d + 1)) := by
  have hw : wrap_int (t d + 1) = t d + 1 :=
    wrap_int_of_range _ (by unfold INT_MIN; omega) (by unfold INT_MAX at *; omega)
  simp only [sleep_block_mode, hw, Function.update_same]
  rw [if_neg (by omega)]

/-- One non-failing call keeps every counter within 0..4. -/
theorem SleepCall.run_in_range (c : SleepCall) (t t1 : VoteTable)
    (h : ∀ d, 0 ≤ t d ∧ t d ≤ 4) (hrun : c.run t = Outcome.ok t1) :
    ∀ d, 0 ≤ t1 d ∧ t1 d ≤ 4 := by
  cases c with
  | block e =>
    have hrun1 : sleep_block_mode e t = Outcome.ok t1 := hrun
    by_cases h4 : t e < 4
    · rw [sleep_block_mode_ok t e (h e).1 h4] at hrun1
      injection hrun1 with hrun1
      intro d
      rw [← hrun1]
      by_cases hde : d = e
      · rw [hde, Function.update_same]; have he := h e; omega
      · rw [Function.update_noteq hde]; exact h d
    · rw [sleep_block_mode_full t e (by omega) (by unfold INT_MAX; have := (h e).2; omega)]
        at hrun1
      cases hrun1
  | unblock e =>
    have hrun1 : sleep_unblock_mode e t = Outcome.ok t1 := hrun
    by_cases hp : 0 < t e
    · rw [sleep_unblock_mode_ok t e hp (by unfold INT_MAX; have := (h e).2; omega)] at hrun1
      injection hrun1 with hrun1
      intro d
      rw [← hrun1]
      by_cases hde : d = e
      · rw [hde, Function.update_same]; have he := h e; omega
      · rw [Function.update_noteq hde]; exact h d
    · rw [sleep_unblock_mode_of_zero t e (by have := (h e).1; omega)] at hrun1
      injection hrun1 with hrun1
      rw [← hrun1]
      exact h

/-- A non-failing sequence of calls keeps every counter within 0..4. -/
theorem run_sleep_calls_in_range (cs : List SleepCall) (t t1 : VoteTable)
    (h : ∀ d, 0 ≤ t d ∧ t d ≤ 4) (hrun : run_sleep_calls cs t = Outcome.ok t1) :
    ∀ d, 0 ≤ t1 d ∧ t1 d ≤ 4 := by
  induction cs generalizing t with
  | nil =>
    have h1 : Outcome.ok t = Outcome.ok t1 := hrun
    injection h1 with h1
    rw [← h1]
    exact h
  | cons c cs ih =>
    have h1 : (c.run t).bind (run_sleep_calls cs) = Outcome.ok t1 := hrun
    rcases hc : c.run t with a | a
    · rw [hc] at h1
      exact ih a (SleepCall.run_in_range c t a h hc) h1
    · rw [hc] at h1
      cases h1

/-- C29: in every table reached from `sleep_open` by `sleep_block_mode` and
`sleep_unblock_mode` calls that all return normally, every counter lies in
0..4; on such a table `sleep_block_mode(d)` fails exactly when the counter at
`d` is already 4 (4 or more), and when it fails the table at the failure has
the incremented counter stored at `d`. -/
theorem sleep_counters_stay_in_range (cs : List SleepCall) (t0 t1 : VoteTable)
    (hrun : run_sleep_calls cs (sleep_open t0) = Outcome.ok t1) :
    (∀ d, 0 ≤ t1 d ∧ t1 d ≤ 4) ∧
    (∀ d, ((sleep_block_mode d t1).isFatal = true ↔ 4 ≤ t1 d) ∧
      ((sleep_block_mode d t1).isFatal = true →
        (sleep_block_mode d t1).state = Function.update t1 d (t1 d + 1))) := by
  have hin : ∀ d, 0 ≤ t1 d ∧ t1 d ≤ 4 :=
    run_sleep_calls_in_range cs (sleep_open t0) t1 (fun d => by unfold sleep_open; omega) hrun
  refine ⟨hin, fun d => ?_⟩
  by_cases h4 : t1 d < 4
  · rw [sleep_block_mode_ok t1 d (hin d).1 h4]
    refine ⟨⟨fun h => ?_, fun h => by omega⟩, fun h => ?_⟩
    · cases h
    · cases h
  · rw [sleep_block_mode_full t1 d (by omega) (by unfold INT_MAX; have := (hin d).2; omega)]
    exact ⟨⟨fun _ => by omega, fun _ => rfl⟩, fun _ => rfl⟩

/-- C29 witness: two EM2 votes, one released, and one EM3 vote. -/
theorem sleep_counters_stay_in_range_witness :
    0 ≤ (run_sleep_calls [SleepCall.block EM2, SleepCall.block EM2,
        SleepCall.unblock EM2, SleepCall.block EM3] (sleep_open (mkTable 0 0 0 0 0))).state EM2 ∧
      (run_sleep_calls [SleepCall.block EM2, SleepCall.block EM2,
        SleepCall.unblock EM2, SleepCall.block EM3] (sleep_open (mkTable 0 0 0 0 0))).state EM2
        ≤ 4 :=
  (sleep_counters_stay_in_range [SleepCall.block EM2, SleepCall.block EM2,
    SleepCall.unblock EM2, SleepCall.block EM3] (mkTable 0 0 0 0 0)
    (run_sleep_calls [SleepCall.block EM2, SleepCall.block EM2,
      SleepCall.unblock EM2, SleepCall.block EM3] (sleep_open (mkTable 0 0 0 0 0))).state
    rfl).1 EM2

/-! ## Theorems: serial sequencer -/

/-- TXBL in `EN_TX`: the TXBL interrupt is enabled and the state becomes `TX_DATA`. -/
theorem leuart_txbl_EN_TX (w : LeuartWorld) (h : w.leuart_state.state = EN_TX) :
    leuart_txbl w = Outcome.ok { w with
      ien_txbl := true
      leuart_state := { w.leuart_state with state := TX_DATA } } := by
  unfold leuart_txbl
  rw [h]

/-- TXBL in `TX_DATA` before the last byte: the byte at `count` is written and
`count` goes up by one. -/
theorem leuart_txbl_TX_DATA_more (w : LeuartWorld) (h : w.leuart_state.state = TX_DATA)
    (hc : w.leuart_state.count + 1 < w.leuart_state.length)
    (hlen : w.leuart_state.length < 2 ^ 32) :
    leuart_txbl w = Outcome.ok { w with
      txdata := w.txdata ++ [w.leuart_state.string w.leuart_state.count % 256]
      leuart_state := { w.leuart_state with count := w.leuart_state.count + 1 } } := by
  have hmod : (w.leuart_state.count + 1) % 2 ^ 32 = w.leuart_state.count + 1 :=
    Nat.mod_eq_of_lt (by omega)
  unfold leuart_txbl
  rw [h]
  show (if (w.leuart_state.count + 1) % 2 ^ 32 = w.leuart_state.length then _ else _) = _
  rw [hmod, if_neg (by omega)]
  rfl

/-- TXBL in `TX_DATA` at the last byte: the byte is written, TXBL is disabled,
TXC enabled, and the state becomes `END_TX`. -/
theorem leuart_txbl_TX_DATA_last (w : LeuartWorld) (h : w.leuart_state.state = TX_DATA)
    (hc : w.leuart_state.count + 1 = w.leuart_state.length)
    (hlen : w.leuart_state.length < 2 ^ 32) :
    leuart_txbl w = Outcome.ok { w with
      txdata := w.txdata ++ [w.leuart_state.string w.leuart_state.count % 256]
      ien_txbl := false
      ien_txc := true
      leuart_state := { w.leuart_state with
        count := w.leuart_state.count + 1, state := END_TX } } := by
  have hmod : (w.leuart_state.count + 1) % 2 ^ 32 = w.leuart_state.count + 1 :=
    Nat.mod_eq_of_lt (by omega)
  unfold leuart_txbl
  rw [h]
  show (if (w.leuart_state.count + 1) % 2 ^ 32 = w.leuart_state.length then _ else _) = _
  rw [hmod, if_pos hc]
  rfl

/-- TXBL in `TX_DATA` never fails. -/
theorem leuart_txbl_TX_DATA_returns (w : LeuartWorld) (h : w.leuart_state.state = TX_DATA) :
    (leuart_txbl w).isFatal = false := by
  unfold leuart_txbl
  rw [h]
  show (if (w.leuart_state.count + 1) % 2 ^ 32 = w.leuart_state.length then _ else _
    : Outcome LeuartWorld).isFatal = false
  split <;> rfl

/-- The values of a state variable of the serial sequencer. -/
theorem leuart_state_cases (s : Nat) :
    s = EN_TX ∨ s = TX_DATA ∨ s = END_TX ∨ ∃ n, s = n + 3 := by
  rcases s with _ | _ | _ | n
  · exact Or.inl rfl
  · exact Or.inr (Or.inl rfl)
  · exact Or.inr (Or.inr (Or.inl rfl))
  · exact Or.inr (Or.inr (Or.inr ⟨n, rfl⟩))

/-- TXBL in `END_TX` or outside the enumeration fails and changes nothing. -/
theorem leuart_txbl_fatal (w : LeuartWorld) (h : 2 ≤ w.leuart_state.state) :
    leuart_txbl w = Outcome.fatal w := by
  rcases leuart_state_cases w.leuart_state.state with hs | hs | hs | ⟨n, hs⟩
  · rw [hs] at h; exact absurd h (by decide)
  · rw [hs] at h; exact absurd h (by decide)
  · unfold leuart_txbl; rw [hs]
  · unfold leuart_txbl; rw [hs]; rfl

/-- TXC outside `END_TX` fails and changes nothing. -/
theorem leuart_txc_fatal (LEUART_TX_EM : Fin MAX_ENERGY_MODES) (w : LeuartWorld)
    (h : w.leuart_state.state ≠ END_TX) :
    leuart_txc LEUART_TX_EM w = Outcome.fatal w := by
  rcases leuart_state_cases w.leuart_state.state with hs | hs | hs | ⟨n, hs⟩
  · unfold leuart_txc; rw [hs]
  · unfold leuart_txc; rw [hs]
  · exact absurd hs h
  · unfold leuart_txc; rw [hs]; rfl

/-- TXC in `END_TX`: the body of that case of the switch. -/
theorem leuart_txc_END_TX_body (LEUART_TX_EM : Fin MAX_ENERGY_MODES) (w : LeuartWorld)
    (h : w.leuart_state.state = END_TX) :
    leuart_txc LEUART_TX_EM w =
      (with_table_leuart
        { w with
          ien_txc := false
          event_scheduled := add_scheduled_event w.leuart_state.callback w.event_scheduled
          posted := w.posted ++ [w.leuart_state.callback] }
        (sleep_unblock_mode LEUART_TX_EM w.lowest_energy_mode)).bind
      fun w2 => Outcome.ok { w2 with
        leuart_state := { w2.leuart_state with state := EN_TX, busy := false } } := by
  unfold leuart_txc
  rw [h]

/-- TXC in `END_TX` with a positive `int` counter at `LEUART_TX_EM`. -/
theorem leuart_txc_END_TX (LEUART_TX_EM : Fin MAX_ENERGY_MODES) (w : LeuartWorld)
    (h : w.leuart_state.state = END_TX)
    (hpos : 0 < w.lowest_energy_mode LEUART_TX_EM)
    (hmax : w.lowest_energy_mode LEUART_TX_EM ≤ INT_MAX) :
    leuart_txc LEUART_TX_EM w = Outcome.ok { w with
      lowest_energy_mode := Function.update w.lowest_energy_mode LEUART_TX_EM
        (w.lowest_energy_mode LEUART_TX_EM - 1)
      ien_txc := false
      event_scheduled := add_scheduled_event w.leuart_state.callback w.event_scheduled
      posted := w.posted ++ [w.leuart_state.callback]
      leuart_state := { w.leuart_state with state := EN_TX, busy := false } } := by
  rw [leuart_txc_END_TX_body LEUART_TX_EM w h, sleep_unblock_mode_ok _ _ hpos hmax]
  rfl

/-- Function `leuart_start` with the counter at `LEUART_TX_EM` within 0..3. -/
theorem leuart_start_ok (LEUART_TX_EM : Fin MAX_ENERGY_MODES) (string : List Nat)
    (string_len : Nat) (w : LeuartWorld)
    (hlo : 0 ≤ w.lowest_energy_mode LEUART_TX_EM) (hhi : w.lowest_energy_mode LEUART_TX_EM < 4) :
    leuart_start LEUART_TX_EM string string_len w = Outcome.ok { w with
      lowest_energy_mode := Function.update w.lowest_energy_mode LEUART_TX_EM
        (w.lowest_energy_mode LEUART_TX_EM + 1)
      leuart_state :=
        { callback := w.tx_done_evt
          count := 0
          length := string_len
          state := EN_TX
          string := strcpy w.leuart_state.string string
          busy := true }
      ien_txbl := true } := by
  unfold leuart_start
  rw [sleep_block_mode_ok _ _ hlo hhi]
  rfl

/-- Delivering a list of signals: the head is handled first. -/
theorem run_leuart_signals_cons (LEUART_TX_EM : Fin MAX_ENERGY_MODES) (g : LeuartSignal)
    (gs : List LeuartSignal) (w : LeuartWorld) :
    run_leuart_signals LEUART_TX_EM (g :: gs) w
      = (leuart_signal LEUART_TX_EM g w).bind (run_leuart_signals LEUART_TX_EM gs) := rfl

/-- Delivering no signal returns the world as it is. -/
theorem run_leuart_signals_nil (LEUART_TX_EM : Fin MAX_ENERGY_MODES) (w : LeuartWorld) :
    run_leuart_signals LEUART_TX_EM [] w = Outcome.ok w := rfl

/-- Delivering a concatenation of two lists of signals. -/
theorem run_leuart_signals_append (LEUART_TX_EM : Fin MAX_ENERGY_MODES)
    (gs hs : List LeuartSignal) (w : LeuartWorld) :
    run_leuart_signals LEUART_TX_EM (gs ++ hs) w
      = (run_leuart_signals LEUART_TX_EM gs w).bind (run_leuart_signals LEUART_TX_EM hs) := by
  induction gs generalizing w with
  | nil => rfl
  | cons g gs ih =>
    show run_leuart_signals LEUART_TX_EM (g :: (gs ++ hs)) w = _
    rw [run_leuart_signals_cons, run_leuart_signals_cons]
    rcases leuart_signal LEUART_TX_EM g w with a | a
    · rw [Outcome.ok_bind, Outcome.ok_bind, ih]
    · rfl

/-- Function `strcpy` writes at and after the start index only. -/
theorem strcpy_from_lt (l : List Nat) (i : Nat) (dst : Nat → Nat) (j : Nat) (hj : j < i) :
    strcpy_from i dst l j = dst j := by
  induction l generalizing i dst with
  | nil => rfl
  | cons c rest ih =>
    unfold strcpy_from
    by_cases hc : c = 0
    · rw [if_pos hc, Function.update_noteq (by omega)]
    · rw [if_neg hc, ih (i + 1) _ (by omega), Function.update_noteq (by omega)]

/-- Function `strcpy` copies a run of non-zero bytes at the head of the source to
the same positions of the destination. -/
theorem strcpy_from_prefix (pre tail : List Nat) (i : Nat) (dst : Nat → Nat) (k : Nat)
    (hnz : ∀ c ∈ pre, c ≠ 0) (hk : k < pre.length) :
    strcpy_from i dst (pre ++ tail) (i + k) = pre.getD k 0 := by
  induction pre generalizing i dst k with
  | nil => exact absurd hk (by simp)
  | cons a pre ih =>
    have ha : a ≠ 0 := hnz a (List.mem_cons_self _ _)
    show strcpy_from i dst (a :: (pre ++ tail)) (i + k) = _
    unfold strcpy_from
    rw [if_neg ha]
    cases k with
    | zero =>
      show strcpy_from (i + 1) (Function.update dst i a) (pre ++ tail) i = a
      rw [strcpy_from_lt _ _ _ _ (Nat.lt_succ_self i), Function.update_same]
    | succ k =>
      have hk1 : k < pre.length := by
        rw [List.length_cons] at hk; omega
      have hidx : i + (k + 1) = i + 1 + k := by omega
      rw [hidx, ih (i + 1) _ k (fun c hc => hnz c (List.mem_cons_of_mem _ hc)) hk1]
      rfl

/-- The element after a prefix. -/
theorem getD_concat_length (pre : List Nat) (a d : Nat) :
    (pre ++ [a]).getD pre.length d = a := by
  induction pre with
  | nil => rfl
  | cons x pre ih => exact ih

/-- Sending nothing changes nothing. -/
theorem LeuartWorld.sent_nil (w : LeuartWorld) : w.sent [] = w := by
  obtain ⟨t, e, ⟨st, str, c, n, b, cb⟩, ev, i1, i2, tx, p⟩ := w
  simp [LeuartWorld.sent]

/-- Sending one byte and then a list is sending the list with the byte in front. -/
theorem LeuartWorld.sent_cons (w : LeuartWorld) (a : Nat) (bytes : List Nat) :
    (w.sent [a]).sent bytes = w.sent (a :: bytes) := by
  obtain ⟨t, e, ⟨st, str, c, n, b, cb⟩, ev, i1, i2, tx, p⟩ := w
  simp [LeuartWorld.sent, Nat.add_assoc, Nat.add_comm 1]

/-- In `TX_DATA`, with the bytes `s1` in the buffer from position `count` on and
more than `s1.length` bytes still to send, that many TXBL signals write `s1`
to `TXDATA` and leave the state `TX_DATA`. -/
theorem run_txbl_sends (LEUART_TX_EM : Fin MAX_ENERGY_MODES) (s1 : List Nat) (w : LeuartWorld)
    (hst : w.leuart_state.state = TX_DATA)
    (hstr : ∀ k, k < s1.length →
      w.leuart_state.string (w.leuart_state.count + k) = s1.getD k 0)
    (hbyte : ∀ c ∈ s1, c < 256)
    (hc : w.leuart_state.count + s1.length < w.leuart_state.length)
    (hlen : w.leuart_state.length < 2 ^ 32) :
    run_leuart_signals LEUART_TX_EM (List.replicate s1.length LeuartSignal.TXBL) w
      = Outcome.ok (w.sent s1) := by
  induction s1 generalizing w with
  | nil =>
    rw [LeuartWorld.sent_nil]
    rfl
  | cons a s1 ih =>
    have hlen1 : (a :: s1).length = s1.length + 1 := List.length_cons _ _
    rw [hlen1] at hc
    have ha : w.leuart_state.string w.leuart_state.count = a := by
      have h := hstr 0 (by rw [hlen1]; omega)
      rw [Nat.add_zero] at h
      exact h
    have ha256 : a % 256 = a := Nat.mod_eq_of_lt (hbyte a (List.mem_cons_self _ _))
    show run_leuart_signals LEUART_TX_EM
      (LeuartSignal.TXBL :: List.replicate s1.length LeuartSignal.TXBL) w = _
    rw [run_leuart_signals_cons, leuart_signal,
      leuart_txbl_TX_DATA_more w hst (by omega) hlen, Outcome.ok_bind, ha, ha256]
    have hstep := ih (w.sent [a]) hst
      (fun k hk => by
        have h := hstr (k + 1) (by rw [hlen1]; omega)
        show w.leuart_state.string (w.leuart_state.count + 1 + k) = _
        rw [Nat.add_assoc, Nat.add_comm 1 k]
        exact h)
      (fun c hc1 => hbyte c (List.mem_cons_of_mem _ hc1))
      (by show w.leuart_state.count + 1 + s1.length < w.leuart_state.length; omega)
      hlen
    rw [LeuartWorld.sent_cons] at hstep
    exact hstep

/-- After `leuart_start` on a source that begins with the non-zero bytes `pre`,
with more than `pre.length` bytes to send, `pre.length + 1` TXBL signals
leave the state `TX_DATA` with `pre` written to `TXDATA`. -/
theorem leuart_sends_prefix (LEUART_TX_EM : Fin MAX_ENERGY_MODES) (pre tail : List Nat)
    (n : Nat) (w : LeuartWorld)
    (hnz : ∀ c ∈ pre, c ≠ 0) (hbyte : ∀ c ∈ pre, c < 256)
    (hpre : pre.length < n) (hn : n < 2 ^ 32)
    (hlo : 0 ≤ w.lowest_energy_mode LEUART_TX_EM) (hhi : w.lowest_energy_mode LEUART_TX_EM < 4) :
    ∃ w1, (leuart_start LEUART_TX_EM (pre ++ tail) n w).bind
        (run_leuart_signals LEUART_TX_EM (List.replicate (pre.length + 1) LeuartSignal.TXBL))
        = Outcome.ok w1 ∧
      w1.leuart_state.state = TX_DATA ∧ w1.txdata = w.txdata ++ pre ∧
      w1.leuart_state.count = pre.length ∧ w1.leuart_state.length = n ∧
      w1.leuart_state.string = strcpy w.leuart_state.string (pre ++ tail) ∧
      w1.ien_txbl = true := by
  rw [leuart_start_ok LEUART_TX_EM (pre ++ tail) n w hlo hhi, Outcome.ok_bind]
  show ∃ w1, run_leuart_signals LEUART_TX_EM
    (LeuartSignal.TXBL :: List.replicate pre.length LeuartSignal.TXBL) _ = Outcome.ok w1 ∧ _
  rw [run_leuart_signals_cons, leuart_signal, leuart_txbl_EN_TX _ rfl, Outcome.ok_bind,
    run_txbl_sends LEUART_TX_EM pre _ rfl
      (fun k hk => by
        show strcpy w.leuart_state.string (pre ++ tail) (0 + k) = _
        exact strcpy_from_prefix pre tail 0 _ k hnz hk)
      hbyte (by show 0 + pre.length < n; omega) hn]
  refine ⟨_, rfl, rfl, rfl, ?_, rfl, rfl, rfl⟩
  show 0 + pre.length = pre.length
  omega

/-- Sequencing a run over a concatenation of two lists of signals. -/
theorem bind_run_leuart_signals_append (LEUART_TX_EM : Fin MAX_ENERGY_MODES)
    (o : Outcome LeuartWorld) (gs hs : List LeuartSignal) :
    o.bind (run_leuart_signals LEUART_TX_EM (gs ++ hs))
      = (o.bind (run_leuart_signals LEUART_TX_EM gs)).bind
        (run_leuart_signals LEUART_TX_EM hs) := by
  cases o with
  | ok a => exact run_leuart_signals_append LEUART_TX_EM gs hs a
  | fatal a => rfl

/-- C16: transmission of a NUL-terminated string.  For every list `s` of `n ≥ 1`
non-zero bytes (each below 256, `n` below 2^32), followed in the caller's
memory by a zero byte and anything after it, and every world whose
`LEUART_TX_EM` counter is within 0..3: `leuart_start(leuart, s, n)` returns
normally with the state `EN_TX` and nothing written; after each of the first
`n` TXBL signals the state is `TX_DATA`, the first signal having written
nothing and signal `j + 1` having brought the bytes written to
`s[0], ..., s[j-1]`; after signal `n + 1` the state is `END_TX`, the bytes
written to `TXDATA` are exactly `s` in order, the TXBL interrupt is disabled
and the TXC interrupt enabled. -/
theorem leuart_transmits_string (LEUART_TX_EM : Fin MAX_ENERGY_MODES) (s rest : List Nat)
    (w : LeuartWorld)
    (hnz : ∀ c ∈ s, c ≠ 0) (hbyte : ∀ c ∈ s, c < 256)
    (hn1 : 1 ≤ s.length) (hn : s.length < 2 ^ 32)
    (hlo : 0 ≤ w.lowest_energy_mode LEUART_TX_EM) (hhi : w.lowest_energy_mode LEUART_TX_EM < 4) :
    (∃ w0, leuart_start LEUART_TX_EM (s ++ 0 :: rest) s.length w = Outcome.ok w0 ∧
      w0.leuart_state.state = EN_TX ∧ w0.txdata = w.txdata) ∧
    (∀ j, j < s.length →
      ∃ wj, (leuart_start LEUART_TX_EM (s ++ 0 :: rest) s.length w).bind
          (run_leuart_signals LEUART_TX_EM (List.replicate (j + 1) LeuartSignal.TXBL))
          = Outcome.ok wj ∧
        wj.leuart_state.state = TX_DATA ∧ wj.txdata = w.txdata ++ s.take j) ∧
    (∃ wn, (leuart_start LEUART_TX_EM (s ++ 0 :: rest) s.length w).bind
        (run_leuart_signals LEUART_TX_EM (List.replicate (s.length + 1) LeuartSignal.TXBL))
        = Outcome.ok wn ∧
      wn.leuart_state.state = END_TX ∧ wn.txdata = w.txdata ++ s ∧
      wn.ien_txbl = false ∧ wn.ien_txc = true ∧
      wn.leuart_state.count = wn.leuart_state.length) := by
  refine ⟨⟨_, leuart_start_ok LEUART_TX_EM _ _ w hlo hhi, rfl, rfl⟩, ?_, ?_⟩
  · intro j hj
    have hsplit : s ++ 0 :: rest = s.take j ++ (s.drop j ++ 0 :: rest) := by
      rw [← List.append_assoc, List.take_append_drop]
    have hlenj : (s.take j).length = j := by rw [List.length_take]; omega
    obtain ⟨w1, h1, h2, h3, _⟩ := leuart_sends_prefix LEUART_TX_EM (s.take j)
      (s.drop j ++ 0 :: rest) s.length w
      (fun c hc => hnz c (List.mem_of_mem_take hc))
      (fun c hc => hbyte c (List.mem_of_mem_take hc))
      (by rw [hlenj]; exact hj) hn hlo hhi
    rw [hlenj, ← hsplit] at h1
    exact ⟨w1, h1, h2, h3⟩
  · have hne : s ≠ [] := by
      intro h
      rw [h] at hn1
      exact absurd hn1 (by decide)
    have hs : s = s.dropLast ++ [s.getLast hne] := (List.dropLast_append_getLast hne).symm
    have hlen : s.length = s.dropLast.length + 1 := by
      rw [List.length_dropLast]; omega
    have hsplit : s ++ 0 :: rest = s.dropLast ++ ([s.getLast hne] ++ 0 :: rest) := by
      rw [← List.append_assoc, ← hs]
    have hsplit2 : s.dropLast ++ ([s.getLast hne] ++ 0 :: rest)
        = (s.dropLast ++ [s.getLast hne]) ++ 0 :: rest := by
      rw [List.append_assoc]
    obtain ⟨w1, h1, h2, h3, h4, h5, h6, _⟩ := leuart_sends_prefix LEUART_TX_EM s.dropLast
      ([s.getLast hne] ++ 0 :: rest) s.length w
      (fun c hc => hnz c (List.mem_of_mem_dropLast hc))
      (fun c hc => hbyte c (List.mem_of_mem_dropLast hc))
      (by omega) hn hlo hhi
    have hlast : w1.leuart_state.string w1.leuart_state.count = s.getLast hne := by
      rw [h6, h4, hsplit2]
      have h := strcpy_from_prefix (s.dropLast ++ [s.getLast hne]) (0 :: rest) 0
        w.leuart_state.string s.dropLast.length
        (fun c hc => hnz c (by rw [hs]; exact hc))
        (by rw [List.length_append, List.length_singleton]; omega)
      rw [Nat.zero_add, getD_concat_length] at h
      exact h
    have hl256 : s.getLast hne % 256 = s.getLast hne :=
      Nat.mod_eq_of_lt (hbyte _ (List.getLast_mem hne))
    have hrep : List.replicate (s.length + 1) LeuartSignal.TXBL
        = List.replicate (s.dropLast.length + 1) LeuartSignal.TXBL ++ [LeuartSignal.TXBL] := by
      rw [hlen, List.replicate_succ']
    rw [← hsplit] at h1
    rw [hrep, bind_run_leuart_signals_append, h1, Outcome.ok_bind, run_leuart_signals_cons,
      leuart_signal, leuart_txbl_TX_DATA_last w1 h2 (by rw [h4, h5, hlen]) (by rw [h5]; exact hn),
      Outcome.ok_bind, run_leuart_signals_nil]
    refine ⟨_, rfl, rfl, ?_, rfl, rfl, ?_⟩
    · show w1.txdata ++ [w1.leuart_state.string w1.leuart_state.count % 256] = w.txdata ++ s
      rw [hlast, hl256, h3, List.append_assoc, ← hs]
    · show w1.leuart_state.count + 1 = w1.leuart_state.length
      rw [h4, h5, hlen]

/-- C16 witness: the string "AB" of length 2 and three TXBL signals. -/
theorem leuart_transmits_string_witness :
    ∃ wn, (leuart_start EM3 ([0x41, 0x42] ++ 0 :: []) [0x41, 0x42].length
        (exampleLeuartWorld 0xFF 64)).bind
        (run_leuart_signals EM3 (List.replicate ([0x41, 0x42].length + 1) LeuartSignal.TXBL))
        = Outcome.ok wn ∧
      wn.leuart_state.state = END_TX ∧
      wn.txdata = (exampleLeuartWorld 0xFF 64).txdata ++ [0x41, 0x42] ∧
      wn.ien_txbl = false ∧ wn.ien_txc = true ∧
      wn.leuart_state.count = wn.leuart_state.length :=
  (leuart_transmits_string EM3 [0x41, 0x42] [] (exampleLeuartWorld 0xFF 64)
    (by decide) (by decide) (by decide) (by decide) (by decide) (by decide)).2.2

/-- C17: for every world in state `END_TX` whose `LEUART_TX_EM` counter is a
positive `int`, handling TXC returns normally, disables the TXC interrupt,
posts the context's completion id (every bit of it is then set in what
`get_scheduled_events` returns), decreases the `LEUART_TX_EM` counter by one,
sets `busy` to false (so `leuart_tx_busy` returns false) and the state to
`EN_TX`, and leaves the buffer, `count` and `length` as they were. -/
theorem leuart_txc_completes (LEUART_TX_EM : Fin MAX_ENERGY_MODES) (w : LeuartWorld)
    (hs : w.leuart_state.state = END_TX)
    (hpos : 0 < w.lowest_energy_mode LEUART_TX_EM)
    (hmax : w.lowest_energy_mode LEUART_TX_EM ≤ INT_MAX) :
    ∃ w1, leuart_signal LEUART_TX_EM LeuartSignal.TXC w = Outcome.ok w1 ∧
      w1.ien_txc = false ∧
      w1.posted = w.posted ++ [w.leuart_state.callback] ∧
      w1.event_scheduled = add_scheduled_event w.leuart_state.callback w.event_scheduled ∧
      (∀ i, w.leuart_state.callback.testBit i = true →
        (get_scheduled_events w1.event_scheduled).testBit i = true) ∧
      w1.lowest_energy_mode = Function.update w.lowest_energy_mode LEUART_TX_EM
        (w.lowest_energy_mode LEUART_TX_EM - 1) ∧
      w1.leuart_state.busy = false ∧ leuart_tx_busy w1 = false ∧
      w1.leuart_state.state = EN_TX ∧
      w1.leuart_state.string = w.leuart_state.string ∧
      w1.leuart_state.count = w.leuart_state.count ∧
      w1.leuart_state.length = w.leuart_state.length := by
  refine ⟨_, leuart_txc_END_TX LEUART_TX_EM w hs hpos hmax, rfl, rfl, rfl, ?_, rfl, rfl, rfl,
    rfl, rfl, rfl, rfl⟩
  intro i hi
  show (w.event_scheduled ||| w.leuart_state.callback).testBit i = true
  rw [Nat.testBit_or, hi, Bool.or_true]

/-- C17 witness: the world left by "AB" and three TXBL signals. -/
theorem leuart_txc_completes_witness :
    ∃ w1, leuart_signal EM3 LeuartSignal.TXC
        ((leuart_start EM3 [0x41, 0x42, 0] 2 (exampleLeuartWorld 0xFF 64)).bind
          (run_leuart_signals EM3
            [LeuartSignal.TXBL, LeuartSignal.TXBL, LeuartSignal.TXBL])).state
        = Outcome.ok w1 ∧
      w1.posted = [64] ∧ w1.leuart_state.busy = false ∧ w1.leuart_state.state = EN_TX := by
  obtain ⟨w1, h1, _, h3, _, _, _, h7, _, h9, _⟩ := leuart_txc_completes EM3
    ((leuart_start EM3 [0x41, 0x42, 0] 2 (exampleLeuartWorld 0xFF 64)).bind
      (run_leuart_signals EM3
        [LeuartSignal.TXBL, LeuartSignal.TXBL, LeuartSignal.TXBL])).state
    (by decide) (by decide) (by decide)
  exact ⟨w1, h1, h3, h7, h9⟩

/-- C18: the send index can pass the length.  With the empty string and length 0,
`leuart_start` and two TXBL signals all return normally; the second signal
writes the byte at index 0 of the buffer and leaves `count = 1` with
`length = 0` and the state still `TX_DATA`: the test `count == length` is
made after the increment and is not met. -/
theorem leuart_count_passes_length :
    ((leuart_start EM3 [0] 0 (exampleLeuartWorld 0xFF 64)).bind
      (run_leuart_signals EM3 [LeuartSignal.TXBL, LeuartSignal.TXBL])).isFatal = false ∧
    ((leuart_start EM3 [0] 0 (exampleLeuartWorld 0xFF 64)).bind
      (run_leuart_signals EM3 [LeuartSignal.TXBL, LeuartSignal.TXBL])
      ).state.leuart_state.count = 1 ∧
    ((leuart_start EM3 [0] 0 (exampleLeuartWorld 0xFF 64)).bind
      (run_leuart_signals EM3 [LeuartSignal.TXBL, LeuartSignal.TXBL])
      ).state.leuart_state.length = 0 ∧
    ((leuart_start EM3 [0] 0 (exampleLeuartWorld 0xFF 64)).bind
      (run_leuart_signals EM3 [LeuartSignal.TXBL, LeuartSignal.TXBL])
      ).state.leuart_state.state = TX_DATA ∧
    ((leuart_start EM3 [0] 0 (exampleLeuartWorld 0xFF 64)).bind
      (run_leuart_signals EM3 [LeuartSignal.TXBL, LeuartSignal.TXBL])
      ).state.txdata = [0] := by
  refine ⟨by decide, by decide, by decide, by decide, by decide⟩

/-- C19: the copy stops at the first zero byte.  With the caller's bytes 'A', 0,
'B' and length 3, on a buffer that held 0xFF everywhere, `leuart_start`
returns normally with `length = 3`; positions 0 and 1 of the context's buffer
hold 'A' and 0, position 2 still holds 0xFF, not 'B'. -/
theorem leuart_start_copy_stops_at_zero :
    (leuart_start EM3 [0x41, 0, 0x42] 3 (exampleLeuartWorld 0xFF 64)).isFatal = false ∧
    (leuart_start EM3 [0x41, 0, 0x42] 3 (exampleLeuartWorld 0xFF 64)
      ).state.leuart_state.length = 3 ∧
    (leuart_start EM3 [0x41, 0, 0x42] 3 (exampleLeuartWorld 0xFF 64)
      ).state.leuart_state.string 0 = 0x41 ∧
    (leuart_start EM3 [0x41, 0, 0x42] 3 (exampleLeuartWorld 0xFF 64)
      ).state.leuart_state.string 1 = 0 ∧
    (leuart_start EM3 [0x41, 0, 0x42] 3 (exampleLeuartWorld 0xFF 64)
      ).state.leuart_state.string 2 = 0xFF ∧
    (leuart_start EM3 [0x41, 0, 0x42] 3 (exampleLeuartWorld 0xFF 64)
      ).state.leuart_state.string 2 ≠ 0x42 := by
  refine ⟨by decide, by decide, by decide, by decide, by decide, by decide⟩

/-- C21 counterexample: `leuart_start` called again while "AB" is in flight
(`busy` true, one byte sent) returns normally, overwrites the context with
the new string and length and resets `count`, and takes a second vote. -/
theorem leuart_start_while_busy_returns :
    ((leuart_start EM3 [0x41, 0x42, 0] 2 (exampleLeuartWorld 0xFF 64)).bind
      (run_leuart_signals EM3 [LeuartSignal.TXBL, LeuartSignal.TXBL])
      ).state.leuart_state.busy = true ∧
    ((leuart_start EM3 [0x41, 0x42, 0] 2 (exampleLeuartWorld 0xFF 64)).bind
      (run_leuart_signals EM3 [LeuartSignal.TXBL, LeuartSignal.TXBL])
      ).state.leuart_state.count = 1 ∧
    (leuart_start EM3 [0x43, 0] 1
      ((leuart_start EM3 [0x41, 0x42, 0] 2 (exampleLeuartWorld 0xFF 64)).bind
        (run_leuart_signals EM3 [LeuartSignal.TXBL, LeuartSignal.TXBL])).state).isFatal
      = false ∧
    (leuart_start EM3 [0x43, 0] 1
      ((leuart_start EM3 [0x41, 0x42, 0] 2 (exampleLeuartWorld 0xFF 64)).bind
        (run_leuart_signals EM3 [LeuartSignal.TXBL, LeuartSignal.TXBL])).state
      ).state.leuart_state.string 0 = 0x43 ∧
    (leuart_start EM3 [0x43, 0] 1
      ((leuart_start EM3 [0x41, 0x42, 0] 2 (exampleLeuartWorld 0xFF 64)).bind
        (run_leuart_signals EM3 [LeuartSignal.TXBL, LeuartSignal.TXBL])).state
      ).state.leuart_state.count = 0 ∧
    (leuart_start EM3 [0x43, 0] 1
      ((leuart_start EM3 [0x41, 0x42, 0] 2 (exampleLeuartWorld 0xFF 64)).bind
        (run_leuart_signals EM3 [LeuartSignal.TXBL, LeuartSignal.TXBL])).state
      ).state.lowest_energy_mode EM3 = 2 := by
  refine ⟨by decide, by decide, by decide, by decide, by decide, by decide⟩

/-- C21 (as amended): `leuart_start` does not examine `busy`.  Whether it fails
is the same for either value of the flag; with the `LEUART_TX_EM` counter
within 0..3 it returns normally whatever the flag held, with the counter one
higher, `count = 0`, the length and completion id stored, the source copied
over the buffer, the state `EN_TX` and `busy` true. -/
theorem leuart_start_ignores_busy (LEUART_TX_EM : Fin MAX_ENERGY_MODES) (string : List Nat)
    (string_len : Nat) (w : LeuartWorld) :
    (∀ b : Bool,
      (leuart_start LEUART_TX_EM string string_len
        { w with leuart_state := { w.leuart_state with busy := b } }).isFatal
      = (leuart_start LEUART_TX_EM string string_len w).isFatal) ∧
    (0 ≤ w.lowest_energy_mode LEUART_TX_EM → w.lowest_energy_mode LEUART_TX_EM < 4 →
      ∃ w1, leuart_start LEUART_TX_EM string string_len w = Outcome.ok w1 ∧
        w1.lowest_energy_mode = Function.update w.lowest_energy_mode LEUART_TX_EM
          (w.lowest_energy_mode LEUART_TX_EM + 1) ∧
        w1.leuart_state.count = 0 ∧ w1.leuart_state.length = string_len ∧
        w1.leuart_state.callback = w.tx_done_evt ∧
        w1.leuart_state.string = strcpy w.leuart_state.string string ∧
        w1.leuart_state.state = EN_TX ∧ w1.leuart_state.busy = true) := by
  constructor
  · intro b
    unfold leuart_start
    show ((with_table_leuart _ (sleep_block_mode LEUART_TX_EM w.lowest_energy_mode)).bind
      _).isFatal = _
    rcases sleep_block_mode LEUART_TX_EM w.lowest_energy_mode with t | t <;> rfl
  · intro hlo hhi
    exact ⟨_, leuart_start_ok LEUART_TX_EM string string_len w hlo hhi,
      rfl, rfl, rfl, rfl, rfl, rfl, rfl⟩

/-- TXC in `END_TX` returns normally whenever the `LEUART_TX_EM` counter is a
non-negative `int`. -/
theorem leuart_txc_END_TX_returns (LEUART_TX_EM : Fin MAX_ENERGY_MODES) (w : LeuartWorld)
    (h : w.leuart_state.state = END_TX)
    (h0 : 0 ≤ w.lowest_energy_mode LEUART_TX_EM)
    (hmax : w.lowest_energy_mode LEUART_TX_EM ≤ INT_MAX) :
    (leuart_txc LEUART_TX_EM w).isFatal = false := by
  rcases h0.lt_or_eq with hpos | hz
  · rw [leuart_txc_END_TX LEUART_TX_EM w h hpos hmax]
    rfl
  · rw [leuart_txc_END_TX_body LEUART_TX_EM w h,
      sleep_unblock_mode_of_zero _ _ hz.symm]
    rfl

/-- C22: the unexpected signals of the serial sequencer.  For every world and
signal: TXBL in `END_TX`, TXC in `EN_TX` or `TX_DATA`, and either signal in a
state value outside the enumeration, make the handler fail with the world at
the failure the world on entry, so no context field, posted event or vote
has changed; on the three remaining pairs the handler does not take that path
and returns normally (TXC in `END_TX` calls `sleep_unblock_mode`, whose own
assertion holds for every `LEUART_TX_EM` counter that is a non-negative
`int`). -/
theorem leuart_unexpected_signal_fatal (LEUART_TX_EM : Fin MAX_ENERGY_MODES) (w : LeuartWorld)
    (g : LeuartSignal) :
    (leuart_expected_transition w.leuart_state.state g = false →
      leuart_signal LEUART_TX_EM g w = Outcome.fatal w) ∧
    (leuart_expected_transition w.leuart_state.state g = true →
      0 ≤ w.lowest_energy_mode LEUART_TX_EM → w.lowest_energy_mode LEUART_TX_EM ≤ INT_MAX →
      (leuart_signal LEUART_TX_EM g w).isFatal = false) ∧
    (leuart_expected_transition END_TX LeuartSignal.TXBL = false ∧
      leuart_expected_transition EN_TX LeuartSignal.TXC = false ∧
      leuart_expected_transition TX_DATA LeuartSignal.TXC = false ∧
      leuart_expected_transition EN_TX LeuartSignal.TXBL = true ∧
      leuart_expected_transition TX_DATA LeuartSignal.TXBL = true ∧
      leuart_expected_transition END_TX LeuartSignal.TXC = true) ∧
    (3 ≤ w.leuart_state.state → leuart_expected_transition w.leuart_state.state g = false) := by
  refine ⟨?_, ?_, by decide, ?_⟩
  · intro hex
    rcases leuart_state_cases w.leuart_state.state with hs | hs | hs | ⟨n, hs⟩
    · cases g with
      | TXBL => rw [hs] at hex; exact absurd hex (by decide)
      | TXC => exact leuart_txc_fatal LEUART_TX_EM w (by rw [hs]; decide)
    · cases g with
      | TXBL => rw [hs] at hex; exact absurd hex (by decide)
      | TXC => exact leuart_txc_fatal LEUART_TX_EM w (by rw [hs]; decide)
    · cases g with
      | TXBL => exact leuart_txbl_fatal w (by rw [hs])
      | TXC => rw [hs] at hex; exact absurd hex (by decide)
    · cases g with
      | TXBL => exact leuart_txbl_fatal w (by rw [hs]; omega)
      | TXC =>
        exact leuart_txc_fatal LEUART_TX_EM w
          (by rw [hs]; exact Nat.succ_ne_succ.mpr (by omega))
  · intro hex h0 hmax
    rcases leuart_state_cases w.leuart_state.state with hs | hs | hs | ⟨n, hs⟩
    · cases g with
      | TXBL =>
        show (leuart_txbl w).isFatal = false
        rw [leuart_txbl_EN_TX w hs]; rfl
      | TXC => rw [hs] at hex; exact absurd hex (by decide)
    · cases g with
      | TXBL => exact leuart_txbl_TX_DATA_returns w hs
      | TXC => rw [hs] at hex; exact absurd hex (by decide)
    · cases g with
      | TXBL => rw [hs] at hex; exact absurd hex (by decide)
      | TXC => exact leuart_txc_END_TX_returns LEUART_TX_EM w hs h0 hmax
    · rw [hs] at hex
      cases g <;> simp [leuart_expected_transition, EN_TX, TX_DATA, END_TX] at hex
  · intro h3
    rcases leuart_state_cases w.leuart_state.state with hs | hs | hs | ⟨n, hs⟩
    · rw [hs] at h3; exact absurd h3 (by decide)
    · rw [hs] at h3; exact absurd h3 (by decide)
    · rw [hs] at h3; exact absurd h3 (by decide)
    · rw [hs]
      cases g <;> simp [leuart_expected_transition, EN_TX, TX_DATA, END_TX]

/-! ## Theorems: main loop and humidity conversion -/

/-- Tests none of which matches the register leave it alone and call nothing. -/
theorem main_tests_no_match (effect : MainCall → Nat → Nat) (l : List (Nat × MainCall))
    (e : Nat) (calls : List MainCall) (h : ∀ p ∈ l, e ≠ p.1) :
    l.foldl (main_test effect) (e, calls) = (e, calls) := by
  induction l with
  | nil => rfl
  | cons p l ih =>
    have hp : e ≠ p.1 := h p (List.mem_cons_self _ _)
    have hstep : main_test effect (e, calls) p = (e, calls) := by
      unfold main_test get_scheduled_events
      rw [if_neg hp]
    rw [List.foldl_cons, hstep]
    exact ih (fun q hq => h q (List.mem_cons_of_mem _ hq))

/-- A register with two different bits set is neither 0 nor a single bit. -/
theorem two_bits_ne_single (e i j : Nat) (hij : i ≠ j) (hi : e.testBit i = true)
    (hj : e.testBit j = true) : e ≠ 0 ∧ ∀ k, e ≠ 2 ^ k := by
  constructor
  · intro h0
    rw [h0, Nat.zero_testBit] at hi
    cases hi
  · intro k hk
    rw [hk] at hi hj
    have h1 : k = i := by
      by_contra hne
      rw [Nat.testBit_two_pow_of_ne hne] at hi
      cases hi
    have h2 : k = j := by
      by_contra hne
      rw [Nat.testBit_two_pow_of_ne hne] at hj
      cases hj
    exact hij (h1.symm.trans h2)

/-- C27: a pass of the main loop with two or more events pending.  With every
event id a single bit (a power of two), whatever the handlers would do to the
register, and no interrupt arriving: if the value of `get_scheduled_events()`
has two different bits set, then one pass of the loop body calls neither
`enter_sleep` nor any `scheduled_*` handler and leaves the event register as
it was, and so does any number of passes. -/
theorem main_loop_pass_two_events (ids : AppIds) (effect : MainCall → Nat → Nat)
    (event_scheduled i j : Nat)
    (hids : ∀ p ∈ main_tests ids, ∃ k, p.1 = 2 ^ k)
    (hij : i ≠ j) (hi : (get_scheduled_events event_scheduled).testBit i = true)
    (hj : (get_scheduled_events event_scheduled).testBit j = true) :
    main_loop_pass ids effect event_scheduled = (event_scheduled, []) ∧
    ∀ n, main_loop_passes ids effect n event_scheduled = (event_scheduled, []) := by
  have hne := two_bits_ne_single event_scheduled i j hij hi hj
  have hpass : main_loop_pass ids effect event_scheduled = (event_scheduled, []) := by
    unfold main_loop_pass get_scheduled_events
    rw [if_neg hne.1]
    apply main_tests_no_match
    intro p hp
    obtain ⟨k, hk⟩ := hids p hp
    rw [hk]
    exact hne.2 k
  refine ⟨hpass, fun n => ?_⟩
  induction n with
  | zero => rw [main_loop_passes]
  | succ n ih =>
    rw [main_loop_passes, hpass]
    show ((main_loop_passes ids effect n event_scheduled).1,
      [] ++ (main_loop_passes ids effect n event_scheduled).2) = _
    rw [ih]
    rfl

/-- C27 witness: the ids 1, 2, 4, ..., 128 and the register 0x5 (two events
pending), with handlers that would clear the register. -/
theorem main_loop_pass_two_events_witness :
    main_loop_pass ⟨4, 1, 2, 8, 16, 32, 64, 128⟩ (fun _ _ => 0) 5 = (5, []) :=
  (main_loop_pass_two_events ⟨4, 1, 2, 8, 16, 32, 64, 128⟩ (fun _ _ => 0) 5 0 2
    (by
      intro p hp
      simp only [main_tests, List.mem_cons, List.mem_singleton, List.not_mem_nil,
        or_false] at hp
      rcases hp with rfl | rfl | rfl | rfl | rfl | rfl | rfl | rfl
      · exact ⟨2, rfl⟩
      · exact ⟨0, rfl⟩
      · exact ⟨1, rfl⟩
      · exact ⟨3, rfl⟩
      · exact ⟨4, rfl⟩
      · exact ⟨5, rfl⟩
      · exact ⟨6, rfl⟩
      · exact ⟨7, rfl⟩)
    (by decide) (by decide) (by decide)).1

/-- C28: the humidity conversion on `uint32_t`.  For every raw reading `v` from
3146 to 65535 the value converted to `float` is the data-sheet humidity
`floor(125 * v / 65536) - 6`, between 0 and 119.  For every `v` below 3146
the data-sheet value is negative (from -6 to -1), and the `uint32_t`
subtraction wraps: the value converted is 2^32 more, at least 4294967290;
for `v = 0` it is 4294967290 where the data sheet gives -6. -/
theorem si7021_conversion_wraps :
    (∀ v, 3146 ≤ v → v ≤ 65535 →
      (si7021_conversion v : Int) = datasheet_rh v ∧
      0 ≤ datasheet_rh v ∧ datasheet_rh v ≤ 119) ∧
    (∀ v, v < 3146 →
      -6 ≤ datasheet_rh v ∧ datasheet_rh v < 0 ∧
      (si7021_conversion v : Int) = datasheet_rh v + 4294967296 ∧
      4294967290 ≤ si7021_conversion v) ∧
    si7021_conversion 0 = 4294967290 ∧ datasheet_rh 0 = -6 := by
  refine ⟨?_, ?_, by decide, by decide⟩
  · intro v h1 h2
    have hv : v % 2 ^ 32 = v := Nat.mod_eq_of_lt (by omega)
    have hp : 125 * v % 2 ^ 32 = 125 * v := Nat.mod_eq_of_lt (by omega)
    have hq1 : 6 ≤ 125 * v / 65536 := by omega
    have hq2 : 125 * v / 65536 ≤ 125 := by omega
    unfold si7021_conversion datasheet_rh
    rw [hv, hp]
    generalize 125 * v / 65536 = q at hq1 hq2
    omega
  · intro v h1
    have hv : v % 2 ^ 32 = v := Nat.mod_eq_of_lt (by omega)
    have hp : 125 * v % 2 ^ 32 = 125 * v := Nat.mod_eq_of_lt (by omega)
    have hq2 : 125 * v / 65536 < 6 := by omega
    unfold si7021_conversion datasheet_rh
    rw [hv, hp]
    generalize 125 * v / 65536 = q at hq2
    omega

end EmbeddedSoftware
